import Mathlib

/-!
# DeepLearningLib/DeepModel.cpp: data layers, convolve layers, deep model

A shallow embedding of `DeepModel.cpp`.

* A C++ AMP `array_view<float, 3>` is a `Volume`: three extents and a flat,
  row-major element list (the `std::vector` the view wraps).
* `float` is the element type `F` of the kernels, which use its operations `0`,
  `1`, `+`, `*`, unary `-`, `/` and `<=` only.  What the kernels compute is
  stated over an ordered field (`float` read as the real numbers); the bounds of
  the logistic activation are stated over `F32`, IEEE 754 binary32 with rounding
  to nearest, overflow, infinities and NaN.  `fast_math::expf` and
  `tinymt::next_single` come from libraries outside the repository and are
  parameters (`expf`, `next_single`).
* A constructor computes the size of its storage in `int`: a product outside the
  range of `int` is undefined behaviour, an extent that is not positive makes it
  throw.
* An `array_view` is a view: two views may be over the same storage.  The passes
  are also given on shared storage (`ConvolveLayer.PassUpShared`,
  `ConvolveLayer.PassDownShared`), where a write through one view is seen through
  every view over the same buffer; with the views over separate buffers these
  agree with the passes on volumes.
* An access outside an extent of an `array_view` (undefined behaviour in the
  source) and a failed `assert` are explicit failures (`Err`).  A stateful call
  returns the state it leaves behind together with the failure, if any (`Res`).
* An index past the end of a `std::vector` of layers is undefined behaviour: the
  outcome is marked `Err.undefinedBehaviour` and nothing is stated about it.
* `parallel_for_each` runs the kernel body once per index of the extent, as a
  sequential fold over a list of indices.
-/

namespace deep_learning_lib

/-- Ways a call can end other than normally: an `assert` that does not hold, an
index outside the extent of an `array_view`, an exception thrown by the library
(a constructor that cannot build its object), and undefined behaviour of the
language (an index past the end of a `std::vector`), after which nothing is known
of the program. -/
inductive Err
  | assertFailed
  | outOfRange
  | exception
  | undefinedBehaviour
  deriving DecidableEq, Repr

/-- The state a call leaves behind, and the failure that stopped it (if any). -/
structure Res (σ : Type) where
  state : σ
  err : Option Err

/-! ## Volumes: `array_view<T, 3>` -/

/-- An `array_view<T, 3>`: extents `(e0, e1, e2)` = (depth, width, height) over
flat row-major storage. -/
structure Volume (α : Type) where
  e0 : Nat
  e1 : Nat
  e2 : Nat
  data : List α

namespace Volume

variable {α : Type}

/-- Row-major position of `(i, j, k)` in the flat storage. -/
def flat (v : Volume α) (i j k : Nat) : Nat := (i * v.e1 + j) * v.e2 + k

/-- The index lies within the extent. -/
def inExtent (v : Volume α) (i j k : Nat) : Prop := i < v.e0 ∧ j < v.e1 ∧ k < v.e2

instance (v : Volume α) (i j k : Nat) : Decidable (v.inExtent i j k) := by
  unfold inExtent; infer_instance

/-- The storage has exactly one element per index of the extent. -/
def WF (v : Volume α) : Prop := v.data.length = v.e0 * v.e1 * v.e2

instance (v : Volume α) : Decidable v.WF := by
  unfold WF; infer_instance

/-- Element read `v[i, j, k]`; an index outside the extent fails. -/
def read (v : Volume α) (i j k : Nat) : Except Err α :=
  if v.inExtent i j k then
    match v.data[v.flat i j k]? with
    | some a => .ok a
    | none => .error .outOfRange
  else .error .outOfRange

/-- Element read at signed coordinates (`int` in the source): a negative
coordinate is outside the extent. -/
def readI (v : Volume α) (i j k : Int) : Except Err α :=
  if 0 ≤ i ∧ 0 ≤ j ∧ 0 ≤ k then v.read i.toNat j.toNat k.toNat
  else .error .outOfRange

/-- Element write `v[i, j, k] = a`; an index outside the extent fails. -/
def write (v : Volume α) (i j k : Nat) (a : α) : Except Err (Volume α) :=
  if v.inExtent i j k ∧ v.flat i j k < v.data.length then
    .ok { v with data := v.data.set (v.flat i j k) a }
  else .error .outOfRange

/-- Total element access for stating results: the element at `(i, j, k)`, or
`d` outside the storage. -/
def getD (v : Volume α) (i j k : Nat) (d : α) : α := v.data.getD (v.flat i j k) d

/-- The two volumes have the same extent. -/
def SameExtent {β : Type} (v : Volume α) (w : Volume β) : Prop :=
  v.e0 = w.e0 ∧ v.e1 = w.e1 ∧ v.e2 = w.e2

instance {β : Type} (v : Volume α) (w : Volume β) : Decidable (v.SameExtent w) := by
  unfold SameExtent; infer_instance

end Volume

/-- All indices of the extent `(e0, e1, e2)`, in row-major order: the domain
of a `parallel_for_each` over a three-dimensional extent. -/
def extentIdx (e0 e1 e2 : Nat) : List (Nat × Nat × Nat) :=
  (List.range e0).flatMap fun i => (List.range e1).flatMap fun j => (List.range e2).map fun k => (i, j, k)

/-- The `for (int i = 0; i < n; i++)` loop threading an accumulator through a
body that may fail. -/
def forLoop {β : Type} (n : Nat) (body : Nat → β → Except Err β) (init : β) : Except Err β :=
  (List.range n).foldlM (fun acc i => body i acc) init

/-- The `parallel_for_each` dispatch: the kernel body runs once per index; a
run that fails stops the call, which keeps the writes made so far. -/
def parallel_for_each {ι σ : Type} (body : ι → σ → Except Err σ) : List ι → σ → Res σ
  | [], s => ⟨s, none⟩
  | i :: is, s =>
    match body i s with
    | .ok s' => parallel_for_each body is s'
    | .error e => ⟨s, some e⟩

/-- A sequential loop over `is` whose body is a stateful call: a failing
iteration ends the loop with the state reached so far. -/
def forRes {σ : Type} (body : Nat → σ → Res σ) : List Nat → σ → Res σ
  | [], s => ⟨s, none⟩
  | i :: is, s =>
    match body i s with
    | ⟨s', none⟩ => forRes body is s'
    | ⟨s', some e⟩ => ⟨s', some e⟩

/-! ## Weight tensors: `array_view<float, 4>` -/

/-- An `array_view<T, 4>`: extents `(e0, e1, e2, e3)` = (neuron count, depth,
width, height) over flat row-major storage. -/
structure Tensor4 (α : Type) where
  e0 : Nat
  e1 : Nat
  e2 : Nat
  e3 : Nat
  data : List α

namespace Tensor4

variable {α : Type}

/-- The storage has exactly one element per index of the extent. -/
def WF (t : Tensor4 α) : Prop := t.data.length = t.e0 * t.e1 * t.e2 * t.e3

instance (t : Tensor4 α) : Decidable t.WF := by
  unfold WF; infer_instance

/-- The projection `t[n]`: the three-dimensional section of neuron `n`. -/
def project (t : Tensor4 α) (n : Nat) : Except Err (Volume α) :=
  if n < t.e0 then
    .ok ⟨t.e1, t.e2, t.e3, (t.data.drop (n * (t.e1 * t.e2 * t.e3))).take (t.e1 * t.e2 * t.e3)⟩
  else .error .outOfRange

/-- Total element access for stating results: `t[n, d, u, v]`, or `dflt`
outside the storage. -/
def getD (t : Tensor4 α) (n d u v : Nat) (dflt : α) : α :=
  t.data.getD (((n * t.e1 + d) * t.e2 + u) * t.e3 + v) dflt

end Tensor4

/-! ## The layers -/

/-- The three buffers a pass writes: the probability volume, the sample volume
and the random field (`top_layer_prob`, `top_layer_sample`, `rand_collection`
in `PassUp`; `bottom_layer_prob`, `bottom_layer_sample`, `rand_collection` in
`PassDown`).  The random field holds one generator state per unit. -/
structure Outputs (F S : Type) where
  prob : Volume F
  sample : Volume F
  rand_collection : Volume S

/-- A `DataLayer`: `data_` with the extent of `data_view_` (the view wraps
`data_`), the random field, the generated buffer and the memory. -/
structure DataLayer (F S : Type) where
  data_ : List F
  depth : Nat
  width : Nat
  height : Nat
  rand_collection_ : Volume S
  data_generated_ : Volume F
  memory_ : List (Volume F)

/-- A `ConvolveLayer`: `weights_` seen through `weights_view_`. -/
structure ConvolveLayer (F : Type) where
  weights_view_ : Tensor4 F

/-- A `DeepModel`: the data layers and the convolve layers between them. -/
structure DeepModel (F S : Type) where
  data_layers_ : List (DataLayer F S)
  convolve_layers_ : List (ConvolveLayer F)

section Layers

variable {F S : Type}

/-- The view `data_view_` of a data layer: its extent over `data_`. -/
def DataLayer.data_view_ (self : DataLayer F S) : Volume F :=
  ⟨self.depth, self.width, self.height, self.data_⟩

/-- The members that `DataLayer::DataLayer(depth, width, height)` builds (lines
13-20) once the three extents are valid.  `data_` is value-initialised; the
contents of the random field, of the generated buffer and of the memory entries
are whatever the allocation holds (`rs`, `junk`).  `kMemorySize` is declared in
the header and is a parameter. -/
def DataLayer.allocate [Zero F] (kMemorySize : Nat) (rs : Nat → S) (junk : Nat → F)
    (depth width height : Nat) : DataLayer F S :=
  { data_ := List.replicate (depth * width * height) 0
    depth := depth
    width := width
    height := height
    rand_collection_ := ⟨depth, width, height, (List.range (depth * width * height)).map rs⟩
    data_generated_ := ⟨depth, width, height, (List.range (depth * width * height)).map junk⟩
    memory_ := List.replicate kMemorySize
      ⟨depth, width, height, (List.range (depth * width * height)).map junk⟩ }

/-- The values of a 32-bit `int`. -/
@[reducible] def fitsInt (x : Int) : Prop := -2147483648 ≤ x ∧ x ≤ 2147483647

/-- `DataLayer::DataLayer(int depth, int width, int height)` (lines 12-21).
Line 13 computes `depth * width * height` in `int`: a product that leaves the
range of `int`, at either multiplication, is undefined behaviour.  Otherwise an
extent that is not positive makes the constructor throw: `std::vector` on a
negative size, `array_view` and `array` on an extent that is zero or negative.
With three positive extents and a product within `int` the members are built.
Exhaustion of memory is not part of the model. -/
def DataLayer.ctor [Zero F] (kMemorySize : Nat) (rs : Nat → S) (junk : Nat → F)
    (depth width height : Int) : Except Err (DataLayer F S) :=
  if fitsInt (depth * width) ∧ fitsInt (depth * width * height) then
    if 0 < depth ∧ 0 < width ∧ 0 < height then
      .ok (DataLayer.allocate kMemorySize rs junk depth.toNat width.toNat height.toNat)
    else .error .exception
  else .error .undefinedBehaviour

/-- `DataLayer::DataLayer(DataLayer&& other)` (lines 23-29): every member is
taken over from `other`. -/
def DataLayer.move (other : DataLayer F S) : DataLayer F S :=
  { data_ := other.data_
    depth := other.data_view_.e0
    width := other.data_view_.e1
    height := other.data_view_.e2
    rand_collection_ := other.rand_collection_
    data_generated_ := other.data_generated_
    memory_ := other.memory_ }

/-- `DataLayer::SetData` (lines 31-40): the assertion on the sizes, then
`data_ = data` between `discard_data()` and `refresh()` of the view. -/
def DataLayer.SetData (self : DataLayer F S) (data : List F) : Res (DataLayer F S) :=
  if data.length = self.data_.length then
    ⟨{ self with data_ := data }, none⟩
  else ⟨self, some .assertFailed⟩

/-- The members that `ConvolveLayer::ConvolveLayer` builds (lines 44-45) once the
four extents are valid: value-initialised weights under a four-dimensional
view. -/
def ConvolveLayer.allocate [Zero F] (num_neuron neuron_depth neuron_width neuron_height : Nat) :
    ConvolveLayer F :=
  ⟨⟨num_neuron, neuron_depth, neuron_width, neuron_height,
    List.replicate (num_neuron * neuron_depth * neuron_width * neuron_height) 0⟩⟩

/-- `ConvolveLayer::ConvolveLayer(int num_neuron, int neuron_depth,
int neuron_width, int neuron_height)` (lines 43-47).  As in the constructor of
`DataLayer`, line 44 computes the product of the extents in `int` (undefined
behaviour when a product leaves the range of `int`), and an extent that is not
positive makes the constructor throw. -/
def ConvolveLayer.ctor [Zero F] (num_neuron neuron_depth neuron_width neuron_height : Int) :
    Except Err (ConvolveLayer F) :=
  if fitsInt (num_neuron * neuron_depth) ∧ fitsInt (num_neuron * neuron_depth * neuron_width) ∧
      fitsInt (num_neuron * neuron_depth * neuron_width * neuron_height) then
    if 0 < num_neuron ∧ 0 < neuron_depth ∧ 0 < neuron_width ∧ 0 < neuron_height then
      .ok (ConvolveLayer.allocate num_neuron.toNat neuron_depth.toNat neuron_width.toNat
        neuron_height.toNat)
    else .error .exception
  else .error .undefinedBehaviour

/-- Modelled from the spec: the accessor `neuron_num()` is declared in the
header, which is not among the sources; it is the neuron count, the first extent
of the weight tensor. -/
def ConvolveLayer.neuron_num (self : ConvolveLayer F) : Nat := self.weights_view_.e0

/-- The range-based loop of `RandomizeParams` (lines 152-155): each weight in
turn is replaced by the next draw. -/
def drawEach {G : Type} (distribution : G → F × G) : List F → G → List F
  | [], _ => []
  | _ :: ws, g => (distribution g).1 :: drawEach distribution ws (distribution g).2

/-- `ConvolveLayer::RandomizeParams` (lines 147-159).  The engine and the normal
distribution belong to the standard library and are parameters: `engine seed` is
the generator state after seeding, `distribution` draws one value and advances
the state. -/
def ConvolveLayer.RandomizeParams {G : Type} (engine : Nat → G) (distribution : G → F × G)
    (self : ConvolveLayer F) (seed : Nat) : ConvolveLayer F :=
  { weights_view_ :=
      { self.weights_view_ with
        data := drawEach distribution self.weights_view_.data (engine seed) } }

/-- All indices of a four-dimensional extent, in row-major order. -/
def extentIdx4 (e0 e1 e2 e3 : Nat) : List (Nat × Nat × Nat × Nat) :=
  (List.range e0).flatMap fun n => (extentIdx e1 e2 e3).map fun i => (n, i)

/-- `ConvolveLayer::Train` (lines 139-145): one kernel run per weight index, with
an empty kernel body. -/
def ConvolveLayer.Train (self : ConvolveLayer F) (_bottom_layer _top_layer : DataLayer F S)
    (_learning_rate : F) : ConvolveLayer F :=
  (parallel_for_each (fun (_ : Nat × Nat × Nat × Nat) (c : ConvolveLayer F) => .ok c)
    (extentIdx4 self.weights_view_.e0 self.weights_view_.e1 self.weights_view_.e2
      self.weights_view_.e3) self).state

end Layers

/-! ## The kernels -/

section Kernels

variable {F S : Type} [Zero F] [One F] [Add F] [Mul F] [Neg F] [Div F] [LE F]
  [DecidableRel (fun a b : F => a ≤ b)]

/-- The logistic activation `1.0f / (1.0f + expf(-result))` (lines 88, 133). -/
def logistic (expf : F → F) (result : F) : F := 1 / (1 + expf (-result))

/-- The last three statements of both kernel bodies (lines 88-90, 133-135):
the probability is stored, one value is drawn from the stream of the unit, and
the sample is `1` when the draw is at most the probability, else `0`. -/
def activate (expf : F → F) (next_single : S → F × S) (idx : Nat × Nat × Nat) (result : F)
    (st : Outputs F S) : Except Err (Outputs F S) := do
  let prob := logistic expf result
  let p ← st.prob.write idx.1 idx.2.1 idx.2.2 prob
  let s ← st.rand_collection.read idx.1 idx.2.1 idx.2.2
  let draw := next_single s
  let rc ← st.rand_collection.write idx.1 idx.2.1 idx.2.2 draw.2
  let smp ← st.sample.write idx.1 idx.2.1 idx.2.2 (if draw.1 ≤ prob then 1 else 0)
  pure ⟨p, smp, rc⟩

/-- The three nested loops of the `PassUp` kernel (lines 70-85): the weighted
sum over the footprint of neuron `idx[0]`, based at `(0, idx[1], idx[2])`. -/
def ConvolveLayer.PassUp.sum (neuron_weights : Tensor4 F) (bottom_layer : Volume F)
    (idx : Nat × Nat × Nat) : Except Err F := do
  let current_neuron ← neuron_weights.project idx.1
  forLoop current_neuron.e0 (fun depth_idx result =>
    forLoop current_neuron.e1 (fun width_idx result =>
      forLoop current_neuron.e2 (fun height_idx result => do
        let b ← bottom_layer.read (0 + depth_idx) (idx.2.1 + width_idx) (idx.2.2 + height_idx)
        let w ← current_neuron.read depth_idx width_idx height_idx
        pure (result + b * w)) result) result) 0

/-- The kernel body of `PassUp` (lines 68-91) for the output unit `idx`. -/
def ConvolveLayer.PassUp.kernel (expf : F → F) (next_single : S → F × S)
    (neuron_weights : Tensor4 F) (bottom_layer : Volume F)
    (idx : Nat × Nat × Nat) (st : Outputs F S) : Except Err (Outputs F S) := do
  let result ← ConvolveLayer.PassUp.sum neuron_weights bottom_layer idx
  activate expf next_single idx result st

/-- `ConvolveLayer::PassUp` (lines 54-92): the assertion on the top depth, then
one kernel run per index of the extent of `top_layer_prob`.  (`discard_data()`
only tells the runtime that the old contents need not be kept.) -/
def ConvolveLayer.PassUp (expf : F → F) (next_single : S → F × S) (self : ConvolveLayer F)
    (bottom_layer : Volume F) (st : Outputs F S) : Res (Outputs F S) :=
  if st.prob.e0 = self.neuron_num then
    parallel_for_each
      (ConvolveLayer.PassUp.kernel expf next_single self.weights_view_ bottom_layer)
      (extentIdx st.prob.e0 st.prob.e1 st.prob.e2) st
  else ⟨st, some .assertFailed⟩

/-- The loops of the `PassDown` kernel (lines 110-130) for the bottom unit
`idx`: over every neuron and every kernel offset, guarded by
`cur_width_idx - width_idx >= 0 && cur_height_idx - height_idx >= 0`. -/
def ConvolveLayer.PassDown.sum (neuron_weights : Tensor4 F) (top_layer : Volume F)
    (idx : Nat × Nat × Nat) : Except Err F :=
  let cur_depth_idx := idx.1
  let cur_width_idx := idx.2.1
  let cur_height_idx := idx.2.2
  forLoop neuron_weights.e0 (fun neuron_idx result => do
    let current_neuron ← neuron_weights.project neuron_idx
    forLoop neuron_weights.e2 (fun width_idx result =>
      forLoop neuron_weights.e3 (fun height_idx result =>
        if (cur_width_idx : Int) - width_idx ≥ 0 ∧ (cur_height_idx : Int) - height_idx ≥ 0 then do
          let w ← current_neuron.read cur_depth_idx cur_width_idx cur_height_idx
          let t ← top_layer.readI neuron_idx ((cur_width_idx : Int) - width_idx)
            ((cur_height_idx : Int) - height_idx)
          pure (result + w * t)
        else pure result) result) result) 0

/-- The kernel body of `PassDown` (lines 108-136) for the bottom unit `idx`. -/
def ConvolveLayer.PassDown.kernel (expf : F → F) (next_single : S → F × S)
    (neuron_weights : Tensor4 F) (top_layer : Volume F)
    (idx : Nat × Nat × Nat) (st : Outputs F S) : Except Err (Outputs F S) := do
  let result ← ConvolveLayer.PassDown.sum neuron_weights top_layer idx
  activate expf next_single idx result st

/-- `ConvolveLayer::PassDown` (lines 94-137): the assertion on the top depth,
then one kernel run per index of the extent of `bottom_layer_prob`. -/
def ConvolveLayer.PassDown (expf : F → F) (next_single : S → F × S) (self : ConvolveLayer F)
    (top_layer : Volume F) (st : Outputs F S) : Res (Outputs F S) :=
  if top_layer.e0 = self.neuron_num then
    parallel_for_each
      (ConvolveLayer.PassDown.kernel expf next_single self.weights_view_ top_layer)
      (extentIdx st.prob.e0 st.prob.e1 st.prob.e2) st
  else ⟨st, some .assertFailed⟩

/-- Every read of `bottom_layer` made by the `PassUp` kernel, at any output unit
of the extent `(e0, e1, e2)`, is within the extent of `bottom_layer`. -/
def ConvolveLayer.PassUp.ReadsInRange (self : ConvolveLayer F) (bottom_layer : Volume F)
    (e0 e1 e2 : Nat) : Prop :=
  ∀ n x y, n < e0 → x < e1 → y < e2 →
    ∀ d u v, d < self.weights_view_.e1 → u < self.weights_view_.e2 → v < self.weights_view_.e3 →
      bottom_layer.inExtent d (x + u) (y + v)

/-- The buffers handed to a pass are sound: each storage has one element per
index of its extent (a property of every `array_view`), and the sample volume
and the random field have the extent of the probability volume. -/
structure Outputs.Sound (st : Outputs F S) : Prop where
  prob_WF : st.prob.WF
  sample_WF : st.sample.WF
  rand_WF : st.rand_collection.WF
  sample_extent : st.sample.SameExtent st.prob
  rand_extent : st.rand_collection.SameExtent st.prob

/-- A valid-convolution shape configuration for `PassUp`: the top depth is the
neuron count, the bottom depth is the neuron depth, and the top extent plus the
kernel footprint fits the bottom extent in width and height. -/
structure ConvolveLayer.PassUp.ValidShape (layer : ConvolveLayer F) (bottom_layer : Volume F)
    (st : Outputs F S) : Prop where
  weights_WF : layer.weights_view_.WF
  bottom_WF : bottom_layer.WF
  sound : st.Sound
  top_depth : st.prob.e0 = layer.neuron_num
  bottom_depth : bottom_layer.e0 = layer.weights_view_.e1
  width : st.prob.e1 + layer.weights_view_.e2 ≤ bottom_layer.e1 + 1
  height : st.prob.e2 + layer.weights_view_.e3 ≤ bottom_layer.e2 + 1

/-- Every read made by the `PassDown` kernel at the bottom unit `idx` is within
range: the weight read `current_neuron(d, x, y)` and, for every neuron and every
offset that passes the guard, the read `top(n, x - u, y - v)`. -/
def ConvolveLayer.PassDown.ReadsInRange (w : Tensor4 F) (top_layer : Volume F)
    (idx : Nat × Nat × Nat) : Prop :=
  (idx.1 < w.e1 ∧ idx.2.1 < w.e2 ∧ idx.2.2 < w.e3) ∧
  ∀ n u v, n < w.e0 → u < w.e2 → v < w.e3 → u ≤ idx.2.1 → v ≤ idx.2.2 →
    top_layer.inExtent n (idx.2.1 - u) (idx.2.2 - v)

/-- A valid-convolution shape configuration for `PassDown`: the top depth is the
neuron count, the bottom depth is the neuron depth, and the top width and height
are the bottom ones minus the kernel ones plus one. -/
structure ConvolveLayer.PassDown.ValidShape (layer : ConvolveLayer F) (top_layer : Volume F)
    (st : Outputs F S) : Prop where
  weights_WF : layer.weights_view_.WF
  top_WF : top_layer.WF
  sound : st.Sound
  top_depth : top_layer.e0 = layer.neuron_num
  bottom_depth : st.prob.e0 = layer.weights_view_.e1
  width : top_layer.e1 = st.prob.e1 - layer.weights_view_.e2 + 1
  height : top_layer.e2 = st.prob.e2 - layer.weights_view_.e3 + 1

/-- The buffers after a successful `activate` at `idx`, when the stream of the
unit was in state `s`. -/
def activated (expf : F → F) (next_single : S → F × S) (idx : Nat × Nat × Nat) (result : F)
    (s : S) (st : Outputs F S) : Outputs F S :=
  ⟨⟨st.prob.e0, st.prob.e1, st.prob.e2,
      st.prob.data.set (st.prob.flat idx.1 idx.2.1 idx.2.2) (logistic expf result)⟩,
    ⟨st.sample.e0, st.sample.e1, st.sample.e2,
      st.sample.data.set (st.sample.flat idx.1 idx.2.1 idx.2.2)
        (if (next_single s).1 ≤ logistic expf result then 1 else 0)⟩,
    ⟨st.rand_collection.e0, st.rand_collection.e1, st.rand_collection.e2,
      st.rand_collection.data.set (st.rand_collection.flat idx.1 idx.2.1 idx.2.2)
        (next_single s).2⟩⟩

/-- What a dispatch of kernel runs over the indices `idxs` leaves behind, when
the run at `idx` ends in `activate` on the weighted sum `val idx`: the buffers
keep their extents and sizes; at an index of `idxs` the probability is the
logistic of the sum, the stream of the unit has advanced by one draw and the
sample compares that draw with the probability; elsewhere nothing changed. -/
structure Dispatched (expf : F → F) (next_single : S → F × S) (val : Nat × Nat × Nat → F)
    (idxs : List (Nat × Nat × Nat)) (st0 st : Outputs F S) : Prop where
  prob_extent : st.prob.SameExtent st0.prob
  sample_extent : st.sample.SameExtent st0.sample
  rand_extent : st.rand_collection.SameExtent st0.rand_collection
  prob_WF : st.prob.WF
  sample_WF : st.sample.WF
  rand_WF : st.rand_collection.WF
  written : ∀ idx ∈ idxs, ∃ s, st0.rand_collection.read idx.1 idx.2.1 idx.2.2 = .ok s ∧
    st.prob.read idx.1 idx.2.1 idx.2.2 = .ok (logistic expf (val idx)) ∧
    st.sample.read idx.1 idx.2.1 idx.2.2
      = .ok (if (next_single s).1 ≤ logistic expf (val idx) then 1 else 0) ∧
    st.rand_collection.read idx.1 idx.2.1 idx.2.2 = .ok (next_single s).2
  frame : ∀ idx, idx ∉ idxs →
    st.prob.read idx.1 idx.2.1 idx.2.2 = st0.prob.read idx.1 idx.2.1 idx.2.2 ∧
    st.sample.read idx.1 idx.2.1 idx.2.2 = st0.sample.read idx.1 idx.2.1 idx.2.2 ∧
    st.rand_collection.read idx.1 idx.2.1 idx.2.2
      = st0.rand_collection.read idx.1 idx.2.1 idx.2.2

end Kernels

section KernelSums

variable {F : Type} [LinearOrderedField F]

/-- The weighted sum of the `PassUp` kernel as a closed formula: the sum over
the footprint `d < D`, `u < KW`, `v < KH` of
`bottom[d, x + u, y + v] * w[n, d, u, v]`. -/
def upSum (w : Tensor4 F) (bottom : Volume F) (idx : Nat × Nat × Nat) : F :=
  ∑ d in Finset.range w.e1, ∑ u in Finset.range w.e2, ∑ v in Finset.range w.e3,
    bottom.getD d (idx.2.1 + u) (idx.2.2 + v) 0 * w.getD idx.1 d u v 0

/-- The weighted sum of the `PassDown` kernel as a closed formula, as the source
forms it: over every neuron `n` and every kernel offset `(u, v)` with
`x - u ≥ 0` and `y - v ≥ 0`, the product of `current_neuron(d, x, y)`, that is
`w[n, d, x, y]`, and `top[n, x - u, y - v]`. -/
def downSum (w : Tensor4 F) (top : Volume F) (idx : Nat × Nat × Nat) : F :=
  ∑ n in Finset.range w.e0, ∑ u in Finset.range w.e2, ∑ v in Finset.range w.e3,
    if u ≤ idx.2.1 ∧ v ≤ idx.2.2 then
      w.getD n idx.1 idx.2.1 idx.2.2 0 * top.getD n (idx.2.1 - u) (idx.2.2 - v) 0
    else 0

/-- The transposed convolution in the words of the specification: over every
neuron `n` and every kernel offset `(u, v)` with `x - u ≥ 0` and `y - v ≥ 0`, the
product of `w[n, d, u, v]` and `top[n, x - u, y - v]`. -/
def transposedSum (w : Tensor4 F) (top : Volume F) (idx : Nat × Nat × Nat) : F :=
  ∑ n in Finset.range w.e0, ∑ u in Finset.range w.e2, ∑ v in Finset.range w.e3,
    if u ≤ idx.2.1 ∧ v ≤ idx.2.2 then
      w.getD n idx.1 u v 0 * top.getD n (idx.2.1 - u) (idx.2.2 - v) 0
    else 0

end KernelSums

/-! ## The deep model -/

/-! ## Binary32 arithmetic

`float` is the IEEE 754 binary32 format.  A value is finite (it is read as the
rational number it denotes), infinite, or not a number; the result of an
operation on finite values is the exact result rounded to the nearest binary32
value, a tie to the even significand, and overflows to an infinity.  Zero has no
sign in the model: the kernels divide by `1 + expf(..)` only. -/

section Binary32

/-- Round to the nearest integer, a tie to the even one. -/
def roundEven (y : ℚ) : ℤ :=
  if y - ⌊y⌋ < 1 / 2 then ⌊y⌋
  else if 1 / 2 < y - ⌊y⌋ then ⌊y⌋ + 1
  else if ⌊y⌋ % 2 = 0 then ⌊y⌋ else ⌊y⌋ + 1

/-- The spacing of the binary32 values at `x`: `2 ^ (e - 23)` where
`2 ^ e ≤ |x| < 2 ^ (e + 1)`, and `2 ^ (-149)` below `2 ^ (-126)` (subnormal
values). -/
def quantum32 (x : ℚ) : ℚ := (2 : ℚ) ^ (max (Int.log 2 |x|) (-126) - 23)

/-- The multiple of the spacing at `x` nearest to `x`, a tie to the even one. -/
def round32 (x : ℚ) : ℚ := roundEven (x / quantum32 x) * quantum32 x

/-- The largest finite binary32 value, `(2 ^ 24 - 1) * 2 ^ 104`. -/
def maxFinite32 : ℚ := (2 ^ 24 - 1) * 2 ^ 104

/-- A value of `float`: finite, an infinity, or not a number. -/
inductive F32
  | fin (q : ℚ)
  | inf (negative : Bool)
  | nan
  deriving DecidableEq

/-- The binary32 result of an operation whose exact result is `x`. -/
def F32.ofRat (x : ℚ) : F32 :=
  if maxFinite32 < |round32 x| then .inf (decide (x < 0)) else .fin (round32 x)

/-- Binary32 addition. -/
def F32.add : F32 → F32 → F32
  | .fin a, .fin b => F32.ofRat (a + b)
  | .fin _, .inf s => .inf s
  | .inf s, .fin _ => .inf s
  | .inf s, .inf t => if s = t then .inf s else .nan
  | _, _ => .nan

/-- Binary32 multiplication. -/
def F32.mul : F32 → F32 → F32
  | .fin a, .fin b => F32.ofRat (a * b)
  | .fin a, .inf s => if a = 0 then .nan else .inf (xor s (decide (a < 0)))
  | .inf s, .fin b => if b = 0 then .nan else .inf (xor s (decide (b < 0)))
  | .inf s, .inf t => .inf (xor s t)
  | _, _ => .nan

/-- Binary32 division. -/
def F32.div : F32 → F32 → F32
  | .fin a, .fin b =>
    if b = 0 then (if a = 0 then .nan else .inf (decide (a < 0))) else F32.ofRat (a / b)
  | .fin _, .inf _ => .fin 0
  | .inf s, .fin b => .inf (xor s (decide (b < 0)))
  | _, _ => .nan

/-- Binary32 negation. -/
def F32.neg : F32 → F32
  | .fin a => .fin (-a)
  | .inf s => .inf (!s)
  | .nan => .nan

/-- The comparison `a <= b` of binary32 values: false when either is not a
number. -/
def F32.le : F32 → F32 → Bool
  | .fin a, .fin b => decide (a ≤ b)
  | .fin _, .inf s => !s
  | .inf s, .fin _ => s
  | .inf s, .inf t => s || !t
  | _, _ => false

instance : Zero F32 := ⟨.fin 0⟩

instance : One F32 := ⟨.fin 1⟩

instance : Add F32 := ⟨F32.add⟩

instance : Mul F32 := ⟨F32.mul⟩

instance : Div F32 := ⟨F32.div⟩

instance : Neg F32 := ⟨F32.neg⟩

instance : LE F32 := ⟨fun a b => F32.le a b = true⟩

instance : DecidableRel (fun a b : F32 => a ≤ b) := fun a b =>
  inferInstanceAs (Decidable (F32.le a b = true))

/-- A stand-in for `fast_math::expf` in the examples: at `-17` the binary32 value
nearest to `exp(-17)`, at `100` the overflow to `+inf`, at `-inf` the value `0`,
at `+inf` the value `+inf`; at every other finite argument the value `1`. -/
def expf32 : F32 → F32
  | .fin q =>
    if q = -17 then .fin (11652889 / 2 ^ 48) else if q = 100 then .inf false else .fin 1
  | .inf s => if s then .fin 0 else .inf false
  | .nan => .nan

/-- A stand-in generator over binary32: the draw is `1 / 2`, the state advances
by one. -/
def next_single32 : Nat → F32 × Nat := fun s => (.fin (1 / 2), s + 1)

/-- One neuron `1×1×1` of weight `1.0f`. -/
def unit_layer32 : ConvolveLayer F32 := ⟨⟨1, 1, 1, 1, [1]⟩⟩

/-- A bottom volume `1×1×1` holding the finite value `q`. -/
def unit_bottom32 (q : ℚ) : Volume F32 := ⟨1, 1, 1, [.fin q]⟩

/-- Top buffers `1×1×1` over binary32. -/
def unit_top32 : Outputs F32 Nat := ⟨⟨1, 1, 1, [0]⟩, ⟨1, 1, 1, [0]⟩, ⟨1, 1, 1, [0]⟩⟩

end Binary32

section SharedStorage

variable {F S : Type} [Zero F] [One F] [Add F] [Mul F] [Neg F] [Div F] [LE F]
  [DecidableRel (fun a b : F => a ≤ b)]

/-- The contents of every buffer of `float`, by buffer.  Two `array_view`s over
the same buffer show the same elements. -/
@[reducible] def Storage (F : Type) : Type := Nat → List F

/-- An `array_view<float, 3>` as a view over storage: the buffer it is over and
its extent. -/
structure View3 where
  buf : Nat
  e0 : Nat
  e1 : Nat
  e2 : Nat

/-- An `array_view<float, 4>` as a view over storage. -/
structure View4 where
  buf : Nat
  e0 : Nat
  e1 : Nat
  e2 : Nat
  e3 : Nat

/-- What a three-dimensional view shows of the storage. -/
def View3.load (v : View3) (m : Storage F) : Volume F := ⟨v.e0, v.e1, v.e2, m v.buf⟩

/-- What a four-dimensional view shows of the storage. -/
def View4.load (v : View4) (m : Storage F) : Tensor4 F := ⟨v.e0, v.e1, v.e2, v.e3, m v.buf⟩

/-- The assignment `v[i, j, k] = a` through a view: the element changes in the
buffer the view is over. -/
def View3.store (v : View3) (m : Storage F) (i j k : Nat) (a : F) : Except Err (Storage F) :=
  match (v.load m).write i j k a with
  | .ok w => .ok (Function.update m v.buf w.data)
  | .error e => .error e

/-- What a pass works on: the storage of `float` and the random field (a
`tinymt_collection`, which no view of `float` is over). -/
structure Shared (F S : Type) where
  mem : Storage F
  rand_collection : Volume S

/-- The three buffers a pass writes, as the views `prob` and `sample` show
them. -/
def Shared.outputs (prob sample : View3) (σ : Shared F S) : Outputs F S :=
  ⟨prob.load σ.mem, sample.load σ.mem, σ.rand_collection⟩

/-- The last three statements of both kernel bodies (lines 88-90, 133-135) on
storage: the assignments go through the views `prob` and `sample`. -/
def activateShared (expf : F → F) (next_single : S → F × S) (prob sample : View3)
    (idx : Nat × Nat × Nat) (result : F) (σ : Shared F S) : Except Err (Shared F S) := do
  let p := logistic expf result
  let m1 ← prob.store σ.mem idx.1 idx.2.1 idx.2.2 p
  let s ← σ.rand_collection.read idx.1 idx.2.1 idx.2.2
  let draw := next_single s
  let rc ← σ.rand_collection.write idx.1 idx.2.1 idx.2.2 draw.2
  let m2 ← sample.store m1 idx.1 idx.2.1 idx.2.2 (if draw.1 ≤ p then 1 else 0)
  pure ⟨m2, rc⟩

/-- The kernel body of `PassUp` (lines 68-91) on storage: the loops read what
the views `neuron_weights` and `bottom_layer` show when the kernel runs. -/
def ConvolveLayer.PassUp.kernelShared (expf : F → F) (next_single : S → F × S)
    (neuron_weights : View4) (bottom_layer top_layer_prob top_layer_sample : View3)
    (idx : Nat × Nat × Nat) (σ : Shared F S) : Except Err (Shared F S) := do
  let result ← ConvolveLayer.PassUp.sum (neuron_weights.load σ.mem) (bottom_layer.load σ.mem) idx
  activateShared expf next_single top_layer_prob top_layer_sample idx result σ

/-- `ConvolveLayer::PassUp` (lines 54-92) on storage, with the layer given by
its view `weights_view_`. -/
def ConvolveLayer.PassUpShared (expf : F → F) (next_single : S → F × S) (weights_view_ : View4)
    (bottom_layer top_layer_prob top_layer_sample : View3) (σ : Shared F S) : Res (Shared F S) :=
  if top_layer_prob.e0 = (ConvolveLayer.mk (weights_view_.load σ.mem)).neuron_num then
    parallel_for_each
      (ConvolveLayer.PassUp.kernelShared expf next_single weights_view_ bottom_layer
        top_layer_prob top_layer_sample)
      (extentIdx top_layer_prob.e0 top_layer_prob.e1 top_layer_prob.e2) σ
  else ⟨σ, some .assertFailed⟩

/-- The kernel body of `PassDown` (lines 108-136) on storage. -/
def ConvolveLayer.PassDown.kernelShared (expf : F → F) (next_single : S → F × S)
    (neuron_weights : View4) (top_layer bottom_layer_prob bottom_layer_sample : View3)
    (idx : Nat × Nat × Nat) (σ : Shared F S) : Except Err (Shared F S) := do
  let result ← ConvolveLayer.PassDown.sum (neuron_weights.load σ.mem) (top_layer.load σ.mem) idx
  activateShared expf next_single bottom_layer_prob bottom_layer_sample idx result σ

/-- `ConvolveLayer::PassDown` (lines 94-137) on storage. -/
def ConvolveLayer.PassDownShared (expf : F → F) (next_single : S → F × S) (weights_view_ : View4)
    (top_layer bottom_layer_prob bottom_layer_sample : View3) (σ : Shared F S) :
    Res (Shared F S) :=
  if top_layer.e0 = (ConvolveLayer.mk (weights_view_.load σ.mem)).neuron_num then
    parallel_for_each
      (ConvolveLayer.PassDown.kernelShared expf next_single weights_view_ top_layer
        bottom_layer_prob bottom_layer_sample)
      (extentIdx bottom_layer_prob.e0 bottom_layer_prob.e1 bottom_layer_prob.e2) σ
  else ⟨σ, some .assertFailed⟩

end SharedStorage

section Model

variable {F S : Type}

/-- `DeepModel::AddDataLayer` (lines 161-164): the layer is constructed in place
at the back; a constructor that fails leaves no new layer. -/
def DeepModel.AddDataLayer [Zero F] (kMemorySize : Nat) (rs : Nat → S) (junk : Nat → F)
    (self : DeepModel F S) (depth width height : Int) : Except Err (DeepModel F S) :=
  match DataLayer.ctor kMemorySize rs junk depth width height with
  | .ok l => .ok { self with data_layers_ := self.data_layers_ ++ [l] }
  | .error e => .error e

/-- `DeepModel::AddConvolveLayer` (lines 166-170): the new layer is appended and
randomised with `rand_seed`. -/
def DeepModel.AddConvolveLayer [Zero F] {G : Type} (engine : Nat → G) (distribution : G → F × G)
    (self : DeepModel F S) (num_neuron neuron_depth neuron_width neuron_height : Int)
    (rand_seed : Nat) : Except Err (DeepModel F S) :=
  match ConvolveLayer.ctor num_neuron neuron_depth neuron_width neuron_height with
  | .ok conv =>
    .ok { self with
      convolve_layers_ := self.convolve_layers_ ++
        [conv.RandomizeParams engine distribution rand_seed] }
  | .error e => .error e

/-- One iteration of the loop of `DeepModel::PassUp` (lines 179-183).  The call
`conv_layer.PassUp(bottom, top)` has two arguments; that overload is declared in
the header, which is not among the sources, and is the parameter `passUp2`: from
the convolve layer, the bottom view and the top view it gives the top view it
leaves behind (and whether it failed).  `operator[]` of `std::vector` is not
checked: with one of the three layers missing the behaviour is undefined, the
outcome is marked `Err.undefinedBehaviour`, and its state component stands for
nothing. -/
def DeepModel.PassUp.step (passUp2 : ConvolveLayer F → Volume F → Volume F → Res (Volume F))
    (conv_layer_idx : Nat) (m : DeepModel F S) : Res (DeepModel F S) :=
  match m.convolve_layers_[conv_layer_idx]?, m.data_layers_[conv_layer_idx]?,
      m.data_layers_[conv_layer_idx + 1]? with
  | some conv_layer, some bottom_data_layer, some top_data_layer =>
    let r := passUp2 conv_layer bottom_data_layer.data_view_ top_data_layer.data_view_
    ⟨{ m with
       data_layers_ := m.data_layers_.set (conv_layer_idx + 1)
         { top_data_layer with data_ := r.state.data } }, r.err⟩
  | _, _, _ => ⟨m, some .undefinedBehaviour⟩

/-- `DeepModel::PassUp` (lines 172-185): `SetData` on the front layer, then the
loop over the convolve layers in ascending order.  `front()` of an empty vector
is undefined behaviour. -/
def DeepModel.PassUp (passUp2 : ConvolveLayer F → Volume F → Volume F → Res (Volume F))
    (self : DeepModel F S) (data : List F) : Res (DeepModel F S) :=
  match self.data_layers_ with
  | [] => ⟨self, some .undefinedBehaviour⟩
  | bottom_layer :: rest =>
    match bottom_layer.SetData data with
    | ⟨b, some e⟩ => ⟨{ self with data_layers_ := b :: rest }, some e⟩
    | ⟨b, none⟩ =>
      forRes (DeepModel.PassUp.step passUp2) (List.range self.convolve_layers_.length)
        { self with data_layers_ := b :: rest }

/-- One iteration of the loop of `DeepModel::PassDown` (lines 195-199).  The
two-argument overload `conv_layer.PassDown(top, bottom)` is declared in the
header, which is not among the sources, and is the parameter `passDown2`: from
the convolve layer, the generated buffer of the top layer and that of the bottom
layer it gives the bottom buffer it leaves behind (and whether it failed).  With
one of the three layers missing the behaviour is undefined, as in `PassUp`. -/
def DeepModel.PassDown.step (passDown2 : ConvolveLayer F → Volume F → Volume F → Res (Volume F))
    (conv_layer_idx : Nat) (m : DeepModel F S) : Res (DeepModel F S) :=
  match m.convolve_layers_[conv_layer_idx]?, m.data_layers_[conv_layer_idx]?,
      m.data_layers_[conv_layer_idx + 1]? with
  | some conv_layer, some bottom_data_layer, some top_data_layer =>
    let r := passDown2 conv_layer top_data_layer.data_generated_ bottom_data_layer.data_generated_
    ⟨{ m with
       data_layers_ := m.data_layers_.set conv_layer_idx
         { bottom_data_layer with
           data_generated_ := { bottom_data_layer.data_generated_ with data := r.state.data } } },
     r.err⟩
  | _, _, _ => ⟨m, some .undefinedBehaviour⟩

/-- `DeepModel::PassDown` (lines 187-201): the activations of the back layer are
copied into its generated buffer, then the loop over the convolve layers in
descending order.  `back()` of an empty vector is undefined behaviour. -/
def DeepModel.PassDown (passDown2 : ConvolveLayer F → Volume F → Volume F → Res (Volume F))
    (self : DeepModel F S) : Res (DeepModel F S) :=
  match self.data_layers_.getLast? with
  | none => ⟨self, some .undefinedBehaviour⟩
  | some roof_data_layer =>
    forRes (DeepModel.PassDown.step passDown2) (List.range self.convolve_layers_.length).reverse
      { self with
        data_layers_ := self.data_layers_.set (self.data_layers_.length - 1)
          { roof_data_layer with
            data_generated_ :=
              { roof_data_layer.data_generated_ with data := roof_data_layer.data_ } } }

/-- After `PassUp`, layer `i + 1` holds what convolve layer `i` made of the
activations of layer `i` as they are after the call: the bridging call on the
view of layer `i` in `after` and the view of layer `i + 1` in `before` did not
fail, and layer `i + 1` in `after` is the one in `before` with the activations
the call left. -/
def DeepModel.UpLink (passUp2 : ConvolveLayer F → Volume F → Volume F → Res (Volume F))
    (convs : List (ConvolveLayer F)) (before after : List (DataLayer F S)) (i : Nat) : Prop :=
  ∃ conv b t0, convs[i]? = some conv ∧ after[i]? = some b ∧ before[i + 1]? = some t0 ∧
    (passUp2 conv b.data_view_ t0.data_view_).err = none ∧
    after[i + 1]? = some { t0 with data_ := (passUp2 conv b.data_view_ t0.data_view_).state.data }

/-- After `PassDown`, the generated buffer of layer `i` holds what convolve layer
`i` made of the generated buffer of layer `i + 1` as it is after the call: the
bridging call on the generated buffer of layer `i + 1` in `after` and that of
layer `i` in `before` did not fail, and layer `i` in `after` is the one in
`before` with the generated contents the call left. -/
def DeepModel.DownLink (passDown2 : ConvolveLayer F → Volume F → Volume F → Res (Volume F))
    (convs : List (ConvolveLayer F)) (before after : List (DataLayer F S)) (i : Nat) : Prop :=
  ∃ conv t b0, convs[i]? = some conv ∧ after[i + 1]? = some t ∧ before[i]? = some b0 ∧
    (passDown2 conv t.data_generated_ b0.data_generated_).err = none ∧
    after[i]? = some { b0 with
      data_generated_ := { b0.data_generated_ with
        data := (passDown2 conv t.data_generated_ b0.data_generated_).state.data } }

end Model

/-! ## The end-to-end scenario of the specification

A bottom volume `1×4×4`, one convolve layer of two `1×2×2` neurons with every
weight `1`, and a top volume `2×3×3`. -/

section Scenario

variable (F : Type) [LinearOrderedField F]

/-- Two neurons `1×2×2`, every weight `1`. -/
def scenario_layer : ConvolveLayer F := ⟨⟨2, 1, 2, 2, List.replicate 8 1⟩⟩

/-- The bottom volume `1×4×4` holding `0, 1, …, 15`. -/
def scenario_bottom : Volume F := ⟨1, 4, 4, (List.range 16).map fun i => (i : F)⟩

/-- The top buffers `2×3×3`; the stream of unit number `i` is in state `i`. -/
def scenario_top : Outputs F Nat :=
  ⟨⟨2, 3, 3, List.replicate 18 0⟩, ⟨2, 3, 3, List.replicate 18 0⟩, ⟨2, 3, 3, List.range 18⟩⟩

/-- A stand-in generator: from state `s` the draw is `1 / (s + 2)` and the next
state is `s + 1`. -/
def scenario_next_single : Nat → F × Nat := fun s => (1 / ((s : F) + 2), s + 1)

/-- One neuron `1×2×1` with `w[0, 0, 0, 0] = 1` and `w[0, 0, 1, 0] = 0`. -/
def down_layer : ConvolveLayer F := ⟨⟨1, 1, 2, 1, [1, 0]⟩⟩

/-- A top volume `1×2×1` holding ones. -/
def down_top : Volume F := ⟨1, 2, 1, [1, 1]⟩

/-- The top volume `1×1×1` of the valid convolution of a `1×2×1` bottom with a
`1×2×1` kernel. -/
def down_top_short : Volume F := ⟨1, 1, 1, [1]⟩

/-- Bottom buffers `1×2×1`. -/
def down_bottom : Outputs F Nat := ⟨⟨1, 2, 1, [0, 0]⟩, ⟨1, 2, 1, [0, 0]⟩, ⟨1, 2, 1, [0, 1]⟩⟩

/-- One neuron `1×1×1` of weight `1`. -/
def unit_layer : ConvolveLayer F := ⟨⟨1, 1, 1, 1, [1]⟩⟩

/-- A bottom volume `2×1×1`: two planes under a kernel of depth one. -/
def deep_bottom : Volume F := ⟨2, 1, 1, [1, 1]⟩

/-- Top buffers `1×1×1`. -/
def unit_top : Outputs F Nat := ⟨⟨1, 1, 1, [0]⟩, ⟨1, 1, 1, [0]⟩, ⟨1, 1, 1, [0]⟩⟩

end Scenario

/-! ## Examples of the two-argument overloads, and small models -/

section Bridges

variable {F S : Type} [LinearOrderedField F]

/-- An example of the two-argument `PassUp`, built on the four-argument one: the
probabilities go into the top view, the samples into a scratch copy of it, and
every stream starts in state `s0`. -/
def bridgeUp (expf : F → F) (next_single : S → F × S) (s0 : S) (conv : ConvolveLayer F)
    (bottom top : Volume F) : Res (Volume F) :=
  let r := conv.PassUp expf next_single bottom
    ⟨top, top, ⟨top.e0, top.e1, top.e2, List.replicate top.data.length s0⟩⟩
  ⟨r.state.prob, r.err⟩

/-- An example of the two-argument `PassDown`, built on the four-argument one in
the same way. -/
def bridgeDown (expf : F → F) (next_single : S → F × S) (s0 : S) (conv : ConvolveLayer F)
    (top bottom : Volume F) : Res (Volume F) :=
  let r := conv.PassDown expf next_single top
    ⟨bottom, bottom, ⟨bottom.e0, bottom.e1, bottom.e2, List.replicate bottom.data.length s0⟩⟩
  ⟨r.state.prob, r.err⟩

variable (F)

/-- The two-layer model of the scenario: data layers `1×4×4` and `2×3×3` joined
by the convolve layer of two `1×2×2` neurons. -/
def scenario_model : DeepModel F Nat :=
  ⟨[DataLayer.allocate 2 id (fun _ => 0) 1 4 4, DataLayer.allocate 2 id (fun _ => 0) 2 3 3],
    [scenario_layer F]⟩

/-- A model of `1×1×1` layers joined by one-weight convolve layers: three data
layers, two convolve layers. -/
def unit_model : DeepModel F Nat :=
  ⟨[DataLayer.allocate 2 id (fun _ => 0) 1 1 1, DataLayer.allocate 2 id (fun _ => 0) 1 1 1,
      DataLayer.allocate 2 id (fun _ => 0) 1 1 1],
    [unit_layer F, unit_layer F]⟩

/-- The view of one neuron `1×1×1` over buffer `0`. -/
def unit_weights_view : View4 := ⟨0, 1, 1, 1, 1⟩

/-- The view `1×1×1` over buffer `b`. -/
def unit_view (b : Nat) : View3 := ⟨b, 1, 1, 1⟩

/-- Storage of three buffers of one element: buffer `0` holds the weight `1`,
buffer `1` the value `5`, buffer `2` the value `0`; with a one-unit random
field. -/
def unit_shared : Shared F Nat :=
  ⟨fun b => if b = 0 then [1] else if b = 1 then [5] else if b = 2 then [0] else [],
    ⟨1, 1, 1, [0]⟩⟩

/-- Storage of four buffers of one element, `1`, `5`, `0` and `0`. -/
def unit_shared_apart : Shared F Nat :=
  ⟨fun b => if b = 0 then [1] else if b = 1 then [5] else if b = 2 then [0]
      else if b = 3 then [0] else [],
    ⟨1, 1, 1, [0]⟩⟩

/-- Other top buffers `2×3×3` for the scenario: other old contents, and every
stream in state `7`. -/
def scenario_top_alt : Outputs F Nat :=
  ⟨⟨2, 3, 3, List.replicate 18 1⟩, ⟨2, 3, 3, List.replicate 18 1⟩,
    ⟨2, 3, 3, List.replicate 18 7⟩⟩

/-- A layer of the shape of the scenario holding other weights. -/
def scenario_layer_alt : ConvolveLayer F := ⟨⟨2, 1, 2, 2, [3, 1, 4, 1, 5, 9, 2, 6]⟩⟩

/-- A stand-in for the seeded engine and the normal distribution: the state
after seeding is the seed, a draw from state `g` is `g` and leaves `g + 1`. -/
def scenario_distribution : Nat → F × Nat := fun g => ((g : F), g + 1)

end Bridges

/-! ## Notions used to state the properties -/

section Notions

variable {F S : Type}

/-- The value of the `i`-th draw (counting from `0`) from the generator state
`g`. -/
def nthDraw {G : Type} (distribution : G → F × G) : Nat → G → F
  | 0, g => (distribution g).1
  | i + 1, g => nthDraw distribution i (distribution g).2

/-- A data layer of extent `depth × width × height`: `data_` holds
`depth * width * height` elements under a view of that extent; the generated
buffer, the random field and each of the `kMemorySize` memory entries have that
extent too, with one element per index. -/
structure DataLayer.HasExtent (kMemorySize depth width height : Nat) (l : DataLayer F S) :
    Prop where
  data_size : l.data_.length = depth * width * height
  view_extent : l.data_view_.e0 = depth ∧ l.data_view_.e1 = width ∧ l.data_view_.e2 = height
  generated_extent : l.data_generated_.e0 = depth ∧ l.data_generated_.e1 = width ∧
    l.data_generated_.e2 = height ∧ l.data_generated_.WF
  rand_extent : l.rand_collection_.e0 = depth ∧ l.rand_collection_.e1 = width ∧
    l.rand_collection_.e2 = height ∧ l.rand_collection_.WF
  memory_size : l.memory_.length = kMemorySize
  memory_extent : ∀ m ∈ l.memory_, m.e0 = depth ∧ m.e1 = width ∧ m.e2 = height ∧ m.WF

/-- The extent invariant of a data layer: `data_` has one element per index of
the extent of `data_view_`; the generated buffer, the random field and each of
the `kMemorySize` memory entries have that extent. -/
structure DataLayer.ExtentInv (kMemorySize : Nat) (l : DataLayer F S) : Prop where
  data_size : l.data_.length = l.depth * l.width * l.height
  generated_extent : l.data_generated_.SameExtent l.data_view_
  rand_extent : l.rand_collection_.SameExtent l.data_view_
  memory_size : l.memory_.length = kMemorySize
  memory_extent : ∀ m ∈ l.memory_, m.SameExtent l.data_view_

end Notions

section Calls

variable {F S : Type} [LinearOrderedField F]

/-- The terms the loops of the `PassDown` kernel form at the bottom unit `idx`
(lines 115-130), in the order of the loops: one for each neuron `n` and each
kernel offset `(u, v)` that passes the guard of line 123. -/
def ConvolveLayer.PassDown.terms (w : Tensor4 F) (idx : Nat × Nat × Nat) :
    List (Nat × Nat × Nat) :=
  (List.range w.e0).flatMap fun neuron_idx =>
    (List.range w.e2).flatMap fun width_idx =>
      ((List.range w.e3).filter fun (height_idx : Nat) =>
        decide ((idx.2.1 : Int) - width_idx ≥ 0 ∧ (idx.2.2 : Int) - height_idx ≥ 0)).map
        fun height_idx => (neuron_idx, width_idx, height_idx)

/-- The statement of lines 125-126 for the term `t = (n, u, v)` at the bottom
unit `idx`: the product of `current_neuron(d, x, y)` and
`top_layer(n, x - u, y - v)` is added to `result`. -/
def ConvolveLayer.PassDown.addTerm (w : Tensor4 F) (top_layer : Volume F)
    (idx : Nat × Nat × Nat) (result : F) (t : Nat × Nat × Nat) : Except Err F := do
  let current_neuron ← w.project t.1
  let wv ← current_neuron.read idx.1 idx.2.1 idx.2.2
  let tv ← top_layer.readI t.1 ((idx.2.1 : Int) - t.2.1) ((idx.2.2 : Int) - t.2.2)
  pure (result + wv * tv)

end Calls

/-! ## Basic facts about volumes -/

section VolumeLemmas

variable {α : Type}

theorem pair_inj {a a' k k' e : Nat} (hk : k < e) (hk' : k' < e)
    (h : a * e + k = a' * e + k') : a = a' ∧ k = k' := by
  have he : 0 < e := by omega
  have h1 : (a * e + k) / e = a := by
    rw [Nat.add_comm, Nat.add_mul_div_right _ _ he, Nat.div_eq_of_lt hk, Nat.zero_add]
  have h2 : (a' * e + k') / e = a' := by
    rw [Nat.add_comm, Nat.add_mul_div_right _ _ he, Nat.div_eq_of_lt hk', Nat.zero_add]
  have ha : a = a' := by rw [← h1, ← h2, h]
  subst ha
  exact ⟨rfl, by omega⟩

theorem Volume.flat_inj (v : Volume α) {i j k i' j' k' : Nat}
    (h : v.inExtent i j k) (h' : v.inExtent i' j' k')
    (hf : v.flat i j k = v.flat i' j' k') : i = i' ∧ j = j' ∧ k = k' := by
  obtain ⟨_, hj, hk⟩ := h
  obtain ⟨_, hj', hk'⟩ := h'
  unfold Volume.flat at hf
  obtain ⟨h1, h2⟩ := pair_inj hk hk' hf
  obtain ⟨h3, h4⟩ := pair_inj hj hj' h1
  exact ⟨h3, h4, h2⟩

theorem flat_bound {e0 e1 e2 i j k : Nat} (hi : i < e0) (hj : j < e1) (hk : k < e2) :
    (i * e1 + j) * e2 + k < e0 * e1 * e2 := by
  have h1 : i * e1 + j + 1 ≤ e0 * e1 := by
    have : (i + 1) * e1 ≤ e0 * e1 := Nat.mul_le_mul_right e1 hi
    have h2 : (i + 1) * e1 = i * e1 + e1 := by ring
    omega
  have h3 : (i * e1 + j + 1) * e2 ≤ e0 * e1 * e2 := Nat.mul_le_mul_right e2 h1
  have h4 : (i * e1 + j + 1) * e2 = (i * e1 + j) * e2 + e2 := by ring
  omega

theorem Volume.flat_lt (v : Volume α) {i j k : Nat} (hwf : v.WF) (h : v.inExtent i j k) :
    v.flat i j k < v.data.length := by
  obtain ⟨hi, hj, hk⟩ := h
  rw [hwf]
  exact flat_bound hi hj hk

theorem Volume.read_eq (v : Volume α) {i j k : Nat} (hwf : v.WF) (h : v.inExtent i j k) (d : α) :
    v.read i j k = .ok (v.getD i j k d) := by
  have hlt := v.flat_lt hwf h
  simp [Volume.read, h, Volume.getD, List.getElem?_eq_getElem hlt, List.getD_eq_getElem?_getD]

theorem Volume.read_ok_exists (v : Volume α) {i j k : Nat} (hwf : v.WF) (h : v.inExtent i j k) :
    ∃ a, v.read i j k = .ok a := by
  have hlt := v.flat_lt hwf h
  exact ⟨v.data.get ⟨_, hlt⟩, by simp [Volume.read, h, List.getElem?_eq_getElem hlt]⟩

theorem Volume.read_error (v : Volume α) {i j k : Nat} (h : ¬ v.inExtent i j k) :
    v.read i j k = .error .outOfRange := by
  simp [Volume.read, h]

theorem Volume.write_ok (v : Volume α) {i j k : Nat} (hwf : v.WF) (h : v.inExtent i j k) (a : α) :
    v.write i j k a = .ok ⟨v.e0, v.e1, v.e2, v.data.set (v.flat i j k) a⟩ := by
  have hlt := v.flat_lt hwf h
  simp [Volume.write, h, hlt]

theorem Volume.write_error (v : Volume α) {i j k : Nat} (h : ¬ v.inExtent i j k) (a : α) :
    v.write i j k a = .error .outOfRange := by
  simp [Volume.write, h]

theorem Volume.set_WF (v : Volume α) (hwf : v.WF) (p : Nat) (a : α) :
    (⟨v.e0, v.e1, v.e2, v.data.set p a⟩ : Volume α).WF := by
  simpa [Volume.WF] using hwf

theorem Volume.read_set (v : Volume α) {i j k : Nat} (hwf : v.WF)
    (h : v.inExtent i j k) (i' j' k' : Nat) (a : α) :
    (⟨v.e0, v.e1, v.e2, v.data.set (v.flat i j k) a⟩ : Volume α).read i' j' k'
      = if (i, j, k) = (i', j', k') then .ok a else v.read i' j' k' := by
  have hlt := v.flat_lt hwf h
  have hflat : ∀ x y z, (⟨v.e0, v.e1, v.e2, v.data.set (v.flat i j k) a⟩ : Volume α).flat x y z
      = v.flat x y z := fun _ _ _ => rfl
  by_cases h' : v.inExtent i' j' k'
  · have hin : (⟨v.e0, v.e1, v.e2, v.data.set (v.flat i j k) a⟩ : Volume α).inExtent i' j' k' := h'
    by_cases heq : (i, j, k) = (i', j', k')
    · simp only [Prod.mk.injEq] at heq
      obtain ⟨rfl, rfl, rfl⟩ := heq
      simp [Volume.read, hin, hflat, hlt]
    · have hne : v.flat i j k ≠ v.flat i' j' k' := by
        intro hf
        obtain ⟨h1, h2, h3⟩ := v.flat_inj h h' hf
        exact heq (by rw [h1, h2, h3])
      simp only [Volume.read, hin, h', hflat, if_true, if_neg heq]
      rw [List.getElem?_set_ne hne]
  · have hin : ¬ (⟨v.e0, v.e1, v.e2, v.data.set (v.flat i j k) a⟩ : Volume α).inExtent i' j' k' := h'
    have heq : (i, j, k) ≠ (i', j', k') := by
      intro heq
      simp only [Prod.mk.injEq] at heq
      obtain ⟨rfl, rfl, rfl⟩ := heq
      exact h' h
    rw [Volume.read_error _ hin, Volume.read_error _ h', if_neg heq]

end VolumeLemmas

/-! ## Basic facts about the loops -/

section LoopLemmas

theorem forLoop_succ {β : Type} (n : Nat) (body : Nat → β → Except Err β) (init : β) :
    forLoop (n + 1) body init = forLoop n body init >>= body n := by
  simp [forLoop, List.range_succ, List.foldlM_append]

theorem forLoop_sum {β : Type} [AddCommMonoid β] (n : Nat) (body : Nat → β → Except Err β)
    (f : Nat → β) (h : ∀ i, i < n → ∀ acc, body i acc = .ok (acc + f i)) (init : β) :
    forLoop n body init = .ok (init + ∑ i in Finset.range n, f i) := by
  induction n with
  | zero => simp [forLoop]; rfl
  | succ n ih =>
    rw [forLoop_succ, ih (fun i hi => h i (Nat.lt_succ_of_lt hi))]
    show body n _ = _
    rw [h n (Nat.lt_succ_self n), Finset.sum_range_succ, add_assoc]

theorem mem_extentIdx {e0 e1 e2 : Nat} {idx : Nat × Nat × Nat} :
    idx ∈ extentIdx e0 e1 e2 ↔ idx.1 < e0 ∧ idx.2.1 < e1 ∧ idx.2.2 < e2 := by
  obtain ⟨i, j, k⟩ := idx
  simp only [extentIdx, List.mem_flatMap, List.mem_map, List.mem_range, Prod.mk.injEq]
  constructor
  · rintro ⟨a, ha, b, hb, c, hc, rfl, rfl, rfl⟩
    exact ⟨ha, hb, hc⟩
  · rintro ⟨ha, hb, hc⟩
    exact ⟨i, ha, j, hb, k, hc, rfl, rfl, rfl⟩

theorem nodup_extentIdx (e0 e1 e2 : Nat) : (extentIdx e0 e1 e2).Nodup := by
  unfold extentIdx
  rw [List.nodup_flatMap]
  refine ⟨fun i _ => ?_, ?_⟩
  · rw [List.nodup_flatMap]
    refine ⟨fun j _ => ?_, ?_⟩
    · exact (List.nodup_range e2).map (fun a b h => by simpa using h)
    · refine (List.nodup_range e1).pairwise_of_forall_ne ?_
      intro a _ b _ hab
      simp only [Function.onFun, List.disjoint_left, List.mem_map, List.mem_range]
      rintro x ⟨c, _, rfl⟩ ⟨d, _, hd⟩
      simp only [Prod.mk.injEq] at hd
      exact hab hd.2.1.symm
  · refine (List.nodup_range e0).pairwise_of_forall_ne ?_
    intro a _ b _ hab
    simp only [Function.onFun, List.disjoint_left, List.mem_flatMap, List.mem_map, List.mem_range]
    rintro x ⟨c, _, d, _, rfl⟩ ⟨c', _, d', _, hd⟩
    simp only [Prod.mk.injEq] at hd
    exact hab hd.1.symm

end LoopLemmas

/-! ## The end of a kernel body, and a whole dispatch -/

section DispatchLemmas

variable {F S : Type} [Zero F] [One F] [Add F] [Neg F] [Div F] [LE F]
  [DecidableRel (fun a b : F => a ≤ b)]

theorem activate_ok (expf : F → F) (next_single : S → F × S) (idx : Nat × Nat × Nat) (result : F)
    (st : Outputs F S) (hp : st.prob.WF) (hs : st.sample.WF) (hr : st.rand_collection.WF)
    (hip : st.prob.inExtent idx.1 idx.2.1 idx.2.2)
    (his : st.sample.inExtent idx.1 idx.2.1 idx.2.2)
    (hir : st.rand_collection.inExtent idx.1 idx.2.1 idx.2.2)
    (s : S) (hrs : st.rand_collection.read idx.1 idx.2.1 idx.2.2 = .ok s) :
    activate expf next_single idx result st
      = .ok (activated expf next_single idx result s st) := by
  simp only [activate, Volume.write_ok _ hp hip, hrs, Volume.write_ok _ hr hir,
    Volume.write_ok _ hs his]
  rfl

theorem idx_eq_iff (a b : Nat × Nat × Nat) :
    ((a.1, a.2.1, a.2.2) = (b.1, b.2.1, b.2.2)) = (a = b) := by
  obtain ⟨a1, a2, a3⟩ := a
  obtain ⟨b1, b2, b3⟩ := b
  rfl

theorem activated_read (expf : F → F) (next_single : S → F × S) (idx : Nat × Nat × Nat)
    (result : F) (s : S) (st : Outputs F S)
    (hp : st.prob.WF) (hs : st.sample.WF) (hr : st.rand_collection.WF)
    (hip : st.prob.inExtent idx.1 idx.2.1 idx.2.2)
    (his : st.sample.inExtent idx.1 idx.2.1 idx.2.2)
    (hir : st.rand_collection.inExtent idx.1 idx.2.1 idx.2.2) (j : Nat × Nat × Nat) :
    (activated expf next_single idx result s st).prob.read j.1 j.2.1 j.2.2
        = (if idx = j then .ok (logistic expf result) else st.prob.read j.1 j.2.1 j.2.2) ∧
    (activated expf next_single idx result s st).sample.read j.1 j.2.1 j.2.2
        = (if idx = j then .ok (if (next_single s).1 ≤ logistic expf result then 1 else 0)
            else st.sample.read j.1 j.2.1 j.2.2) ∧
    (activated expf next_single idx result s st).rand_collection.read j.1 j.2.1 j.2.2
        = (if idx = j then .ok (next_single s).2
            else st.rand_collection.read j.1 j.2.1 j.2.2) := by
  refine ⟨?_, ?_, ?_⟩
  · have h := Volume.read_set st.prob hp hip j.1 j.2.1 j.2.2 (logistic expf result)
    simp only [idx_eq_iff] at h
    exact h
  · have h := Volume.read_set st.sample hs his j.1 j.2.1 j.2.2
      (if (next_single s).1 ≤ logistic expf result then 1 else 0)
    simp only [idx_eq_iff] at h
    exact h
  · have h := Volume.read_set st.rand_collection hr hir j.1 j.2.1 j.2.2 (next_single s).2
    simp only [idx_eq_iff] at h
    exact h

theorem dispatch_spec (expf : F → F) (next_single : S → F × S)
    (g : Nat × Nat × Nat → Except Err F) (val : Nat × Nat × Nat → F)
    (idxs : List (Nat × Nat × Nat)) (hnd : idxs.Nodup)
    (hg : ∀ idx ∈ idxs, g idx = .ok (val idx)) (st0 : Outputs F S)
    (hp : st0.prob.WF) (hs : st0.sample.WF) (hr : st0.rand_collection.WF)
    (hin : ∀ idx ∈ idxs, st0.prob.inExtent idx.1 idx.2.1 idx.2.2 ∧
      st0.sample.inExtent idx.1 idx.2.1 idx.2.2 ∧
      st0.rand_collection.inExtent idx.1 idx.2.1 idx.2.2) :
    ∃ st, parallel_for_each (fun idx st => g idx >>= fun r => activate expf next_single idx r st)
        idxs st0 = ⟨st, none⟩ ∧ Dispatched expf next_single val idxs st0 st := by
  induction idxs generalizing st0 with
  | nil =>
    exact ⟨st0, rfl, ⟨rfl, rfl, rfl⟩, ⟨rfl, rfl, rfl⟩, ⟨rfl, rfl, rfl⟩, hp, hs, hr,
      fun _ h => absurd h (List.not_mem_nil _), fun _ _ => ⟨rfl, rfl, rfl⟩⟩
  | cons i is ih =>
    obtain ⟨hi_notin, hnd'⟩ := List.nodup_cons.mp hnd
    obtain ⟨hip, his, hir⟩ := hin i (List.mem_cons_self _ _)
    obtain ⟨s, hrs⟩ := Volume.read_ok_exists _ hr hir
    have hbody := activate_ok expf next_single i (val i) st0 hp hs hr hip his hir s hrs
    have hrd := activated_read expf next_single i (val i) s st0 hp hs hr hip his hir
    obtain ⟨st, hrun, hd⟩ := ih hnd' (fun idx h => hg idx (List.mem_cons_of_mem _ h))
      (activated expf next_single i (val i) s st0)
      (Volume.set_WF _ hp _ _) (Volume.set_WF _ hs _ _) (Volume.set_WF _ hr _ _)
      (fun idx h => hin idx (List.mem_cons_of_mem _ h))
    refine ⟨st, ?_, ?_⟩
    · have h1 : (g i >>= fun r => activate expf next_single i r st0)
          = .ok (activated expf next_single i (val i) s st0) := by
        rw [hg i (List.mem_cons_self _ _)]
        exact hbody
      simp only [parallel_for_each, h1]
      exact hrun
    · refine ⟨hd.prob_extent, hd.sample_extent, hd.rand_extent, hd.prob_WF, hd.sample_WF,
        hd.rand_WF, ?_, ?_⟩
      · intro idx hidx
        rcases List.mem_cons.mp hidx with rfl | hmem
        · obtain ⟨f1, f2, f3⟩ := hd.frame idx hi_notin
          obtain ⟨r1, r2, r3⟩ := hrd idx
          refine ⟨s, hrs, ?_, ?_, ?_⟩
          · rw [f1, r1, if_pos rfl]
          · rw [f2, r2, if_pos rfl]
          · rw [f3, r3, if_pos rfl]
        · have hne : i ≠ idx := fun h => hi_notin (h ▸ hmem)
          obtain ⟨s', w0, w1, w2, w3⟩ := hd.written idx hmem
          obtain ⟨_, _, r3⟩ := hrd idx
          rw [r3, if_neg hne] at w0
          exact ⟨s', w0, w1, w2, w3⟩
      · intro idx hidx
        have hne : i ≠ idx := fun h => hidx (h ▸ List.mem_cons_self _ _)
        have hnot : idx ∉ is := fun h => hidx (List.mem_cons_of_mem _ h)
        obtain ⟨f1, f2, f3⟩ := hd.frame idx hnot
        obtain ⟨r1, r2, r3⟩ := hrd idx
        rw [if_neg hne] at r1 r2 r3
        exact ⟨f1.trans r1, f2.trans r2, f3.trans r3⟩

end DispatchLemmas

/-! ## The weighted sums of the two kernels -/

section SumLemmas

variable {F : Type} [LinearOrderedField F]

theorem flat4_bound {e0 e1 e2 e3 n d u v : Nat} (hn : n < e0) (hd : d < e1) (hu : u < e2)
    (hv : v < e3) : ((n * e1 + d) * e2 + u) * e3 + v < e0 * e1 * e2 * e3 := by
  have h1 : (n * e1 + d) * e2 + u < e0 * e1 * e2 := flat_bound hn hd hu
  have h2 : ((n * e1 + d) * e2 + u + 1) * e3 ≤ e0 * e1 * e2 * e3 := Nat.mul_le_mul_right e3 h1
  have h3 : ((n * e1 + d) * e2 + u + 1) * e3 = ((n * e1 + d) * e2 + u) * e3 + e3 := by ring
  omega

theorem Tensor4.project_ok {α : Type} (t : Tensor4 α) {n : Nat} (hn : n < t.e0) :
    t.project n = .ok ⟨t.e1, t.e2, t.e3,
      (t.data.drop (n * (t.e1 * t.e2 * t.e3))).take (t.e1 * t.e2 * t.e3)⟩ := by
  simp [Tensor4.project, hn]

theorem Tensor4.project_read {α : Type} (t : Tensor4 α) (hwf : t.WF) {n d u v : Nat}
    (hn : n < t.e0) (hd : d < t.e1) (hu : u < t.e2) (hv : v < t.e3) (dflt : α) :
    (⟨t.e1, t.e2, t.e3, (t.data.drop (n * (t.e1 * t.e2 * t.e3))).take (t.e1 * t.e2 * t.e3)⟩ :
      Volume α).read d u v = .ok (t.getD n d u v dflt) := by
  have hin : (⟨t.e1, t.e2, t.e3,
      (t.data.drop (n * (t.e1 * t.e2 * t.e3))).take (t.e1 * t.e2 * t.e3)⟩ :
      Volume α).inExtent d u v := ⟨hd, hu, hv⟩
  have hlt : (d * t.e2 + u) * t.e3 + v < t.e1 * t.e2 * t.e3 := flat_bound hd hu hv
  have hpos : n * (t.e1 * t.e2 * t.e3) + ((d * t.e2 + u) * t.e3 + v)
      = ((n * t.e1 + d) * t.e2 + u) * t.e3 + v := by ring
  have hlen : ((n * t.e1 + d) * t.e2 + u) * t.e3 + v < t.data.length := by
    rw [hwf]; exact flat4_bound hn hd hu hv
  simp only [Volume.read, hin, if_true, Volume.flat, Tensor4.getD]
  rw [List.getElem?_take_of_lt hlt, List.getElem?_drop, hpos, List.getElem?_eq_getElem hlen,
    List.getD_eq_getElem?_getD, List.getElem?_eq_getElem hlen]
  rfl

theorem PassUp_sum_eq (w : Tensor4 F) (bottom : Volume F) (hw : w.WF) (hb : bottom.WF)
    (idx : Nat × Nat × Nat) (hn : idx.1 < w.e0)
    (hrange : ∀ d u v, d < w.e1 → u < w.e2 → v < w.e3 →
      bottom.inExtent d (idx.2.1 + u) (idx.2.2 + v)) :
    ConvolveLayer.PassUp.sum w bottom idx = .ok (upSum w bottom idx) := by
  unfold ConvolveLayer.PassUp.sum upSum
  rw [Tensor4.project_ok w hn]
  show forLoop w.e1 _ 0 = _
  rw [forLoop_sum w.e1 _ (fun d => ∑ u in Finset.range w.e2, ∑ v in Finset.range w.e3,
    bottom.getD d (idx.2.1 + u) (idx.2.2 + v) 0 * w.getD idx.1 d u v 0), zero_add]
  intro d hd acc
  show forLoop w.e2 _ acc = _
  apply forLoop_sum w.e2 _ (fun u => ∑ v in Finset.range w.e3,
    bottom.getD d (idx.2.1 + u) (idx.2.2 + v) 0 * w.getD idx.1 d u v 0)
  intro u hu acc
  show forLoop w.e3 _ acc = _
  apply forLoop_sum w.e3 _ (fun v =>
    bottom.getD d (idx.2.1 + u) (idx.2.2 + v) 0 * w.getD idx.1 d u v 0)
  intro v hv acc
  rw [Nat.zero_add, Volume.read_eq bottom hb (hrange d u v hd hu hv) 0,
    Tensor4.project_read w hw hn hd hu hv 0]
  rfl

theorem PassUp_dispatched {S : Type} (expf : F → F) (next_single : S → F × S)
    (self : ConvolveLayer F) (bottom_layer : Volume F) (st : Outputs F S)
    (hw : self.weights_view_.WF) (hb : bottom_layer.WF) (hst : st.Sound)
    (hN : st.prob.e0 = self.neuron_num)
    (hrange : ConvolveLayer.PassUp.ReadsInRange self bottom_layer st.prob.e0 st.prob.e1 st.prob.e2) :
    ∃ st', self.PassUp expf next_single bottom_layer st = ⟨st', none⟩ ∧
      Dispatched expf next_single (upSum self.weights_view_ bottom_layer)
        (extentIdx st.prob.e0 st.prob.e1 st.prob.e2) st st' := by
  unfold ConvolveLayer.PassUp
  rw [if_pos hN]
  refine dispatch_spec expf next_single
    (ConvolveLayer.PassUp.sum self.weights_view_ bottom_layer)
    (upSum self.weights_view_ bottom_layer) _ (nodup_extentIdx _ _ _) ?_ st
    hst.prob_WF hst.sample_WF hst.rand_WF ?_
  · intro idx hidx
    obtain ⟨h0, h1, h2⟩ := mem_extentIdx.mp hidx
    refine PassUp_sum_eq _ _ hw hb idx ?_ (hrange idx.1 idx.2.1 idx.2.2 h0 h1 h2)
    rw [hN] at h0
    exact h0
  · intro idx hidx
    obtain ⟨h0, h1, h2⟩ := mem_extentIdx.mp hidx
    obtain ⟨s0, s1, s2⟩ := hst.sample_extent
    obtain ⟨r0, r1, r2⟩ := hst.rand_extent
    exact ⟨⟨h0, h1, h2⟩, ⟨s0 ▸ h0, s1 ▸ h1, s2 ▸ h2⟩, ⟨r0 ▸ h0, r1 ▸ h1, r2 ▸ h2⟩⟩

theorem Volume.readI_cast {α : Type} (v : Volume α) (n x y u w : Nat) (hu : u ≤ x) (hw : w ≤ y) :
    v.readI (n : Int) ((x : Int) - (u : Int)) ((y : Int) - (w : Int)) = v.read n (x - u) (y - w) := by
  have h1 : (0 : Int) ≤ (x : Int) - (u : Int) := by omega
  have h2 : (0 : Int) ≤ (y : Int) - (w : Int) := by omega
  have h0 : (0 : Int) ≤ (n : Int) := Int.ofNat_nonneg n
  simp only [Volume.readI, h0, h1, h2, and_self, if_true, Int.toNat_ofNat, Int.toNat_sub]

theorem PassDown_sum_eq (w : Tensor4 F) (top_layer : Volume F) (hw : w.WF) (ht : top_layer.WF)
    (idx : Nat × Nat × Nat) (hr : ConvolveLayer.PassDown.ReadsInRange w top_layer idx) :
    ConvolveLayer.PassDown.sum w top_layer idx = .ok (downSum w top_layer idx) := by
  obtain ⟨⟨hd, hx, hy⟩, htop⟩ := hr
  unfold ConvolveLayer.PassDown.sum downSum
  show forLoop w.e0 _ 0 = _
  rw [forLoop_sum w.e0 _ (fun n => ∑ u in Finset.range w.e2, ∑ v in Finset.range w.e3,
    if u ≤ idx.2.1 ∧ v ≤ idx.2.2 then
      w.getD n idx.1 idx.2.1 idx.2.2 0 * top_layer.getD n (idx.2.1 - u) (idx.2.2 - v) 0
    else 0), zero_add]
  intro n hn acc
  rw [Tensor4.project_ok w hn]
  show forLoop w.e2 _ acc = _
  apply forLoop_sum w.e2 _ (fun u => ∑ v in Finset.range w.e3,
    if u ≤ idx.2.1 ∧ v ≤ idx.2.2 then
      w.getD n idx.1 idx.2.1 idx.2.2 0 * top_layer.getD n (idx.2.1 - u) (idx.2.2 - v) 0
    else 0)
  intro u hu acc
  show forLoop w.e3 _ acc = _
  apply forLoop_sum w.e3 _ (fun v =>
    if u ≤ idx.2.1 ∧ v ≤ idx.2.2 then
      w.getD n idx.1 idx.2.1 idx.2.2 0 * top_layer.getD n (idx.2.1 - u) (idx.2.2 - v) 0
    else 0)
  intro v hv acc
  by_cases hg : u ≤ idx.2.1 ∧ v ≤ idx.2.2
  · have hg' : (idx.2.1 : Int) - (u : Int) ≥ 0 ∧ (idx.2.2 : Int) - (v : Int) ≥ 0 := by
      obtain ⟨h1, h2⟩ := hg
      constructor <;> omega
    rw [if_pos hg', if_pos hg, Tensor4.project_read w hw hn hd hx hy 0,
      Volume.readI_cast _ _ _ _ _ _ hg.1 hg.2,
      Volume.read_eq top_layer ht (htop n u v hn hu hv hg.1 hg.2) 0]
    rfl
  · have hg' : ¬ ((idx.2.1 : Int) - (u : Int) ≥ 0 ∧ (idx.2.2 : Int) - (v : Int) ≥ 0) := by
      intro h
      apply hg
      obtain ⟨h1, h2⟩ := h
      constructor <;> omega
    rw [if_neg hg', if_neg hg, add_zero]
    rfl

theorem PassDown_dispatched {S : Type} (expf : F → F) (next_single : S → F × S)
    (self : ConvolveLayer F) (top_layer : Volume F) (st : Outputs F S)
    (hw : self.weights_view_.WF) (ht : top_layer.WF) (hst : st.Sound)
    (hN : top_layer.e0 = self.neuron_num)
    (hrange : ∀ idx ∈ extentIdx st.prob.e0 st.prob.e1 st.prob.e2,
      ConvolveLayer.PassDown.ReadsInRange self.weights_view_ top_layer idx) :
    ∃ st', self.PassDown expf next_single top_layer st = ⟨st', none⟩ ∧
      Dispatched expf next_single (downSum self.weights_view_ top_layer)
        (extentIdx st.prob.e0 st.prob.e1 st.prob.e2) st st' := by
  unfold ConvolveLayer.PassDown
  rw [if_pos hN]
  refine dispatch_spec expf next_single
    (ConvolveLayer.PassDown.sum self.weights_view_ top_layer)
    (downSum self.weights_view_ top_layer) _ (nodup_extentIdx _ _ _) ?_ st
    hst.prob_WF hst.sample_WF hst.rand_WF ?_
  · intro idx hidx
    exact PassDown_sum_eq _ _ hw ht idx (hrange idx hidx)
  · intro idx hidx
    obtain ⟨h0, h1, h2⟩ := mem_extentIdx.mp hidx
    obtain ⟨s0, s1, s2⟩ := hst.sample_extent
    obtain ⟨r0, r1, r2⟩ := hst.rand_extent
    exact ⟨⟨h0, h1, h2⟩, ⟨s0 ▸ h0, s1 ▸ h1, s2 ▸ h2⟩, ⟨r0 ▸ h0, r1 ▸ h1, r2 ▸ h2⟩⟩

end SumLemmas

section ShapeLemmas

variable {F : Type}

theorem PassUp_validShape_reads {S : Type} (self : ConvolveLayer F) (bottom_layer : Volume F)
    (st : Outputs F S) (h : ConvolveLayer.PassUp.ValidShape self bottom_layer st) :
    ConvolveLayer.PassUp.ReadsInRange self bottom_layer st.prob.e0 st.prob.e1 st.prob.e2 := by
  intro n x y _ hx hy d u v hd hu hv
  have h1 := h.bottom_depth
  have h2 := h.width
  have h3 := h.height
  refine ⟨?_, ?_, ?_⟩ <;> omega

end ShapeLemmas

/-! ## Sequential loops over stateful calls -/

section ForResLemmas

variable {σ : Type}

theorem forRes_cons_ok (body : Nat → σ → Res σ) (i : Nat) (is : List Nat) (s : σ)
    (h : (body i s).err = none) :
    forRes body (i :: is) s = forRes body is (body i s).state := by
  cases hb : body i s with
  | mk s' e =>
    rw [hb] at h
    simp only at h
    subst h
    simp only [forRes, hb]

theorem forRes_cons_err (body : Nat → σ → Res σ) (i : Nat) (is : List Nat) (s : σ)
    (h : (body i s).err ≠ none) : forRes body (i :: is) s = body i s := by
  cases hb : body i s with
  | mk s' e =>
    rw [hb] at h
    cases e with
    | none => exact absurd rfl h
    | some e => simp only [forRes, hb]

theorem forRes_append_ok (body : Nat → σ → Res σ) (l1 l2 : List Nat) (s : σ)
    (h : (forRes body l1 s).err = none) :
    forRes body (l1 ++ l2) s = forRes body l2 (forRes body l1 s).state := by
  induction l1 generalizing s with
  | nil => rfl
  | cons i is ih =>
    by_cases hb : (body i s).err = none
    · rw [forRes_cons_ok body i is s hb] at h
      rw [List.cons_append, forRes_cons_ok body i _ s hb, forRes_cons_ok body i is s hb, ih _ h]
    · rw [forRes_cons_err body i is s hb] at h
      exact absurd h hb

theorem forRes_append_err (body : Nat → σ → Res σ) (l1 l2 : List Nat) (s : σ)
    (h : (forRes body l1 s).err ≠ none) :
    forRes body (l1 ++ l2) s = forRes body l1 s := by
  induction l1 generalizing s with
  | nil => exact absurd rfl h
  | cons i is ih =>
    by_cases hb : (body i s).err = none
    · rw [forRes_cons_ok body i is s hb] at h
      rw [List.cons_append, forRes_cons_ok body i _ s hb, forRes_cons_ok body i is s hb, ih _ h]
    · rw [List.cons_append, forRes_cons_err body i _ s hb, forRes_cons_err body i is s hb]

theorem forRes_single (body : Nat → σ → Res σ) (k : Nat) (s : σ) :
    forRes body [k] s = body k s := by
  by_cases hb : (body k s).err = none
  · rw [forRes_cons_ok body k [] s hb]
    cases hr : body k s with
    | mk s' e =>
      rw [hr] at hb
      simp only at hb
      subst hb
      rfl
  · exact forRes_cons_err body k [] s hb

/-- An ascending loop that ends without failure has kept an invariant that every
successful iteration carries one step further. -/
theorem forRes_range_inv (body : Nat → σ → Res σ) (P : Nat → σ → Prop) (n : Nat) (s0 : σ)
    (h0 : P 0 s0)
    (hstep : ∀ k s, k < n → P k s → (body k s).err = none → P (k + 1) (body k s).state)
    (hok : (forRes body (List.range n) s0).err = none) :
    P n (forRes body (List.range n) s0).state := by
  induction n with
  | zero => exact h0
  | succ n ih =>
    rw [List.range_succ] at hok ⊢
    by_cases hpre : (forRes body (List.range n) s0).err = none
    · rw [forRes_append_ok body _ _ s0 hpre, forRes_single] at hok ⊢
      exact hstep n _ (Nat.lt_succ_self n)
        (ih (fun k s hk => hstep k s (Nat.lt_succ_of_lt hk)) hpre) hok
    · rw [forRes_append_err body _ _ s0 hpre] at hok
      exact absurd hok hpre

/-- An ascending loop whose iterations cannot fail under an invariant they carry
forward ends without failure. -/
theorem forRes_range_ok (body : Nat → σ → Res σ) (P : Nat → σ → Prop) (n : Nat) (s0 : σ)
    (h0 : P 0 s0)
    (hstep : ∀ k s, k < n → P k s → (body k s).err = none ∧ P (k + 1) (body k s).state) :
    (forRes body (List.range n) s0).err = none ∧ P n (forRes body (List.range n) s0).state := by
  induction n with
  | zero => exact ⟨rfl, h0⟩
  | succ n ih =>
    obtain ⟨hpre, hP⟩ := ih (fun k s hk => hstep k s (Nat.lt_succ_of_lt hk))
    rw [List.range_succ, forRes_append_ok body _ _ s0 hpre, forRes_single]
    exact hstep n _ (Nat.lt_succ_self n) hP

/-- The descending counterpart of `forRes_range_inv`. -/
theorem forRes_range_reverse_inv (body : Nat → σ → Res σ) (P : Nat → σ → Prop) (n : Nat) (s0 : σ)
    (h0 : P n s0)
    (hstep : ∀ k s, k < n → P (k + 1) s → (body k s).err = none → P k (body k s).state)
    (hok : (forRes body (List.range n).reverse s0).err = none) :
    P 0 (forRes body (List.range n).reverse s0).state := by
  induction n generalizing s0 with
  | zero => exact h0
  | succ n ih =>
    rw [List.range_succ, List.reverse_append, List.reverse_singleton, List.singleton_append]
      at hok ⊢
    by_cases hb : (body n s0).err = none
    · rw [forRes_cons_ok body n _ s0 hb] at hok ⊢
      exact ih _ (hstep n s0 (Nat.lt_succ_self n) h0 hb)
        (fun k s hk => hstep k s (Nat.lt_succ_of_lt hk)) hok
    · rw [forRes_cons_err body n _ s0 hb] at hok
      exact absurd hok hb

/-- The descending counterpart of `forRes_range_ok`. -/
theorem forRes_range_reverse_ok (body : Nat → σ → Res σ) (P : Nat → σ → Prop) (n : Nat) (s0 : σ)
    (h0 : P n s0)
    (hstep : ∀ k s, k < n → P (k + 1) s → (body k s).err = none ∧ P k (body k s).state) :
    (forRes body (List.range n).reverse s0).err = none ∧
      P 0 (forRes body (List.range n).reverse s0).state := by
  induction n generalizing s0 with
  | zero => exact ⟨rfl, h0⟩
  | succ n ih =>
    obtain ⟨hb, hP⟩ := hstep n s0 (Nat.lt_succ_self n) h0
    rw [List.range_succ, List.reverse_append, List.reverse_singleton, List.singleton_append,
      forRes_cons_ok body n _ s0 hb]
    exact ih _ hP (fun k s hk => hstep k s (Nat.lt_succ_of_lt hk))

/-- A property that every iteration keeps, failing or not, holds after the loop. -/
theorem forRes_frame (body : Nat → σ → Res σ) (Q : σ → Prop)
    (hstep : ∀ k s, Q s → Q (body k s).state) (l : List Nat) (s : σ) (h : Q s) :
    Q (forRes body l s).state := by
  induction l generalizing s with
  | nil => exact h
  | cons i is ih =>
    by_cases hb : (body i s).err = none
    · rw [forRes_cons_ok body i is s hb]
      exact ih _ (hstep i s h)
    · rw [forRes_cons_err body i is s hb]
      exact hstep i s h

end ForResLemmas

/-! ## `ConvolveLayer::PassUp` -/

section PassUpClaims

variable {F S : Type} [LinearOrderedField F]

/-- C1: when every read is in range, `ConvolveLayer.PassUp` succeeds and leaves in
`top_prob[n, x, y]`, for every output unit `(n, x, y)` of the top extent, the
logistic `1 / (1 + exp (-s))` of the sum `s` over `d < D`, `u < KW`, `v < KH` of
`bottom[d, x + u, y + v] * w[n, d, u, v]`. -/
theorem PassUp_prob_is_logistic_of_footprint_sum (expf : F → F) (next_single : S → F × S)
    (self : ConvolveLayer F) (bottom_layer : Volume F) (st : Outputs F S)
    (hw : self.weights_view_.WF) (hb : bottom_layer.WF) (hst : st.Sound)
    (hN : st.prob.e0 = self.neuron_num)
    (hrange : ConvolveLayer.PassUp.ReadsInRange self bottom_layer st.prob.e0 st.prob.e1 st.prob.e2) :
    (self.PassUp expf next_single bottom_layer st).err = none ∧
    ∀ n x y, n < st.prob.e0 → x < st.prob.e1 → y < st.prob.e2 →
      (self.PassUp expf next_single bottom_layer st).state.prob.read n x y
        = .ok (1 / (1 + expf (-(∑ d in Finset.range self.weights_view_.e1,
            ∑ u in Finset.range self.weights_view_.e2, ∑ v in Finset.range self.weights_view_.e3,
              bottom_layer.getD d (x + u) (y + v) 0 * self.weights_view_.getD n d u v 0)))) := by
  obtain ⟨st', hrun, hd⟩ := PassUp_dispatched expf next_single self bottom_layer st hw hb hst hN hrange
  rw [hrun]
  refine ⟨rfl, fun n x y hn hx hy => ?_⟩
  obtain ⟨_, _, h, _⟩ := hd.written (n, x, y) (mem_extentIdx.mpr ⟨hn, hx, hy⟩)
  exact h

/-- The scenario of the specification: with all weights `1` on the `1×4×4`
bottom and two `1×2×2` neurons, `top_prob[n, x, y]` is the logistic of the sum
of the `2×2` input patch starting at `(x, y)`, for both neurons and all nine
positions. -/
theorem PassUp_prob_is_logistic_of_footprint_sum_witness :
    (scenario_layer ℝ).weights_view_.WF ∧ (scenario_bottom ℝ).WF ∧ (scenario_top ℝ).Sound ∧
    (scenario_top ℝ).prob.e0 = (scenario_layer ℝ).neuron_num ∧
    ConvolveLayer.PassUp.ReadsInRange (scenario_layer ℝ) (scenario_bottom ℝ) 2 3 3 ∧
    ((scenario_layer ℝ).PassUp Real.exp (scenario_next_single ℝ) (scenario_bottom ℝ)
      (scenario_top ℝ)).err = none ∧
    ∀ n x y, n < 2 → x < 3 → y < 3 →
      ((scenario_layer ℝ).PassUp Real.exp (scenario_next_single ℝ) (scenario_bottom ℝ)
        (scenario_top ℝ)).state.prob.read n x y
        = .ok (1 / (1 + Real.exp (-((scenario_bottom ℝ).getD 0 x y 0
            + (scenario_bottom ℝ).getD 0 x (y + 1) 0 + (scenario_bottom ℝ).getD 0 (x + 1) y 0
            + (scenario_bottom ℝ).getD 0 (x + 1) (y + 1) 0)))) := by
  have hw : (scenario_layer ℝ).weights_view_.WF := by decide
  have hb : (scenario_bottom ℝ).WF := by decide
  have hst : (scenario_top ℝ).Sound := ⟨by decide, by decide, by decide, by decide, by decide⟩
  have hN : (scenario_top ℝ).prob.e0 = (scenario_layer ℝ).neuron_num := rfl
  have hrange : ConvolveLayer.PassUp.ReadsInRange (scenario_layer ℝ) (scenario_bottom ℝ) 2 3 3 := by
    intro n x y _ hx hy d u v hd hu hv
    simp only [scenario_layer] at hd hu hv
    simp only [Volume.inExtent, scenario_bottom]
    omega
  have h := PassUp_prob_is_logistic_of_footprint_sum Real.exp (scenario_next_single ℝ)
    (scenario_layer ℝ) (scenario_bottom ℝ) (scenario_top ℝ) hw hb hst hN hrange
  refine ⟨hw, hb, hst, hN, hrange, h.1, fun n x y hn hx hy => ?_⟩
  rw [h.2 n x y hn hx hy]
  have hone : ∀ u v, u < 2 → v < 2 → (scenario_layer ℝ).weights_view_.getD n 0 u v 0 = 1 := by
    intro u v hu hv
    interval_cases n <;> interval_cases u <;> interval_cases v <;> rfl
  simp only [scenario_layer, Finset.sum_range_succ, Finset.sum_range_zero, zero_add] at hone ⊢
  rw [hone 0 0 (by omega) (by omega), hone 0 1 (by omega) (by omega),
    hone 1 0 (by omega) (by omega), hone 1 1 (by omega) (by omega)]
  simp only [mul_one, add_zero, add_assoc]

theorem logistic_bounds (expf : F → F) (hexp : ∀ x, 0 < expf x) (r : F) :
    0 < logistic expf r ∧ logistic expf r < 1 := by
  have h := hexp (-r)
  unfold logistic
  exact ⟨div_pos one_pos (by linarith), (div_lt_one (by linarith)).mpr (by linarith)⟩

/-- C4: in `ConvolveLayer.PassUp`, for every output unit `(n, x, y)`, with `s` the
state of the unit's own stream `rng[n, x, y]` at the call and `p` the value left
in `top_prob[n, x, y]`, the value left in `top_sample[n, x, y]` is `1` if the
draw `(next_single s).1` is at most `p` and `0` otherwise; it is `1` exactly
when the draw is at most `p`. -/
theorem PassUp_sample_compares_own_draw (expf : F → F) (next_single : S → F × S)
    (self : ConvolveLayer F) (bottom_layer : Volume F) (st : Outputs F S)
    (hw : self.weights_view_.WF) (hb : bottom_layer.WF) (hst : st.Sound)
    (hN : st.prob.e0 = self.neuron_num)
    (hrange : ConvolveLayer.PassUp.ReadsInRange self bottom_layer st.prob.e0 st.prob.e1 st.prob.e2) :
    ∀ n x y, n < st.prob.e0 → x < st.prob.e1 → y < st.prob.e2 →
      ∃ s p smp, st.rand_collection.read n x y = .ok s ∧
        (self.PassUp expf next_single bottom_layer st).state.prob.read n x y = .ok p ∧
        (self.PassUp expf next_single bottom_layer st).state.sample.read n x y = .ok smp ∧
        smp = (if (next_single s).1 ≤ p then 1 else 0) ∧
        (smp = 1 ↔ (next_single s).1 ≤ p) ∧ (smp = 0 ↔ ¬ (next_single s).1 ≤ p) := by
  obtain ⟨st', hrun, hd⟩ := PassUp_dispatched expf next_single self bottom_layer st hw hb hst hN hrange
  rw [hrun]
  intro n x y hn hx hy
  obtain ⟨s, hs0, hp, hs, _⟩ := hd.written (n, x, y) (mem_extentIdx.mpr ⟨hn, hx, hy⟩)
  refine ⟨s, _, _, hs0, hp, hs, rfl, ?_, ?_⟩
  · by_cases h : (next_single s).1 ≤ logistic expf (upSum self.weights_view_ bottom_layer (n, x, y))
    · simp [h]
    · simp [h]
  · by_cases h : (next_single s).1 ≤ logistic expf (upSum self.weights_view_ bottom_layer (n, x, y))
    · simp [h]
    · simp [h]

/-- The scenario of the specification over the real numbers with `Real.exp`. -/
theorem PassUp_sample_compares_own_draw_witness :
    (scenario_layer ℝ).weights_view_.WF ∧ (scenario_bottom ℝ).WF ∧ (scenario_top ℝ).Sound ∧
    (scenario_top ℝ).prob.e0 = (scenario_layer ℝ).neuron_num ∧
    ConvolveLayer.PassUp.ReadsInRange (scenario_layer ℝ) (scenario_bottom ℝ) 2 3 3 ∧
    ∀ n x y, n < 2 → x < 3 → y < 3 →
      ∃ s p smp, (scenario_top ℝ).rand_collection.read n x y = .ok s ∧
        ((scenario_layer ℝ).PassUp Real.exp (scenario_next_single ℝ) (scenario_bottom ℝ)
          (scenario_top ℝ)).state.prob.read n x y = .ok p ∧
        ((scenario_layer ℝ).PassUp Real.exp (scenario_next_single ℝ) (scenario_bottom ℝ)
          (scenario_top ℝ)).state.sample.read n x y = .ok smp ∧
        smp = (if (scenario_next_single ℝ s).1 ≤ p then 1 else 0) ∧
        (smp = 1 ↔ (scenario_next_single ℝ s).1 ≤ p) ∧
        (smp = 0 ↔ ¬ (scenario_next_single ℝ s).1 ≤ p) := by
  have hw : (scenario_layer ℝ).weights_view_.WF := by decide
  have hb : (scenario_bottom ℝ).WF := by decide
  have hst : (scenario_top ℝ).Sound := ⟨by decide, by decide, by decide, by decide, by decide⟩
  have hN : (scenario_top ℝ).prob.e0 = (scenario_layer ℝ).neuron_num := rfl
  have hrange : ConvolveLayer.PassUp.ReadsInRange (scenario_layer ℝ) (scenario_bottom ℝ) 2 3 3 := by
    intro n x y _ hx hy d u v hd hu hv
    simp only [scenario_layer] at hd hu hv
    simp only [Volume.inExtent, scenario_bottom]
    omega
  exact ⟨hw, hb, hst, hN, hrange,
    PassUp_sample_compares_own_draw Real.exp (scenario_next_single ℝ)
      (scenario_layer ℝ) (scenario_bottom ℝ) (scenario_top ℝ) hw hb hst hN hrange⟩

/-- C6 (as stated, refuted): a bottom volume of depth two under kernels of depth
one is not rejected; the call succeeds and writes `top_prob[0, 0, 0]`. -/
theorem PassUp_accepts_bottom_depth_mismatch :
    (deep_bottom ℝ).e0 ≠ (unit_layer ℝ).weights_view_.e1 ∧
    ((unit_layer ℝ).PassUp Real.exp (scenario_next_single ℝ) (deep_bottom ℝ)
      (unit_top ℝ)).err = none ∧
    ((unit_layer ℝ).PassUp Real.exp (scenario_next_single ℝ) (deep_bottom ℝ)
      (unit_top ℝ)).state.prob.read 0 0 0 = .ok (1 / (1 + Real.exp (-1))) := by
  have hrange : ConvolveLayer.PassUp.ReadsInRange (unit_layer ℝ) (deep_bottom ℝ) 1 1 1 := by
    intro n x y _ hx hy d u v hd hu hv
    simp only [unit_layer] at hd hu hv
    simp only [Volume.inExtent, deep_bottom]
    omega
  obtain ⟨st', hrun, hd⟩ := PassUp_dispatched Real.exp (scenario_next_single ℝ) (unit_layer ℝ)
    (deep_bottom ℝ) (unit_top ℝ) (by decide) (by decide)
    ⟨by decide, by decide, by decide, by decide, by decide⟩ rfl hrange
  rw [hrun]
  refine ⟨by decide, rfl, ?_⟩
  obtain ⟨_, _, h, _⟩ := hd.written (0, 0, 0) (mem_extentIdx.mpr ⟨by decide, by decide, by decide⟩)
  rw [h]
  simp [logistic, upSum, unit_layer, deep_bottom, Volume.getD, Tensor4.getD, Volume.flat]

/-- C6 (amended): `ConvolveLayer.PassUp` rejects at the call boundary a top depth
that differs from the neuron count: the call fails on the assertion and the
buffers are as they were, no output unit having been computed or written. -/
theorem PassUp_rejects_top_depth_mismatch (expf : F → F) (next_single : S → F × S)
    (self : ConvolveLayer F) (bottom_layer : Volume F) (st : Outputs F S)
    (h : st.prob.e0 ≠ self.neuron_num) :
    (self.PassUp expf next_single bottom_layer st).err = some .assertFailed ∧
    (self.PassUp expf next_single bottom_layer st).state = st := by
  unfold ConvolveLayer.PassUp
  rw [if_neg h]
  exact ⟨rfl, rfl⟩

/-- The top buffers of the scenario (depth two) handed to a layer of one neuron. -/
theorem PassUp_rejects_top_depth_mismatch_witness :
    (scenario_top ℝ).prob.e0 ≠ (unit_layer ℝ).neuron_num ∧
    ((unit_layer ℝ).PassUp Real.exp (scenario_next_single ℝ) (scenario_bottom ℝ)
      (scenario_top ℝ)).err = some .assertFailed ∧
    ((unit_layer ℝ).PassUp Real.exp (scenario_next_single ℝ) (scenario_bottom ℝ)
      (scenario_top ℝ)).state = scenario_top ℝ :=
  ⟨by decide, PassUp_rejects_top_depth_mismatch Real.exp (scenario_next_single ℝ) (unit_layer ℝ)
    (scenario_bottom ℝ) (scenario_top ℝ) (by decide)⟩

end PassUpClaims

/-! ## `ConvolveLayer::PassUp` in binary32 -/

section SumOk

variable {F : Type} [Zero F] [Add F] [Mul F]

/-- A loop whose iterations cannot fail ends with a result. -/
theorem forLoop_ok {β : Type} (n : Nat) (body : Nat → β → Except Err β)
    (h : ∀ i, i < n → ∀ acc, ∃ acc', body i acc = .ok acc') (init : β) :
    ∃ r, forLoop n body init = .ok r := by
  induction n with
  | zero => exact ⟨init, rfl⟩
  | succ n ih =>
    obtain ⟨r, hr⟩ := ih (fun i hi => h i (Nat.lt_succ_of_lt hi))
    obtain ⟨r', hr'⟩ := h n (Nat.lt_succ_self n) r
    exact ⟨r', by rw [forLoop_succ, hr]; exact hr'⟩

/-- With every read in range, the loops of the `PassUp` kernel end with a
sum, whatever the arithmetic. -/
theorem PassUp_sum_ok (w : Tensor4 F) (bottom_layer : Volume F) (hw : w.WF)
    (hb : bottom_layer.WF) (idx : Nat × Nat × Nat) (hn : idx.1 < w.e0)
    (hrange : ∀ d u v, d < w.e1 → u < w.e2 → v < w.e3 →
      bottom_layer.inExtent d (idx.2.1 + u) (idx.2.2 + v)) :
    ∃ r, ConvolveLayer.PassUp.sum w bottom_layer idx = .ok r := by
  unfold ConvolveLayer.PassUp.sum
  rw [Tensor4.project_ok w hn]
  show ∃ r, forLoop w.e1 _ 0 = .ok r
  refine forLoop_ok _ _ (fun d hd acc => ?_) 0
  refine forLoop_ok _ _ (fun u hu acc => ?_) acc
  refine forLoop_ok _ _ (fun v hv acc => ?_) acc
  rw [Nat.zero_add, Volume.read_eq bottom_layer hb (hrange d u v hd hu hv) 0,
    Tensor4.project_read w hw hn hd hu hv 0]
  exact ⟨_, rfl⟩

end SumOk

section DispatchOk

variable {F S : Type} [Zero F] [One F] [Add F] [Mul F] [Neg F] [Div F] [LE F]
  [DecidableRel (fun a b : F => a ≤ b)]

/-- On a valid shape configuration `PassUp` ends without failure, whatever the
arithmetic, and leaves at every unit of the top extent the activation of the sum
the loops of the kernel formed there. -/
theorem PassUp_dispatched_ok (expf : F → F) (next_single : S → F × S)
    (self : ConvolveLayer F) (bottom_layer : Volume F) (st : Outputs F S)
    (hvalid : ConvolveLayer.PassUp.ValidShape self bottom_layer st) :
    ∃ val st', (∀ idx ∈ extentIdx st.prob.e0 st.prob.e1 st.prob.e2,
        ConvolveLayer.PassUp.sum self.weights_view_ bottom_layer idx = .ok (val idx)) ∧
      self.PassUp expf next_single bottom_layer st = ⟨st', none⟩ ∧
      Dispatched expf next_single val (extentIdx st.prob.e0 st.prob.e1 st.prob.e2) st st' := by
  have hrange := PassUp_validShape_reads self bottom_layer st hvalid
  have hsum : ∀ idx ∈ extentIdx st.prob.e0 st.prob.e1 st.prob.e2,
      ∃ r, ConvolveLayer.PassUp.sum self.weights_view_ bottom_layer idx = .ok r := by
    intro idx hidx
    obtain ⟨h0, h1, h2⟩ := mem_extentIdx.mp hidx
    refine PassUp_sum_ok _ _ hvalid.weights_WF hvalid.bottom_WF idx ?_
      (hrange idx.1 idx.2.1 idx.2.2 h0 h1 h2)
    have hN := hvalid.top_depth
    unfold ConvolveLayer.neuron_num at hN
    omega
  let val : Nat × Nat × Nat → F := fun idx =>
    match ConvolveLayer.PassUp.sum self.weights_view_ bottom_layer idx with
    | .ok r => r
    | .error _ => 0
  have hval : ∀ idx ∈ extentIdx st.prob.e0 st.prob.e1 st.prob.e2,
      ConvolveLayer.PassUp.sum self.weights_view_ bottom_layer idx = .ok (val idx) := by
    intro idx hidx
    obtain ⟨r, hr⟩ := hsum idx hidx
    simp only [val, hr]
  refine ⟨val, ?_⟩
  have hst := hvalid.sound
  obtain ⟨st', hrun, hd⟩ := dispatch_spec expf next_single
    (ConvolveLayer.PassUp.sum self.weights_view_ bottom_layer) val _ (nodup_extentIdx _ _ _)
    hval st hst.prob_WF hst.sample_WF hst.rand_WF (by
      intro idx hidx
      obtain ⟨h0, h1, h2⟩ := mem_extentIdx.mp hidx
      obtain ⟨s0, s1, s2⟩ := hst.sample_extent
      obtain ⟨r0, r1, r2⟩ := hst.rand_extent
      exact ⟨⟨h0, h1, h2⟩, ⟨s0 ▸ h0, s1 ▸ h1, s2 ▸ h2⟩, ⟨r0 ▸ h0, r1 ▸ h1, r2 ▸ h2⟩⟩)
  refine ⟨st', hval, ?_, hd⟩
  unfold ConvolveLayer.PassUp
  rw [if_pos hvalid.top_depth]
  exact hrun

end DispatchOk

section Binary32Lemmas

theorem roundEven_mem (y : ℚ) : roundEven y = ⌊y⌋ ∨ roundEven y = ⌊y⌋ + 1 := by
  unfold roundEven
  split
  · exact Or.inl rfl
  · split
    · exact Or.inr rfl
    · split
      · exact Or.inl rfl
      · exact Or.inr rfl

theorem roundEven_ge (y : ℚ) (m : ℤ) (h : (m : ℚ) ≤ y) : m ≤ roundEven y := by
  have hf : m ≤ ⌊y⌋ := Int.le_floor.mpr h
  rcases roundEven_mem y with h1 | h1 <;> omega

theorem roundEven_eq (y : ℚ) (m : ℤ) (h1 : (m : ℚ) ≤ y) (h2 : y < m + 1 / 2) :
    roundEven y = m := by
  have hf : ⌊y⌋ = m := Int.floor_eq_iff.mpr ⟨h1, by linarith⟩
  unfold roundEven
  rw [hf, if_pos (by linarith)]

theorem roundEven_le (y : ℚ) (m : ℤ) (h : y ≤ (m : ℚ)) : roundEven y ≤ m := by
  rcases lt_or_eq_of_le h with hlt | heq
  · have hf : ⌊y⌋ < m := Int.floor_lt.mpr hlt
    rcases roundEven_mem y with h1 | h1 <;> omega
  · rw [roundEven_eq y m (le_of_eq heq.symm) (by linarith)]

theorem log2_eq (x : ℚ) (e : ℤ) (h1 : (2 : ℚ) ^ e ≤ x) (h2 : x < (2 : ℚ) ^ (e + 1)) :
    Int.log 2 x = e := by
  have hpos : 0 < x := lt_of_lt_of_le (zpow_pos (by norm_num) e) h1
  have ha : e ≤ Int.log 2 x := (Int.zpow_le_iff_le_log (by norm_num) hpos).mp (by exact_mod_cast h1)
  have hb : Int.log 2 x < e + 1 := (Int.lt_zpow_iff_log_lt (by norm_num) hpos).mp (by exact_mod_cast h2)
  omega


theorem quantum32_pos (x : ℚ) : 0 < quantum32 x := zpow_pos (by norm_num) _

theorem quantum32_eq (x : ℚ) (e : ℤ) (he : -126 ≤ e) (h1 : (2 : ℚ) ^ e ≤ |x|)
    (h2 : |x| < (2 : ℚ) ^ (e + 1)) : quantum32 x = (2 : ℚ) ^ (e - 23) := by
  unfold quantum32
  rw [log2_eq |x| e h1 h2, max_eq_left he]

theorem round32_nonneg (x : ℚ) (h : 0 ≤ x) : 0 ≤ round32 x := by
  unfold round32
  have hq := quantum32_pos x
  have h0 : (0 : ℤ) ≤ roundEven (x / quantum32 x) :=
    roundEven_ge _ 0 (by simpa using div_nonneg h hq.le)
  exact mul_nonneg (by exact_mod_cast h0) hq.le

theorem two_pow23_mul (e : ℤ) : ((8388608 : ℤ) : ℚ) * (2 : ℚ) ^ (e - 23) = (2 : ℚ) ^ e := by
  rw [zpow_sub₀ (by norm_num : (2 : ℚ) ≠ 0)]
  norm_num
  field_simp

/-- Rounding a value that is at least `1` gives at least `1`. -/
theorem round32_ge_one (x : ℚ) (h : 1 ≤ x) : 1 ≤ round32 x := by
  have hx : |x| = x := abs_of_nonneg (by linarith)
  have hpos : 0 < x := by linarith
  have he : 0 ≤ Int.log 2 x :=
    (Int.zpow_le_iff_le_log (by norm_num) hpos).mp (by simpa using h)
  have hq : quantum32 x = (2 : ℚ) ^ (Int.log 2 x - 23) := by
    unfold quantum32
    rw [hx, max_eq_left (by omega)]
  have hle : (2 : ℚ) ^ (Int.log 2 x) ≤ x := by
    have := Int.zpow_log_le_self (b := 2) (r := x) (by norm_num) hpos
    exact_mod_cast this
  unfold round32
  rw [hq]
  have h23 : ((8388608 : ℤ) : ℚ) ≤ x / (2 : ℚ) ^ (Int.log 2 x - 23) := by
    rw [le_div_iff₀ (zpow_pos (by norm_num) _), two_pow23_mul]
    exact hle
  have hr := roundEven_ge _ _ h23
  have hr' : ((8388608 : ℤ) : ℚ) ≤ (roundEven (x / (2 : ℚ) ^ (Int.log 2 x - 23)) : ℚ) := by
    exact_mod_cast hr
  calc (1 : ℚ) ≤ (2 : ℚ) ^ (Int.log 2 x) := one_le_zpow₀ (by norm_num) he
    _ = ((8388608 : ℤ) : ℚ) * (2 : ℚ) ^ (Int.log 2 x - 23) := (two_pow23_mul _).symm
    _ ≤ _ := mul_le_mul_of_nonneg_right hr' (zpow_pos (by norm_num) _).le

/-- Rounding a value between `0` and `1` gives at most `1`. -/
theorem round32_le_one (x : ℚ) (h0 : 0 ≤ x) (h1 : x ≤ 1) : round32 x ≤ 1 := by
  unfold round32
  have hq := quantum32_pos x
  -- the spacing is `2 ^ (-k)` for a natural `k`, so `1` is a multiple of it
  have hk : ∃ k : ℕ, quantum32 x = ((2 ^ k : ℤ) : ℚ)⁻¹ := by
    have hlog : Int.log 2 |x| ≤ 0 := by
      rw [abs_of_nonneg h0]
      rcases eq_or_lt_of_le h0 with hz | hp
      · rw [← hz]; simp
      · by_contra hc
        have : (2 : ℚ) ^ (1 : ℤ) ≤ x := by
          have := (Int.zpow_le_iff_le_log (b := 2) (by norm_num) hp (x := 1)).mpr (by omega)
          exact_mod_cast this
        norm_num at this
        linarith
    refine ⟨(23 - max (Int.log 2 |x|) (-126)).toNat, ?_⟩
    unfold quantum32
    have hn : (max (Int.log 2 |x|) (-126) - 23) = -((23 - max (Int.log 2 |x|) (-126)).toNat : ℤ) := by
      rw [Int.toNat_of_nonneg (by omega)]
      ring
    rw [hn, zpow_neg, zpow_natCast]
    push_cast
    rfl
  obtain ⟨k, hk⟩ := hk
  have hle : x / quantum32 x ≤ ((2 ^ k : ℤ) : ℚ) := by
    rw [hk, div_inv_eq_mul]
    have hpow : (0 : ℚ) ≤ ((2 ^ k : ℤ) : ℚ) := by positivity
    calc x * ((2 ^ k : ℤ) : ℚ) ≤ 1 * ((2 ^ k : ℤ) : ℚ) := mul_le_mul_of_nonneg_right h1 hpow
      _ = _ := one_mul _
  have hr := roundEven_le _ _ hle
  have hr' : (roundEven (x / quantum32 x) : ℚ) ≤ ((2 ^ k : ℤ) : ℚ) := by exact_mod_cast hr
  calc (roundEven (x / quantum32 x) : ℚ) * quantum32 x
      ≤ ((2 ^ k : ℤ) : ℚ) * quantum32 x := mul_le_mul_of_nonneg_right hr' hq.le
    _ = 1 := by
      rw [hk]
      exact mul_inv_cancel₀ (by positivity)

theorem roundEven_intCast (m : ℤ) : roundEven (m : ℚ) = m :=
  roundEven_eq _ m le_rfl (by linarith)

/-- A value in the binade of `2 ^ e` that is a multiple of the spacing there is
kept by rounding. -/
theorem round32_eq_self (x : ℚ) (e m : ℤ) (he : -126 ≤ e) (h1 : (2 : ℚ) ^ e ≤ |x|)
    (h2 : |x| < (2 : ℚ) ^ (e + 1)) (hm : x = m * (2 : ℚ) ^ (e - 23)) : round32 x = x := by
  unfold round32
  rw [quantum32_eq x e he h1 h2]
  have hd : x / (2 : ℚ) ^ (e - 23) = (m : ℚ) := by
    rw [hm, mul_div_assoc, div_self (zpow_pos (by norm_num) _).ne', mul_one]
  rw [hd, roundEven_intCast, ← hm]

theorem round32_seventeen : round32 17 = 17 :=
  round32_eq_self 17 4 8912896 (by norm_num) (by norm_num) (by norm_num) (by norm_num)

theorem round32_one : round32 1 = 1 :=
  round32_eq_self 1 0 8388608 (by norm_num) (by norm_num) (by norm_num) (by norm_num)

theorem round32_zero : round32 0 = 0 := by
  have h : roundEven (0 : ℚ) = 0 := by simpa using roundEven_intCast 0
  unfold round32
  rw [zero_div, h]
  simp

/-- A value that exceeds `1` by less than half the spacing above `1` rounds to `1`. -/
theorem round32_near_one (v : ℚ) (h0 : 0 ≤ v) (h1 : v < 1 / 2 ^ 24) : round32 (1 + v) = 1 := by
  have hlt : v < 1 := lt_trans h1 (by norm_num)
  have habs : |1 + v| = 1 + v := abs_of_nonneg (by linarith)
  unfold round32
  rw [quantum32_eq (1 + v) 0 (by norm_num) (by rw [habs]; norm_num; linarith)
    (by rw [habs]; norm_num; linarith)]
  have hr : roundEven ((1 + v) / (2 : ℚ) ^ ((0 : ℤ) - 23)) = 8388608 := by
    apply roundEven_eq
    · rw [le_div_iff₀ (zpow_pos (by norm_num) _)]
      norm_num
      linarith
    · rw [div_lt_iff₀ (zpow_pos (by norm_num) _)]
      norm_num at h1 ⊢
      linarith
  rw [hr]
  norm_num


theorem F32.ofRat_of_le_one (x : ℚ) (h0 : 0 ≤ x) (h1 : x ≤ 1) :
    F32.ofRat x = .fin (round32 x) := by
  unfold F32.ofRat
  have ha : |round32 x| ≤ 1 := by
    rw [abs_of_nonneg (round32_nonneg x h0)]
    exact round32_le_one x h0 h1
  rw [if_neg]
  unfold maxFinite32
  intro hc
  have : (1 : ℚ) < (2 ^ 24 - 1) * 2 ^ 104 := by norm_num
  linarith

/-- The sum of `1` and a value that is not negative is at least `1`. -/
theorem F32.one_le_one_add (e : F32) (he : (0 : F32) ≤ e) : (1 : F32) ≤ 1 + e := by
  cases e with
  | nan => exact absurd he (by decide)
  | inf s =>
    cases s with
    | true => exact absurd he (by decide)
    | false => decide
  | fin q =>
    have hq : 0 ≤ q := by
      have : decide ((0 : ℚ) ≤ q) = true := he
      exact of_decide_eq_true this
    show F32.le (.fin 1) (F32.ofRat (1 + q)) = true
    unfold F32.ofRat
    split
    · have : ¬ (1 + q < 0) := by linarith
      simp [F32.le, this]
    · simp only [F32.le, decide_eq_true_eq]
      exact round32_ge_one _ (by linarith)

/-- The quotient of `1` by a value that is at least `1` lies between `0` and `1`. -/
theorem F32.one_div_bounds (d : F32) (hd : (1 : F32) ≤ d) :
    (0 : F32) ≤ 1 / d ∧ (1 : F32) / d ≤ 1 := by
  cases d with
  | nan => exact absurd hd (by decide)
  | inf s =>
    cases s with
    | true => exact absurd hd (by decide)
    | false => exact ⟨by decide, by decide⟩
  | fin q =>
    have hq : 1 ≤ q := by
      have : decide ((1 : ℚ) ≤ q) = true := hd
      exact of_decide_eq_true this
    have hne : q ≠ 0 := by linarith
    have h0 : (0 : ℚ) ≤ 1 / q := by positivity
    have h1 : (1 : ℚ) / q ≤ 1 := (div_le_one (by linarith)).mpr hq
    have hdiv : (1 : F32) / .fin q = .fin (round32 (1 / q)) := by
      show F32.div (.fin 1) (.fin q) = _
      simp only [F32.div, hne, if_false]
      exact F32.ofRat_of_le_one _ h0 h1
    rw [hdiv]
    constructor
    · show F32.le (.fin 0) (.fin _) = true
      simp only [F32.le, decide_eq_true_eq]
      exact round32_nonneg _ h0
    · show F32.le (.fin _) (.fin 1) = true
      simp only [F32.le, decide_eq_true_eq]
      exact round32_le_one _ h0 h1

/-- An exact result that is a binary32 value is the result of the operation. -/
theorem F32.ofRat_eq (x : ℚ) (h : round32 x = x) (hmax : |x| ≤ maxFinite32) :
    F32.ofRat x = .fin x := by
  unfold F32.ofRat
  rw [h, if_neg (not_lt.mpr hmax)]

/-- The logistic activation in binary32 of a sum that is a number lies between
`0` and `1`, when `expf` of a number is not negative. -/
theorem logistic32_bounds (expf : F32 → F32) (hexp : ∀ x, x ≠ .nan → (0 : F32) ≤ expf x)
    (r : F32) (hr : r ≠ .nan) :
    (0 : F32) ≤ logistic expf r ∧ logistic expf r ≤ 1 := by
  have hneg : -r ≠ .nan := by
    cases r with
    | nan => exact absurd rfl hr
    | inf s => intro h; cases h
    | fin q => intro h; cases h
  unfold logistic
  exact F32.one_div_bounds _ (F32.one_le_one_add _ (hexp _ hneg))

/-- The real exponential at `-17` is within half a spacing of the binary32 value
`11652889 / 2 ^ 48`; and it is less than half the spacing `2 ^ (-23)` of the
binary32 values above `1`. -/
theorem exp_neg_seventeen :
    |Real.exp (-17) - (11652889 / 2 ^ 48 : ℝ)| < 1 / 2 ^ 49 ∧ Real.exp (-17) < 1 / 2 ^ 24 := by
  have h17 : Real.exp 17 = Real.exp 1 ^ 17 := by
    rw [← Real.exp_nat_mul]
    norm_num
  have hlo : (2.7182818283 : ℝ) ^ 17 < Real.exp 17 := by
    rw [h17]
    exact pow_lt_pow_left₀ Real.exp_one_gt_d9 (by norm_num) (by norm_num)
  have hhi : Real.exp 17 < (2.7182818286 : ℝ) ^ 17 := by
    rw [h17]
    exact pow_lt_pow_left₀ Real.exp_one_lt_d9 (Real.exp_pos 1).le (by norm_num)
  have hpos := Real.exp_pos 17
  have hinv : Real.exp (-17) = (Real.exp 17)⁻¹ := Real.exp_neg 17
  have hupper : (Real.exp 17)⁻¹ < (23305779 / 2 ^ 49 : ℝ) := by
    rw [inv_lt_comm₀ hpos (by norm_num)]
    refine lt_trans ?_ hlo
    norm_num
  have hlower : (23305777 / 2 ^ 49 : ℝ) < (Real.exp 17)⁻¹ := by
    rw [lt_inv_comm₀ (by norm_num) hpos]
    refine lt_trans hhi ?_
    norm_num
  rw [hinv]
  constructor
  · rw [abs_lt]
    constructor <;> linarith
  · refine lt_trans hupper ?_
    norm_num

end Binary32Lemmas

section Binary32Claims

variable {S : Type}

/-- C3 (as stated, refuted): in binary32 the bounds are reached.  Under a weight
`1.0f`, the input `17.0f` gives the sum `17.0f`; `expf(-17.0f)` is less than half
the spacing of the values above `1.0f`, so `1.0f + expf(-17.0f)` is `1.0f` and
the probability written is exactly `1`.  The input `-100.0f` gives the sum
`-100.0f`; `expf(100.0f)` overflows, and the probability written is exactly
`0`. -/
theorem PassUp_prob_reaches_bounds :
    (unit_layer32.PassUp expf32 next_single32 (unit_bottom32 17) unit_top32).err = none ∧
    (unit_layer32.PassUp expf32 next_single32 (unit_bottom32 17) unit_top32).state.prob.read 0 0 0
      = .ok 1 ∧
    (unit_layer32.PassUp expf32 next_single32 (unit_bottom32 (-100)) unit_top32).err = none ∧
    (unit_layer32.PassUp expf32 next_single32 (unit_bottom32 (-100))
      unit_top32).state.prob.read 0 0 0 = .ok 0 ∧
    expf32 (.fin (-17)) = .fin (11652889 / 2 ^ 48) ∧
    |Real.exp (-17) - (11652889 / 2 ^ 48 : ℝ)| < 1 / 2 ^ 49 ∧ Real.exp (-17) < 1 / 2 ^ 24 := by
  have hup : (unit_layer32.PassUp expf32 next_single32 (unit_bottom32 17)
      unit_top32).state.prob.read 0 0 0
      = .ok (logistic expf32 (0 + F32.fin 17 * 1)) := rfl
  have hdown : (unit_layer32.PassUp expf32 next_single32 (unit_bottom32 (-100))
      unit_top32).state.prob.read 0 0 0
      = .ok (logistic expf32 (0 + F32.fin (-100) * 1)) := rfl
  have hmax17 : |(17 : ℚ)| ≤ maxFinite32 := by
    unfold maxFinite32
    norm_num
  have hmax100 : |(-100 : ℚ)| ≤ maxFinite32 := by
    unfold maxFinite32
    norm_num
  have hmax1 : |(1 : ℚ)| ≤ maxFinite32 := by
    unfold maxFinite32
    norm_num
  have hr100 : round32 (-100) = -100 :=
    round32_eq_self (-100) 6 (-13107200) (by norm_num) (by norm_num) (by norm_num) (by norm_num)
  have hsum17 : (0 : F32) + F32.fin 17 * 1 = .fin 17 := by
    show F32.add (.fin 0) (F32.mul (.fin 17) (.fin 1)) = _
    have hm : F32.mul (.fin 17) (.fin 1) = .fin 17 := by
      show F32.ofRat (17 * 1) = _
      rw [mul_one]
      exact F32.ofRat_eq 17 round32_seventeen hmax17
    rw [hm]
    show F32.ofRat (0 + 17) = _
    rw [zero_add]
    exact F32.ofRat_eq 17 round32_seventeen hmax17
  have hsum100 : (0 : F32) + F32.fin (-100) * 1 = .fin (-100) := by
    show F32.add (.fin 0) (F32.mul (.fin (-100)) (.fin 1)) = _
    have hm : F32.mul (.fin (-100)) (.fin 1) = .fin (-100) := by
      show F32.ofRat (-100 * 1) = _
      rw [mul_one]
      exact F32.ofRat_eq (-100) hr100 hmax100
    rw [hm]
    show F32.ofRat (0 + -100) = _
    rw [zero_add]
    exact F32.ofRat_eq (-100) hr100 hmax100
  have hone : logistic expf32 (.fin 17) = 1 := by
    show F32.div (.fin 1) (F32.add (.fin 1) (expf32 (F32.neg (.fin 17)))) = .fin 1
    have he : expf32 (F32.neg (.fin 17)) = .fin (11652889 / 2 ^ 48) := by
      simp only [F32.neg, expf32, if_true]
    rw [he]
    have ha : F32.add (.fin 1) (.fin (11652889 / 2 ^ 48)) = .fin 1 := by
      show F32.ofRat (1 + 11652889 / 2 ^ 48) = _
      have hr : round32 (1 + 11652889 / 2 ^ 48) = 1 :=
        round32_near_one _ (by norm_num) (by norm_num)
      unfold F32.ofRat
      rw [hr, if_neg (not_lt.mpr hmax1)]
    rw [ha]
    simp only [F32.div, one_ne_zero, if_false, div_one]
    exact F32.ofRat_eq 1 round32_one hmax1
  have hzero : logistic expf32 (.fin (-100)) = 0 := by
    show F32.div (.fin 1) (F32.add (.fin 1) (expf32 (F32.neg (.fin (-100))))) = .fin 0
    have he : expf32 (F32.neg (.fin (-100))) = .inf false := by
      simp only [F32.neg, expf32, neg_neg]
      norm_num
    rw [he]
    rfl
  refine ⟨rfl, ?_, rfl, ?_, ?_, exp_neg_seventeen⟩
  · rw [hup, hsum17, hone]
  · rw [hdown, hsum100, hzero]
  · simp only [expf32, if_true]

/-- C3 (amended): in binary32, for every valid shape configuration, every input
and every `expf` whose value at a number is not negative, `ConvolveLayer.PassUp`
ends without failure and, at every unit of the top extent, the value written to
`top_sample` is exactly `0` or `1`, and the value written to `top_prob` lies
between `0` and `1`, both bounds included, whenever the weighted sum of the unit
is a number (it is not one when an input or a weight is not, or when infinities
of both signs are added). -/
theorem PassUp_prob_in_unit_interval_sample_binary (expf : F32 → F32)
    (hexp : ∀ x, x ≠ .nan → (0 : F32) ≤ expf x)
    (next_single : S → F32 × S) (self : ConvolveLayer F32) (bottom_layer : Volume F32)
    (st : Outputs F32 S) (hvalid : ConvolveLayer.PassUp.ValidShape self bottom_layer st) :
    (self.PassUp expf next_single bottom_layer st).err = none ∧
    ∀ n x y, n < st.prob.e0 → x < st.prob.e1 → y < st.prob.e2 →
      ∃ r p smp,
        ConvolveLayer.PassUp.sum self.weights_view_ bottom_layer (n, x, y) = .ok r ∧
        (self.PassUp expf next_single bottom_layer st).state.prob.read n x y = .ok p ∧
        (self.PassUp expf next_single bottom_layer st).state.sample.read n x y = .ok smp ∧
        (smp = 0 ∨ smp = 1) ∧ (r ≠ .nan → (0 : F32) ≤ p ∧ p ≤ 1) := by
  obtain ⟨val, st', hval, hrun, hd⟩ :=
    PassUp_dispatched_ok expf next_single self bottom_layer st hvalid
  rw [hrun]
  refine ⟨rfl, fun n x y hn hx hy => ?_⟩
  have hmem := mem_extentIdx.mpr (show (n, x, y).1 < st.prob.e0 ∧ (n, x, y).2.1 < st.prob.e1 ∧
    (n, x, y).2.2 < st.prob.e2 from ⟨hn, hx, hy⟩)
  obtain ⟨s, _, hp, hs, _⟩ := hd.written (n, x, y) hmem
  refine ⟨val (n, x, y), _, _, hval _ hmem, hp, hs, ?_, fun hr => logistic32_bounds expf hexp _ hr⟩
  split
  · exact Or.inr rfl
  · exact Or.inl rfl

/-- The unit layer over binary32 on the input `17.0f`, with the stand-in for
`expf`. -/
theorem PassUp_prob_in_unit_interval_sample_binary_witness :
    (∀ x, x ≠ F32.nan → (0 : F32) ≤ expf32 x) ∧
    ConvolveLayer.PassUp.ValidShape unit_layer32 (unit_bottom32 17) unit_top32 ∧
    (unit_layer32.PassUp expf32 next_single32 (unit_bottom32 17) unit_top32).err = none ∧
    ∀ n x y, n < unit_top32.prob.e0 → x < unit_top32.prob.e1 → y < unit_top32.prob.e2 →
      ∃ r p smp,
        ConvolveLayer.PassUp.sum unit_layer32.weights_view_ (unit_bottom32 17) (n, x, y) = .ok r ∧
        (unit_layer32.PassUp expf32 next_single32 (unit_bottom32 17)
          unit_top32).state.prob.read n x y = .ok p ∧
        (unit_layer32.PassUp expf32 next_single32 (unit_bottom32 17)
          unit_top32).state.sample.read n x y = .ok smp ∧
        (smp = 0 ∨ smp = 1) ∧ (r ≠ .nan → (0 : F32) ≤ p ∧ p ≤ 1) := by
  have hexp : ∀ x, x ≠ F32.nan → (0 : F32) ≤ expf32 x := by
    intro x hx
    cases x with
    | nan => exact absurd rfl hx
    | inf s => cases s <;> decide
    | fin q =>
      by_cases h1 : q = -17
      · rw [show expf32 (.fin q) = .fin (11652889 / 2 ^ 48) by simp only [expf32, h1, if_true]]
        show F32.le (.fin 0) (.fin _) = true
        simp only [F32.le, decide_eq_true_eq]
        norm_num
      · by_cases h2 : q = 100
        · rw [show expf32 (.fin q) = .inf false by
            show (if q = -17 then _ else if q = 100 then _ else _) = _
            rw [if_neg h1, if_pos h2]]
          rfl
        · rw [show expf32 (.fin q) = .fin 1 by simp only [expf32, h1, h2, if_false]]
          show F32.le (.fin 0) (.fin 1) = true
          simp only [F32.le, decide_eq_true_eq]
          norm_num
  have hvalid : ConvolveLayer.PassUp.ValidShape unit_layer32 (unit_bottom32 17) unit_top32 :=
    ⟨by decide, by decide, ⟨by decide, by decide, by decide, by decide, by decide⟩, rfl, rfl,
      by decide, by decide⟩
  exact ⟨hexp, hvalid,
    PassUp_prob_in_unit_interval_sample_binary expf32 hexp next_single32 unit_layer32
      (unit_bottom32 17) unit_top32 hvalid⟩

end Binary32Claims

/-! ## `ConvolveLayer::PassDown` -/

section PassDownClaims

variable {F : Type} [LinearOrderedField F]

/-- C2 (the code at the failing input): with one neuron `1×2×1` of weights
`w[0,0,0,0] = 1`, `w[0,0,1,0] = 0` and a top volume `1×2×1` of ones, every read of
`PassDown` is in range and the call succeeds, but `bottom_prob[0, 1, 0]` is the
logistic of `0` (both terms use `w[0, 0, 1, 0]`, the weight at the unit's own
position), whereas the transposed convolution there is `1` and its logistic is
a different number. -/
theorem PassDown_indexes_weight_by_unit :
    ((down_layer ℝ).PassDown Real.exp (scenario_next_single ℝ) (down_top ℝ)
      (down_bottom ℝ)).err = none ∧
    ((down_layer ℝ).PassDown Real.exp (scenario_next_single ℝ) (down_top ℝ)
      (down_bottom ℝ)).state.prob.read 0 1 0 = .ok (1 / (1 + Real.exp (-0))) ∧
    transposedSum (down_layer ℝ).weights_view_ (down_top ℝ) (0, 1, 0) = 1 ∧
    (1 / (1 + Real.exp (-0)) : ℝ) ≠ 1 / (1 + Real.exp (-1)) := by
  have hrange : ∀ idx ∈ extentIdx (down_bottom ℝ).prob.e0 (down_bottom ℝ).prob.e1
      (down_bottom ℝ).prob.e2,
      ConvolveLayer.PassDown.ReadsInRange (down_layer ℝ).weights_view_ (down_top ℝ) idx := by
    intro idx hidx
    obtain ⟨h0, h1, h2⟩ := mem_extentIdx.mp hidx
    simp only [down_bottom] at h0 h1 h2
    refine ⟨⟨h0, h1, h2⟩, ?_⟩
    intro n u v hn hu hv hux hvy
    simp only [down_layer] at hn hu hv
    simp only [Volume.inExtent, down_top]
    omega
  obtain ⟨st', hrun, hd⟩ := PassDown_dispatched Real.exp (scenario_next_single ℝ) (down_layer ℝ)
    (down_top ℝ) (down_bottom ℝ) (by decide) (by decide)
    ⟨by decide, by decide, by decide, by decide, by decide⟩ rfl hrange
  rw [hrun]
  refine ⟨rfl, ?_, ?_, ?_⟩
  · obtain ⟨_, _, h, _⟩ := hd.written (0, 1, 0)
      (mem_extentIdx.mpr ⟨by decide, by decide, by decide⟩)
    rw [h]
    simp [logistic, downSum, down_layer, down_top, Volume.getD, Tensor4.getD, Volume.flat,
      Finset.sum_range_succ]
  · simp [transposedSum, down_layer, down_top, Volume.getD, Tensor4.getD, Volume.flat,
      Finset.sum_range_succ]
  · intro h
    have h1 : (0 : ℝ) < 1 + Real.exp (-0) := by positivity
    have h2 : (0 : ℝ) < 1 + Real.exp (-1) := by positivity
    rw [div_eq_div_iff h1.ne.symm h2.ne.symm] at h
    have h3 : Real.exp (-1) = Real.exp (-0) := by linarith
    have h4 := Real.exp_injective h3
    norm_num at h4

/-- C7 (the code at the failing input): on the valid-convolution configuration of
a `1×2×1` bottom, one `1×2×1` neuron and a `1×1×1` top, the kernel run at the
bottom unit `(0, 1, 0)` passes the guard at offset `(0, 0)` and reads
`top(0, 1, 0)`, which is outside the extent of the top volume; the call fails
with an out-of-range access. -/
theorem PassDown_reads_top_out_of_range (expf : F → F) (next_single : Nat → F × Nat) :
    ConvolveLayer.PassDown.ValidShape (down_layer F) (down_top_short F) (down_bottom F) ∧
    ((1 : Int) - 0 ≥ 0 ∧ (0 : Int) - 0 ≥ 0) ∧
    ¬ (down_top_short F).inExtent 0 1 0 ∧
    (down_top_short F).readI 0 ((1 : Int) - 0) ((0 : Int) - 0) = .error .outOfRange ∧
    ConvolveLayer.PassDown.sum (down_layer F).weights_view_ (down_top_short F) (0, 1, 0)
      = .error .outOfRange ∧
    ((down_layer F).PassDown expf next_single (down_top_short F) (down_bottom F)).err
      = some .outOfRange :=
  ⟨⟨rfl, rfl, ⟨rfl, rfl, rfl, ⟨rfl, rfl, rfl⟩, ⟨rfl, rfl, rfl⟩⟩, rfl, rfl, rfl, rfl⟩,
    by decide, fun h => absurd h.2.1 (by simp [down_top_short]), rfl, rfl, rfl⟩

end PassDownClaims

/-! ## `DataLayer::SetData` -/

section SetDataClaims

variable {F S : Type}

/-- C5: on a data layer whose `data_` has `depth * width * height` elements,
`SetData(values)` fails, with the size assertion, if and only if the size of
`values` differs from `depth * width * height`, and then leaves the layer
unchanged; otherwise it succeeds and afterwards the activations are exactly
`values`, the rest of the layer being unchanged. -/
theorem SetData_fails_iff_size_differs (self : DataLayer F S) (values : List F)
    (hinv : self.data_.length = self.depth * self.width * self.height) :
    ((self.SetData values).err = some .assertFailed ↔
      values.length ≠ self.depth * self.width * self.height) ∧
    ((self.SetData values).err = none ↔
      values.length = self.depth * self.width * self.height) ∧
    (values.length ≠ self.depth * self.width * self.height →
      (self.SetData values).state = self) ∧
    (values.length = self.depth * self.width * self.height →
      (self.SetData values).state = { self with data_ := values } ∧
      (self.SetData values).state.data_view_.data = values) := by
  unfold DataLayer.SetData
  rw [hinv]
  by_cases h : values.length = self.depth * self.width * self.height
  · simp [h, DataLayer.data_view_]
  · simp [h]

/-- A freshly constructed `1×4×4` layer receives sixteen values. -/
theorem SetData_fails_iff_size_differs_witness :
    (DataLayer.allocate 2 id (fun _ => (0 : ℚ)) 1 4 4 : DataLayer ℚ Nat).data_.length = 1 * 4 * 4 ∧
    ((DataLayer.allocate 2 id (fun _ => (0 : ℚ)) 1 4 4 : DataLayer ℚ Nat).SetData
      (scenario_bottom ℚ).data).err = none ∧
    ((DataLayer.allocate 2 id (fun _ => (0 : ℚ)) 1 4 4 : DataLayer ℚ Nat).SetData
      (scenario_bottom ℚ).data).state.data_view_.data = (scenario_bottom ℚ).data ∧
    ((DataLayer.allocate 2 id (fun _ => (0 : ℚ)) 1 4 4 : DataLayer ℚ Nat).SetData
      [1, 2, 3]).err = some .assertFailed ∧
    ((DataLayer.allocate 2 id (fun _ => (0 : ℚ)) 1 4 4 : DataLayer ℚ Nat).SetData
      [1, 2, 3]).state = DataLayer.allocate 2 id (fun _ => (0 : ℚ)) 1 4 4 :=
  ⟨by decide,
    (SetData_fails_iff_size_differs _ (scenario_bottom ℚ).data (by decide)).2.1.mpr (by decide),
    ((SetData_fails_iff_size_differs _ (scenario_bottom ℚ).data (by decide)).2.2.2
      (by decide)).2,
    (SetData_fails_iff_size_differs _ [1, 2, 3] (by decide)).1.mpr (by decide),
    (SetData_fails_iff_size_differs _ [1, 2, 3] (by decide)).2.2.1 (by decide)⟩

end SetDataClaims

/-! ## `DeepModel::PassUp` -/

section DeepModelUp

variable {F S : Type}

theorem PassUp_step_eq (passUp2 : ConvolveLayer F → Volume F → Volume F → Res (Volume F))
    (k : Nat) (m : DeepModel F S) (conv : ConvolveLayer F) (bl tl : DataLayer F S)
    (hc : m.convolve_layers_[k]? = some conv) (hb : m.data_layers_[k]? = some bl)
    (ht : m.data_layers_[k + 1]? = some tl) :
    DeepModel.PassUp.step passUp2 k m =
      ⟨{ m with
         data_layers_ := m.data_layers_.set (k + 1)
           { tl with data_ := (passUp2 conv bl.data_view_ tl.data_view_).state.data } },
        (passUp2 conv bl.data_view_ tl.data_view_).err⟩ := by
  simp only [DeepModel.PassUp.step, hc, hb, ht]

theorem PassUp_step_missing (passUp2 : ConvolveLayer F → Volume F → Volume F → Res (Volume F))
    (k : Nat) (m : DeepModel F S) (h : m.data_layers_.length ≤ k + 1) :
    DeepModel.PassUp.step passUp2 k m = ⟨m, some .undefinedBehaviour⟩ := by
  have ht : m.data_layers_[k + 1]? = none := List.getElem?_eq_none h
  unfold DeepModel.PassUp.step
  rw [ht]
  split
  · rename_i h1 h2 h3
    exact absurd h3 (by simp)
  · rfl

/-- The invariant of the loop of `DeepModel::PassUp` after `k` iterations. -/
theorem PassUp_loop_inv (passUp2 : ConvolveLayer F → Volume F → Volume F → Res (Volume F))
    (convs : List (ConvolveLayer F)) (ls0 : List (DataLayer F S))
    (hlen : ls0.length = convs.length + 1)
    (hok : (forRes (DeepModel.PassUp.step passUp2) (List.range convs.length)
      ⟨ls0, convs⟩).err = none) :
    (forRes (DeepModel.PassUp.step passUp2) (List.range convs.length)
        ⟨ls0, convs⟩).state.data_layers_[0]? = ls0[0]? ∧
    ∀ i, i < convs.length → DeepModel.UpLink passUp2 convs ls0
      (forRes (DeepModel.PassUp.step passUp2) (List.range convs.length)
        ⟨ls0, convs⟩).state.data_layers_ i := by
  have key := forRes_range_inv (DeepModel.PassUp.step passUp2)
    (fun k m => m.convolve_layers_ = convs ∧ m.data_layers_.length = ls0.length ∧
      m.data_layers_[0]? = ls0[0]? ∧ (∀ j, k < j → m.data_layers_[j]? = ls0[j]?) ∧
      ∀ i, i < k → DeepModel.UpLink passUp2 convs ls0 m.data_layers_ i)
    convs.length ⟨ls0, convs⟩ ⟨rfl, rfl, rfl, fun _ _ => rfl, fun i hi => absurd hi (Nat.not_lt_zero i)⟩
    ?_ hok
  · exact ⟨key.2.2.1, key.2.2.2.2⟩
  · intro k m hk ⟨hconv, hlen', h0, hrest, hlinks⟩ herr
    have hkc : k < m.convolve_layers_.length := by rw [hconv]; exact hk
    have hkb : k < m.data_layers_.length := by omega
    have hkt : k + 1 < m.data_layers_.length := by omega
    have hc := List.getElem?_eq_getElem hkc
    have hb := List.getElem?_eq_getElem hkb
    have ht := List.getElem?_eq_getElem hkt
    rw [PassUp_step_eq passUp2 k m _ _ _ hc hb ht] at herr ⊢
    simp only at herr ⊢
    refine ⟨hconv, by rw [List.length_set]; exact hlen', ?_, ?_, ?_⟩
    · rw [List.getElem?_set_ne (by omega)]
      exact h0
    · intro j hj
      rw [List.getElem?_set_ne (by omega)]
      exact hrest j (by omega)
    · intro i hi
      rcases Nat.lt_succ_iff_lt_or_eq.mp hi with hlt | rfl
      · obtain ⟨conv, b, t0, h1, h2, h3, h4, h5⟩ := hlinks i hlt
        refine ⟨conv, b, t0, h1, ?_, h3, h4, ?_⟩
        · rw [List.getElem?_set_ne (by omega)]
          exact h2
        · rw [List.getElem?_set_ne (by omega)]
          exact h5
      · have ht0 : ls0[i + 1]? = some (m.data_layers_[i + 1]) := by
          rw [← hrest (i + 1) (Nat.lt_succ_self i)]
          exact ht
        refine ⟨m.convolve_layers_[i], m.data_layers_[i], m.data_layers_[i + 1], ?_, ?_, ht0,
          herr, ?_⟩
        · rw [← hconv]
          exact hc
        · rw [List.getElem?_set_ne (by omega)]
          exact hb
        · rw [List.getElem?_set_self hkt]

/-- C8: on a structurally consistent model, with `data` of the size of the bottom
layer, a `DeepModel.PassUp(data)` that ends without failure leaves the bottom
layer with activations `data` and, for every `i`, leaves layer `i + 1` with the
activations that the bridging `PassUp` of convolve layer `i` produced from the
activations layer `i` has after the call (`DeepModel.UpLink`); and the call ends
without failure when no bridging call fails. -/
theorem DeepModel_PassUp_chains_layers
    (passUp2 : ConvolveLayer F → Volume F → Volume F → Res (Volume F))
    (self : DeepModel F S) (data : List F)
    (hlen : self.data_layers_.length = self.convolve_layers_.length + 1)
    (hdata : ∃ b0, self.data_layers_[0]? = some b0 ∧ data.length = b0.data_.length) :
    ((self.PassUp passUp2 data).err = none →
      (∃ b0, self.data_layers_[0]? = some b0 ∧
        (self.PassUp passUp2 data).state.data_layers_[0]? = some { b0 with data_ := data }) ∧
      ∀ i, i < self.convolve_layers_.length →
        DeepModel.UpLink passUp2 self.convolve_layers_ self.data_layers_
          (self.PassUp passUp2 data).state.data_layers_ i) ∧
    ((∀ conv b t, (passUp2 conv b t).err = none) → (self.PassUp passUp2 data).err = none) := by
  obtain ⟨ls, convs⟩ := self
  obtain ⟨b0, hb0, hsize⟩ := hdata
  cases ls with
  | nil => simp at hb0
  | cons b rest =>
    simp only [List.getElem?_cons_zero, Option.some.injEq] at hb0
    subst hb0
    simp only [List.length_cons] at hlen
    have hrun : (DeepModel.mk (b :: rest) convs).PassUp passUp2 data
        = forRes (DeepModel.PassUp.step passUp2) (List.range convs.length)
            ⟨{ b with data_ := data } :: rest, convs⟩ := by
      simp only [DeepModel.PassUp, DataLayer.SetData, hsize, if_true]
    rw [hrun]
    constructor
    · intro hok
      obtain ⟨h0, hlinks⟩ := PassUp_loop_inv passUp2 convs ({ b with data_ := data } :: rest)
        (by simpa using hlen) hok
      refine ⟨⟨b, List.getElem?_cons_zero, by rw [h0]; exact List.getElem?_cons_zero⟩,
        fun i hi => ?_⟩
      obtain ⟨conv, bl, t0, h1, h2, h3, h4, h5⟩ := hlinks i hi
      rw [List.getElem?_cons_succ] at h3
      exact ⟨conv, bl, t0, h1, h2, by rw [List.getElem?_cons_succ]; exact h3, h4, h5⟩
    · intro hbridge
      refine (forRes_range_ok (DeepModel.PassUp.step passUp2)
        (fun _ m => m.convolve_layers_ = convs ∧ m.data_layers_.length = rest.length + 1)
        convs.length ⟨{ b with data_ := data } :: rest, convs⟩ ⟨rfl, rfl⟩ ?_).1
      intro k m hk ⟨hconv, hlen'⟩
      have hkc : k < m.convolve_layers_.length := by rw [hconv]; exact hk
      have hkb : k < m.data_layers_.length := by omega
      have hkt : k + 1 < m.data_layers_.length := by omega
      rw [PassUp_step_eq passUp2 k m _ _ _ (List.getElem?_eq_getElem hkc)
        (List.getElem?_eq_getElem hkb) (List.getElem?_eq_getElem hkt)]
      exact ⟨hbridge _ _ _, hconv, by simp only [List.length_set]; exact hlen'⟩

/-- The two-layer model of the scenario, bridged by the four-argument `PassUp`
over the real numbers. -/
theorem DeepModel_PassUp_chains_layers_witness :
    (scenario_model ℝ).data_layers_.length = (scenario_model ℝ).convolve_layers_.length + 1 ∧
    (∃ b0, (scenario_model ℝ).data_layers_[0]? = some b0 ∧
      (scenario_bottom ℝ).data.length = b0.data_.length) ∧
    ((scenario_model ℝ).PassUp (bridgeUp Real.exp (scenario_next_single ℝ) 0)
      (scenario_bottom ℝ).data).err = none ∧
    (∃ b0, (scenario_model ℝ).data_layers_[0]? = some b0 ∧
      ((scenario_model ℝ).PassUp (bridgeUp Real.exp (scenario_next_single ℝ) 0)
        (scenario_bottom ℝ).data).state.data_layers_[0]?
          = some { b0 with data_ := (scenario_bottom ℝ).data }) ∧
    ∀ i, i < (scenario_model ℝ).convolve_layers_.length →
      DeepModel.UpLink (bridgeUp Real.exp (scenario_next_single ℝ) 0)
        (scenario_model ℝ).convolve_layers_ (scenario_model ℝ).data_layers_
        ((scenario_model ℝ).PassUp (bridgeUp Real.exp (scenario_next_single ℝ) 0)
          (scenario_bottom ℝ).data).state.data_layers_ i :=
  ⟨rfl, ⟨_, rfl, rfl⟩, rfl,
    (DeepModel_PassUp_chains_layers (bridgeUp Real.exp (scenario_next_single ℝ) 0)
      (scenario_model ℝ) (scenario_bottom ℝ).data rfl ⟨_, rfl, rfl⟩).1 rfl⟩

end DeepModelUp

/-! ## `DeepModel::PassDown` -/

section DeepModelDown

variable {F S : Type}

theorem PassDown_step_eq (passDown2 : ConvolveLayer F → Volume F → Volume F → Res (Volume F))
    (k : Nat) (m : DeepModel F S) (conv : ConvolveLayer F) (bl tl : DataLayer F S)
    (hc : m.convolve_layers_[k]? = some conv) (hb : m.data_layers_[k]? = some bl)
    (ht : m.data_layers_[k + 1]? = some tl) :
    DeepModel.PassDown.step passDown2 k m =
      ⟨{ m with
         data_layers_ := m.data_layers_.set k
           { bl with
             data_generated_ := { bl.data_generated_ with
               data := (passDown2 conv tl.data_generated_ bl.data_generated_).state.data } } },
        (passDown2 conv tl.data_generated_ bl.data_generated_).err⟩ := by
  simp only [DeepModel.PassDown.step, hc, hb, ht]

theorem PassDown_step_missing (passDown2 : ConvolveLayer F → Volume F → Volume F → Res (Volume F))
    (k : Nat) (m : DeepModel F S) (h : m.data_layers_.length ≤ k + 1) :
    DeepModel.PassDown.step passDown2 k m = ⟨m, some .undefinedBehaviour⟩ := by
  have ht : m.data_layers_[k + 1]? = none := List.getElem?_eq_none h
  unfold DeepModel.PassDown.step
  rw [ht]
  split
  · rename_i h1 h2 h3
    exact absurd h3 (by simp)
  · rfl

/-- The invariant of the loop of `DeepModel::PassDown`, run from the top. -/
theorem PassDown_loop_inv (passDown2 : ConvolveLayer F → Volume F → Volume F → Res (Volume F))
    (convs : List (ConvolveLayer F)) (ls0 : List (DataLayer F S))
    (hlen : ls0.length = convs.length + 1)
    (hok : (forRes (DeepModel.PassDown.step passDown2) (List.range convs.length).reverse
      ⟨ls0, convs⟩).err = none) :
    (forRes (DeepModel.PassDown.step passDown2) (List.range convs.length).reverse
        ⟨ls0, convs⟩).state.data_layers_[convs.length]? = ls0[convs.length]? ∧
    ∀ i, i < convs.length → DeepModel.DownLink passDown2 convs ls0
      (forRes (DeepModel.PassDown.step passDown2) (List.range convs.length).reverse
        ⟨ls0, convs⟩).state.data_layers_ i := by
  have key := forRes_range_reverse_inv (DeepModel.PassDown.step passDown2)
    (fun k m => m.convolve_layers_ = convs ∧ m.data_layers_.length = ls0.length ∧
      m.data_layers_[convs.length]? = ls0[convs.length]? ∧
      (∀ j, j < k → m.data_layers_[j]? = ls0[j]?) ∧
      ∀ i, k ≤ i → i < convs.length → DeepModel.DownLink passDown2 convs ls0 m.data_layers_ i)
    convs.length ⟨ls0, convs⟩
    ⟨rfl, rfl, rfl, fun _ _ => rfl, fun i h1 h2 => absurd h2 (Nat.not_lt.mpr h1)⟩ ?_ hok
  · exact ⟨key.2.2.1, fun i hi => key.2.2.2.2 i (Nat.zero_le i) hi⟩
  · intro k m hk ⟨hconv, hlen', htop, hrest, hlinks⟩ herr
    have hkc : k < m.convolve_layers_.length := by rw [hconv]; exact hk
    have hkb : k < m.data_layers_.length := by omega
    have hkt : k + 1 < m.data_layers_.length := by omega
    have hc := List.getElem?_eq_getElem hkc
    have hb := List.getElem?_eq_getElem hkb
    have ht := List.getElem?_eq_getElem hkt
    rw [PassDown_step_eq passDown2 k m _ _ _ hc hb ht] at herr ⊢
    simp only at herr ⊢
    refine ⟨hconv, by rw [List.length_set]; exact hlen', ?_, ?_, ?_⟩
    · rw [List.getElem?_set_ne (by omega)]
      exact htop
    · intro j hj
      rw [List.getElem?_set_ne (by omega)]
      exact hrest j (by omega)
    · intro i hki hi
      rcases Nat.eq_or_lt_of_le hki with rfl | hlt
      · have hb0 : ls0[k]? = some (m.data_layers_[k]) := by
          rw [← hrest k (Nat.lt_succ_self k)]
          exact hb
        refine ⟨m.convolve_layers_[k], m.data_layers_[k + 1], m.data_layers_[k], ?_, ?_, hb0,
          herr, ?_⟩
        · rw [← hconv]
          exact hc
        · rw [List.getElem?_set_ne (by omega)]
          exact ht
        · rw [List.getElem?_set_self hkb]
      · obtain ⟨conv, t, b0, h1, h2, h3, h4, h5⟩ := hlinks i hlt hi
        refine ⟨conv, t, b0, h1, ?_, h3, h4, ?_⟩
        · rw [List.getElem?_set_ne (by omega)]
          exact h2
        · rw [List.getElem?_set_ne (by omega)]
          exact h5

/-- C9: on a structurally consistent model, a `DeepModel.PassDown()` that ends
without failure leaves the top-most layer with a generated buffer holding that
layer's activations and, for every `i`, leaves layer `i` with the generated
contents that the bridging `PassDown` of convolve layer `i` produced from the
generated buffer layer `i + 1` has after the call (`DeepModel.DownLink`); and
the call ends without failure when no bridging call fails. -/
theorem DeepModel_PassDown_chains_layers
    (passDown2 : ConvolveLayer F → Volume F → Volume F → Res (Volume F))
    (self : DeepModel F S)
    (hlen : self.data_layers_.length = self.convolve_layers_.length + 1) :
    ((self.PassDown passDown2).err = none →
      (∃ roof, self.data_layers_[self.convolve_layers_.length]? = some roof ∧
        (self.PassDown passDown2).state.data_layers_[self.convolve_layers_.length]?
          = some { roof with
              data_generated_ := { roof.data_generated_ with data := roof.data_ } }) ∧
      ∀ i, i < self.convolve_layers_.length →
        DeepModel.DownLink passDown2 self.convolve_layers_ self.data_layers_
          (self.PassDown passDown2).state.data_layers_ i) ∧
    ((∀ conv t b, (passDown2 conv t b).err = none) → (self.PassDown passDown2).err = none) := by
  obtain ⟨ls, convs⟩ := self
  simp only at hlen ⊢
  have hL : convs.length < ls.length := by omega
  have hlast : ls.getLast? = some (ls[convs.length]) := by
    rw [List.getLast?_eq_getElem?, hlen, Nat.add_sub_cancel, List.getElem?_eq_getElem hL]
  have hrun : (DeepModel.mk ls convs).PassDown passDown2
      = forRes (DeepModel.PassDown.step passDown2) (List.range convs.length).reverse
          ⟨ls.set convs.length
            { ls[convs.length] with
              data_generated_ := { (ls[convs.length]).data_generated_ with
                data := (ls[convs.length]).data_ } }, convs⟩ := by
    simp only [DeepModel.PassDown, hlast, hlen, Nat.add_sub_cancel]
  rw [hrun]
  constructor
  · intro hok
    obtain ⟨htop, hlinks⟩ := PassDown_loop_inv passDown2 convs _
      (by rw [List.length_set]; exact hlen) hok
    refine ⟨⟨ls[convs.length], List.getElem?_eq_getElem hL, ?_⟩, fun i hi => ?_⟩
    · rw [htop, List.getElem?_set_self hL]
    · obtain ⟨conv, t, b0, h1, h2, h3, h4, h5⟩ := hlinks i hi
      rw [List.getElem?_set_ne (by omega)] at h3
      exact ⟨conv, t, b0, h1, h2, h3, h4, h5⟩
  · intro hbridge
    refine (forRes_range_reverse_ok (DeepModel.PassDown.step passDown2)
      (fun _ m => m.convolve_layers_ = convs ∧ m.data_layers_.length = convs.length + 1)
      convs.length _ ⟨rfl, by simp only [List.length_set]; exact hlen⟩ ?_).1
    intro k m hk ⟨hconv, hlen'⟩
    have hkc : k < m.convolve_layers_.length := by rw [hconv]; exact hk
    have hkb : k < m.data_layers_.length := by omega
    have hkt : k + 1 < m.data_layers_.length := by omega
    rw [PassDown_step_eq passDown2 k m _ _ _ (List.getElem?_eq_getElem hkc)
      (List.getElem?_eq_getElem hkb) (List.getElem?_eq_getElem hkt)]
    exact ⟨hbridge _ _ _, hconv, by simp only [List.length_set]; exact hlen'⟩

/-- The four-argument `PassDown` as the bridge,
over the real numbers, on the model of `1×1×1` layers, where every read of the
bridging calls is in range. -/
theorem DeepModel_PassDown_chains_layers_witness :
    (unit_model ℝ).data_layers_.length = (unit_model ℝ).convolve_layers_.length + 1 ∧
    ((unit_model ℝ).PassDown (bridgeDown Real.exp (scenario_next_single ℝ) 0)).err = none ∧
    (∃ roof, (unit_model ℝ).data_layers_[(unit_model ℝ).convolve_layers_.length]? = some roof ∧
      ((unit_model ℝ).PassDown (bridgeDown Real.exp (scenario_next_single ℝ) 0)).state.data_layers_[
          (unit_model ℝ).convolve_layers_.length]?
        = some { roof with
            data_generated_ := { roof.data_generated_ with data := roof.data_ } }) ∧
    ∀ i, i < (unit_model ℝ).convolve_layers_.length →
      DeepModel.DownLink (bridgeDown Real.exp (scenario_next_single ℝ) 0)
        (unit_model ℝ).convolve_layers_ (unit_model ℝ).data_layers_
        ((unit_model ℝ).PassDown (bridgeDown Real.exp (scenario_next_single ℝ) 0)).state.data_layers_
        i :=
  ⟨rfl, rfl,
    (DeepModel_PassDown_chains_layers (bridgeDown Real.exp (scenario_next_single ℝ) 0)
      (unit_model ℝ) rfl).1 rfl⟩

end DeepModelDown

/-! ## Layer counts and what a pass leaves alone -/

section DeepModelFrames

variable {F S : Type}

theorem map_set_same {α β : Type} (f : α → β) (l : List α) (i : Nat) (a b : α)
    (h : l[i]? = some b) (hf : f a = f b) : (l.set i a).map f = l.map f := by
  apply List.ext_getElem?
  intro j
  rw [List.getElem?_map, List.getElem?_map]
  by_cases hij : i = j
  · subst hij
    have hi : i < l.length := by
      rcases List.getElem?_eq_some.mp h with ⟨hi, _⟩
      exact hi
    rw [List.getElem?_set_self hi, h, Option.map_some', Option.map_some', hf]
  · rw [List.getElem?_set_ne hij]

/-- One iteration of the loop of `PassUp`, failing or not, keeps the convolve
layers, the number of data layers, and every random field and generated
buffer. -/
theorem PassUp_step_frame (passUp2 : ConvolveLayer F → Volume F → Volume F → Res (Volume F))
    (k : Nat) (m : DeepModel F S) :
    (DeepModel.PassUp.step passUp2 k m).state.convolve_layers_ = m.convolve_layers_ ∧
    (DeepModel.PassUp.step passUp2 k m).state.data_layers_.length = m.data_layers_.length ∧
    (DeepModel.PassUp.step passUp2 k m).state.data_layers_.map (fun l => l.rand_collection_)
      = m.data_layers_.map (fun l => l.rand_collection_) ∧
    (DeepModel.PassUp.step passUp2 k m).state.data_layers_.map (fun l => l.data_generated_)
      = m.data_layers_.map (fun l => l.data_generated_) := by
  unfold DeepModel.PassUp.step
  split
  · rename_i conv bl tl hc hb ht
    exact ⟨rfl, List.length_set _ _ _, map_set_same _ _ _ _ _ ht rfl,
      map_set_same _ _ _ _ _ ht rfl⟩
  · exact ⟨rfl, rfl, rfl, rfl⟩

/-- One iteration of the loop of `PassDown`, failing or not, keeps the convolve
layers, the number of data layers, and every random field and activation. -/
theorem PassDown_step_frame (passDown2 : ConvolveLayer F → Volume F → Volume F → Res (Volume F))
    (k : Nat) (m : DeepModel F S) :
    (DeepModel.PassDown.step passDown2 k m).state.convolve_layers_ = m.convolve_layers_ ∧
    (DeepModel.PassDown.step passDown2 k m).state.data_layers_.length = m.data_layers_.length ∧
    (DeepModel.PassDown.step passDown2 k m).state.data_layers_.map (fun l => l.rand_collection_)
      = m.data_layers_.map (fun l => l.rand_collection_) ∧
    (DeepModel.PassDown.step passDown2 k m).state.data_layers_.map (fun l => l.data_)
      = m.data_layers_.map (fun l => l.data_) := by
  unfold DeepModel.PassDown.step
  split
  · rename_i conv bl tl hc hb ht
    exact ⟨rfl, List.length_set _ _ _, map_set_same _ _ _ _ _ hb rfl,
      map_set_same _ _ _ _ _ hb rfl⟩
  · exact ⟨rfl, rfl, rfl, rfl⟩

/-- `DeepModel.PassUp`, failing or not, keeps the convolve layers, the number of
data layers, and every random field and generated buffer. -/
theorem DeepModel_PassUp_frame (passUp2 : ConvolveLayer F → Volume F → Volume F → Res (Volume F))
    (self : DeepModel F S) (data : List F) :
    (self.PassUp passUp2 data).state.convolve_layers_ = self.convolve_layers_ ∧
    (self.PassUp passUp2 data).state.data_layers_.length = self.data_layers_.length ∧
    (self.PassUp passUp2 data).state.data_layers_.map (fun l => l.rand_collection_)
      = self.data_layers_.map (fun l => l.rand_collection_) ∧
    (self.PassUp passUp2 data).state.data_layers_.map (fun l => l.data_generated_)
      = self.data_layers_.map (fun l => l.data_generated_) := by
  obtain ⟨ls, convs⟩ := self
  cases ls with
  | nil => exact ⟨rfl, rfl, rfl, rfl⟩
  | cons b rest =>
    by_cases hsize : data.length = b.data_.length
    · have hrun : (DeepModel.mk (b :: rest) convs).PassUp passUp2 data
          = forRes (DeepModel.PassUp.step passUp2) (List.range convs.length)
              ⟨{ b with data_ := data } :: rest, convs⟩ := by
        simp only [DeepModel.PassUp, DataLayer.SetData, hsize, if_true]
      rw [hrun]
      exact forRes_frame (DeepModel.PassUp.step passUp2)
        (fun m => m.convolve_layers_ = convs ∧
          m.data_layers_.length = (b :: rest).length ∧
          m.data_layers_.map (fun l => l.rand_collection_)
            = (b :: rest).map (fun l => l.rand_collection_) ∧
          m.data_layers_.map (fun l => l.data_generated_)
            = (b :: rest).map (fun l => l.data_generated_))
        (fun k m ⟨h1, h2, h3, h4⟩ => by
          obtain ⟨f1, f2, f3, f4⟩ := PassUp_step_frame passUp2 k m
          exact ⟨f1.trans h1, f2.trans h2, f3.trans h3, f4.trans h4⟩)
        _ _ ⟨rfl, rfl, rfl, rfl⟩
    · have hrun : (DeepModel.mk (b :: rest) convs).PassUp passUp2 data
          = ⟨⟨b :: rest, convs⟩, some .assertFailed⟩ := by
        simp only [DeepModel.PassUp, DataLayer.SetData, hsize, if_false]
      rw [hrun]
      exact ⟨rfl, rfl, rfl, rfl⟩

/-- `DeepModel.PassDown`, failing or not, keeps the convolve layers, the number
of data layers, and every random field and activation. -/
theorem DeepModel_PassDown_frame
    (passDown2 : ConvolveLayer F → Volume F → Volume F → Res (Volume F))
    (self : DeepModel F S) :
    (self.PassDown passDown2).state.convolve_layers_ = self.convolve_layers_ ∧
    (self.PassDown passDown2).state.data_layers_.length = self.data_layers_.length ∧
    (self.PassDown passDown2).state.data_layers_.map (fun l => l.rand_collection_)
      = self.data_layers_.map (fun l => l.rand_collection_) ∧
    (self.PassDown passDown2).state.data_layers_.map (fun l => l.data_)
      = self.data_layers_.map (fun l => l.data_) := by
  obtain ⟨ls, convs⟩ := self
  cases hlast : ls.getLast? with
  | none =>
    have hrun : (DeepModel.mk ls convs).PassDown passDown2
        = ⟨⟨ls, convs⟩, some .undefinedBehaviour⟩ := by
      simp only [DeepModel.PassDown, hlast]
    rw [hrun]
    exact ⟨rfl, rfl, rfl, rfl⟩
  | some roof =>
    have hroof : ls[ls.length - 1]? = some roof := by
      rw [← List.getLast?_eq_getElem?]
      exact hlast
    have hrun : (DeepModel.mk ls convs).PassDown passDown2
        = forRes (DeepModel.PassDown.step passDown2) (List.range convs.length).reverse
            ⟨ls.set (ls.length - 1)
              { roof with
                data_generated_ := { roof.data_generated_ with data := roof.data_ } }, convs⟩ := by
      simp only [DeepModel.PassDown, hlast]
    rw [hrun]
    exact forRes_frame (DeepModel.PassDown.step passDown2)
      (fun m => m.convolve_layers_ = convs ∧ m.data_layers_.length = ls.length ∧
        m.data_layers_.map (fun l => l.rand_collection_) = ls.map (fun l => l.rand_collection_) ∧
        m.data_layers_.map (fun l => l.data_) = ls.map (fun l => l.data_))
      (fun k m ⟨h1, h2, h3, h4⟩ => by
        obtain ⟨f1, f2, f3, f4⟩ := PassDown_step_frame passDown2 k m
        exact ⟨f1.trans h1, f2.trans h2, f3.trans h3, f4.trans h4⟩)
      _ _ ⟨rfl, List.length_set _ _ _, map_set_same _ _ _ _ _ hroof rfl,
        map_set_same _ _ _ _ _ hroof rfl⟩

end DeepModelFrames

/-! ## Equality of volumes, and what a dispatch determines -/

section Extensionality

variable {α : Type}

theorem flat_surj {e0 e1 e2 p : Nat} (hp : p < e0 * e1 * e2) :
    ∃ i j k, i < e0 ∧ j < e1 ∧ k < e2 ∧ (i * e1 + j) * e2 + k = p := by
  have he2 : 0 < e2 := by
    rcases Nat.eq_zero_or_pos e2 with h | h
    · rw [h, Nat.mul_zero] at hp
      exact absurd hp (Nat.not_lt_zero p)
    · exact h
  have hq : p / e2 < e0 * e1 := by
    apply Nat.div_lt_of_lt_mul
    rw [Nat.mul_comm]
    exact hp
  have he1 : 0 < e1 := by
    rcases Nat.eq_zero_or_pos e1 with h | h
    · rw [h, Nat.mul_zero] at hq
      exact absurd hq (Nat.not_lt_zero _)
    · exact h
  have hi : p / e2 / e1 < e0 := by
    apply Nat.div_lt_of_lt_mul
    rw [Nat.mul_comm]
    exact hq
  refine ⟨p / e2 / e1, p / e2 % e1, p % e2, hi, Nat.mod_lt _ he1, Nat.mod_lt _ he2, ?_⟩
  have h1 : p / e2 / e1 * e1 + p / e2 % e1 = p / e2 := by
    rw [Nat.mul_comm]
    exact Nat.div_add_mod _ _
  rw [h1, Nat.mul_comm]
  exact Nat.div_add_mod _ _

/-- Two well-formed volumes of the same extent that agree at every index of the
extent are equal. -/
theorem Volume.ext_read (v w : Volume α) (hv : v.WF) (hw : w.WF) (he : v.SameExtent w)
    (h : ∀ i j k, v.inExtent i j k → v.read i j k = w.read i j k) : v = w := by
  obtain ⟨v0, v1, v2, vd⟩ := v
  obtain ⟨w0, w1, w2, wd⟩ := w
  obtain ⟨h0, h1, h2⟩ := he
  simp only at h0 h1 h2
  subst h0 h1 h2
  simp only [Volume.WF] at hv hw
  have hd : vd = wd := by
    apply List.ext_getElem?
    intro p
    by_cases hp : p < v0 * v1 * v2
    · obtain ⟨i, j, k, hi, hj, hk, hflat⟩ := flat_surj hp
      have hin : (⟨v0, v1, v2, vd⟩ : Volume α).inExtent i j k := ⟨hi, hj, hk⟩
      have hin' : (⟨v0, v1, v2, wd⟩ : Volume α).inExtent i j k := ⟨hi, hj, hk⟩
      have hr := h i j k hin
      have hpv : p < vd.length := by rw [hv]; exact hp
      have hpw : p < wd.length := by rw [hw]; exact hp
      simp only [Volume.read, hin, hin', if_true, Volume.flat, hflat,
        List.getElem?_eq_getElem hpv, List.getElem?_eq_getElem hpw, Except.ok.injEq] at hr
      rw [List.getElem?_eq_getElem hpv, List.getElem?_eq_getElem hpw, hr]
    · rw [List.getElem?_eq_none (by omega), List.getElem?_eq_none (by omega)]
  rw [hd]

end Extensionality

section Determined

variable {F S : Type} [LinearOrderedField F]

/-- The probabilities a dispatch leaves depend neither on the generator nor on
the random field, and on the old contents only outside the dispatched units. -/
theorem Dispatched.prob_eq {expf : F → F} {ns ns' : S → F × S} {val : Nat × Nat × Nat → F}
    {idxs idxs' : List (Nat × Nat × Nat)} {st0 st0' st st' : Outputs F S}
    (h : Dispatched expf ns val idxs st0 st) (h' : Dispatched expf ns' val idxs' st0' st')
    (hm : ∀ idx, idx ∈ idxs ↔ idx ∈ idxs') (he : st0.prob.SameExtent st0'.prob)
    (h0 : ∀ i j k, st0.prob.inExtent i j k → (i, j, k) ∉ idxs →
      st0.prob.read i j k = st0'.prob.read i j k) :
    st.prob = st'.prob := by
  obtain ⟨a0, a1, a2⟩ := h.prob_extent
  obtain ⟨b0, b1, b2⟩ := h'.prob_extent
  obtain ⟨c0, c1, c2⟩ := he
  refine Volume.ext_read _ _ h.prob_WF h'.prob_WF
    ⟨by rw [a0, b0, c0], by rw [a1, b1, c1], by rw [a2, b2, c2]⟩ ?_
  intro i j k hin
  have hin0 : st0.prob.inExtent i j k := ⟨a0 ▸ hin.1, a1 ▸ hin.2.1, a2 ▸ hin.2.2⟩
  by_cases hmem : (i, j, k) ∈ idxs
  · obtain ⟨_, _, w1, _⟩ := h.written (i, j, k) hmem
    obtain ⟨_, _, w1', _⟩ := h'.written (i, j, k) ((hm _).mp hmem)
    exact w1.trans w1'.symm
  · obtain ⟨f1, _⟩ := h.frame (i, j, k) hmem
    obtain ⟨f1', _⟩ := h'.frame (i, j, k) (fun hx => hmem ((hm _).mpr hx))
    exact f1.trans ((h0 i j k hin0 hmem).trans f1'.symm)

/-- The samples and the random field a dispatch leaves are determined by the
streams of the dispatched units, and by the old contents outside them. -/
theorem Dispatched.sample_rand_eq {expf : F → F} {ns : S → F × S} {val : Nat × Nat × Nat → F}
    {idxs idxs' : List (Nat × Nat × Nat)} {st0 st0' st st' : Outputs F S}
    (h : Dispatched expf ns val idxs st0 st) (h' : Dispatched expf ns val idxs' st0' st')
    (hm : ∀ idx, idx ∈ idxs ↔ idx ∈ idxs')
    (hes : st0.sample.SameExtent st0'.sample)
    (her : st0.rand_collection.SameExtent st0'.rand_collection)
    (hrand : ∀ idx ∈ idxs, st0.rand_collection.read idx.1 idx.2.1 idx.2.2
      = st0'.rand_collection.read idx.1 idx.2.1 idx.2.2)
    (h0s : ∀ i j k, st0.sample.inExtent i j k → (i, j, k) ∉ idxs →
      st0.sample.read i j k = st0'.sample.read i j k)
    (h0r : ∀ i j k, st0.rand_collection.inExtent i j k → (i, j, k) ∉ idxs →
      st0.rand_collection.read i j k = st0'.rand_collection.read i j k) :
    st.sample = st'.sample ∧ st.rand_collection = st'.rand_collection := by
  have hsame : ∀ idx ∈ idxs,
      st.sample.read idx.1 idx.2.1 idx.2.2 = st'.sample.read idx.1 idx.2.1 idx.2.2 ∧
      st.rand_collection.read idx.1 idx.2.1 idx.2.2
        = st'.rand_collection.read idx.1 idx.2.1 idx.2.2 := by
    intro idx hmem
    obtain ⟨s, hs, _, w2, w3⟩ := h.written idx hmem
    obtain ⟨s', hs', _, w2', w3'⟩ := h'.written idx ((hm _).mp hmem)
    have hss : s = s' := by
      have := (hs.symm.trans (hrand idx hmem)).trans hs'
      exact Except.ok.inj this
    subst hss
    exact ⟨w2.trans w2'.symm, w3.trans w3'.symm⟩
  constructor
  · obtain ⟨a0, a1, a2⟩ := h.sample_extent
    obtain ⟨b0, b1, b2⟩ := h'.sample_extent
    obtain ⟨c0, c1, c2⟩ := hes
    refine Volume.ext_read _ _ h.sample_WF h'.sample_WF
      ⟨by rw [a0, b0, c0], by rw [a1, b1, c1], by rw [a2, b2, c2]⟩ ?_
    intro i j k hin
    have hin0 : st0.sample.inExtent i j k := ⟨a0 ▸ hin.1, a1 ▸ hin.2.1, a2 ▸ hin.2.2⟩
    by_cases hmem : (i, j, k) ∈ idxs
    · exact (hsame (i, j, k) hmem).1
    · obtain ⟨_, f2, _⟩ := h.frame (i, j, k) hmem
      obtain ⟨_, f2', _⟩ := h'.frame (i, j, k) (fun hx => hmem ((hm _).mpr hx))
      exact f2.trans ((h0s i j k hin0 hmem).trans f2'.symm)
  · obtain ⟨a0, a1, a2⟩ := h.rand_extent
    obtain ⟨b0, b1, b2⟩ := h'.rand_extent
    obtain ⟨c0, c1, c2⟩ := her
    refine Volume.ext_read _ _ h.rand_WF h'.rand_WF
      ⟨by rw [a0, b0, c0], by rw [a1, b1, c1], by rw [a2, b2, c2]⟩ ?_
    intro i j k hin
    have hin0 : st0.rand_collection.inExtent i j k := ⟨a0 ▸ hin.1, a1 ▸ hin.2.1, a2 ▸ hin.2.2⟩
    by_cases hmem : (i, j, k) ∈ idxs
    · exact (hsame (i, j, k) hmem).2
    · obtain ⟨_, _, f3⟩ := h.frame (i, j, k) hmem
      obtain ⟨_, _, f3'⟩ := h'.frame (i, j, k) (fun hx => hmem ((hm _).mpr hx))
      exact f3.trans ((h0r i j k hin0 hmem).trans f3'.symm)

end Determined

/-! ## Determinism of `ConvolveLayer::PassUp` -/

section PassUpDeterminism

variable {F S : Type} [LinearOrderedField F]

/-- C11: `ConvolveLayer.PassUp` is deterministic.  For the same weights and the
same bottom volume, and top buffers of the same extent: `top_prob` is the same
whatever the old contents of the buffers, the random-field state and the
generator (it does not depend on the draws); with the same random-field state,
`top_sample` and the random field left behind are the same too; and at every
unit `top_sample` is the value `if draw ≤ p then 1 else 0` of the draw of the
unit and of the probability `p` left in `top_prob`, and of nothing else. -/
theorem PassUp_is_deterministic (expf : F → F) (next_single next_single' : S → F × S)
    (self : ConvolveLayer F) (bottom_layer : Volume F) (st1 st2 : Outputs F S)
    (hw : self.weights_view_.WF) (hb : bottom_layer.WF) (h1 : st1.Sound) (h2 : st2.Sound)
    (hN : st1.prob.e0 = self.neuron_num) (he : st1.prob.SameExtent st2.prob)
    (hrange : ConvolveLayer.PassUp.ReadsInRange self bottom_layer
      st1.prob.e0 st1.prob.e1 st1.prob.e2) :
    (self.PassUp expf next_single bottom_layer st1).state.prob
      = (self.PassUp expf next_single' bottom_layer st2).state.prob ∧
    (st1.rand_collection = st2.rand_collection →
      (self.PassUp expf next_single bottom_layer st1).state.sample
        = (self.PassUp expf next_single bottom_layer st2).state.sample ∧
      (self.PassUp expf next_single bottom_layer st1).state.rand_collection
        = (self.PassUp expf next_single bottom_layer st2).state.rand_collection) ∧
    (∀ n x y, n < st1.prob.e0 → x < st1.prob.e1 → y < st1.prob.e2 →
      ∃ s p, st1.rand_collection.read n x y = .ok s ∧
        (self.PassUp expf next_single bottom_layer st1).state.prob.read n x y = .ok p ∧
        (self.PassUp expf next_single bottom_layer st1).state.sample.read n x y
          = .ok (if (next_single s).1 ≤ p then 1 else 0)) := by
  obtain ⟨e0, e1, e2⟩ := he
  have hN2 : st2.prob.e0 = self.neuron_num := by rw [← e0]; exact hN
  have hrange2 : ConvolveLayer.PassUp.ReadsInRange self bottom_layer
      st2.prob.e0 st2.prob.e1 st2.prob.e2 := by rw [← e0, ← e1, ← e2]; exact hrange
  obtain ⟨t1, hrun1, hd1⟩ := PassUp_dispatched expf next_single self bottom_layer st1 hw hb h1
    hN hrange
  obtain ⟨t2, hrun2, hd2⟩ := PassUp_dispatched expf next_single self bottom_layer st2 hw hb h2
    hN2 hrange2
  obtain ⟨t2', hrun2', hd2'⟩ := PassUp_dispatched expf next_single' self bottom_layer st2 hw hb
    h2 hN2 hrange2
  rw [hrun1, hrun2, hrun2']
  have hm : ∀ idx, idx ∈ extentIdx st1.prob.e0 st1.prob.e1 st1.prob.e2 ↔
      idx ∈ extentIdx st2.prob.e0 st2.prob.e1 st2.prob.e2 := by
    intro idx
    rw [e0, e1, e2]
  obtain ⟨s10, s11, s12⟩ := h1.sample_extent
  obtain ⟨r10, r11, r12⟩ := h1.rand_extent
  obtain ⟨s20, s21, s22⟩ := h2.sample_extent
  obtain ⟨r20, r21, r22⟩ := h2.rand_extent
  refine ⟨?_, ?_, ?_⟩
  · exact Dispatched.prob_eq hd1 hd2' hm ⟨e0, e1, e2⟩
      (fun i j k hin hnot => absurd (mem_extentIdx.mpr ⟨hin.1, hin.2.1, hin.2.2⟩) hnot)
  · intro hrand
    refine Dispatched.sample_rand_eq hd1 hd2 hm
      ⟨by rw [s10, s20, e0], by rw [s11, s21, e1], by rw [s12, s22, e2]⟩
      ⟨by rw [r10, r20, e0], by rw [r11, r21, e1], by rw [r12, r22, e2]⟩
      (fun idx _ => by rw [hrand]) ?_ ?_
    · intro i j k hin hnot
      exact absurd (mem_extentIdx.mpr ⟨s10 ▸ hin.1, s11 ▸ hin.2.1, s12 ▸ hin.2.2⟩) hnot
    · intro i j k hin hnot
      exact absurd (mem_extentIdx.mpr ⟨r10 ▸ hin.1, r11 ▸ hin.2.1, r12 ▸ hin.2.2⟩) hnot
  · intro n x y hn hx hy
    obtain ⟨s, hs, w1, w2, _⟩ := hd1.written (n, x, y) (mem_extentIdx.mpr ⟨hn, hx, hy⟩)
    exact ⟨s, _, hs, w1, w2⟩

/-- The scenario of the specification over the real numbers, run on two sets of
top buffers that differ in their old contents and in their random field, and
with two generators. -/
theorem PassUp_is_deterministic_witness :
    (scenario_layer ℝ).weights_view_.WF ∧ (scenario_bottom ℝ).WF ∧ (scenario_top ℝ).Sound ∧
    (scenario_top_alt ℝ).Sound ∧ (scenario_top ℝ).prob.e0 = (scenario_layer ℝ).neuron_num ∧
    (scenario_top ℝ).prob.SameExtent (scenario_top_alt ℝ).prob ∧
    ConvolveLayer.PassUp.ReadsInRange (scenario_layer ℝ) (scenario_bottom ℝ) 2 3 3 ∧
    ((scenario_layer ℝ).PassUp Real.exp (scenario_next_single ℝ) (scenario_bottom ℝ)
        (scenario_top ℝ)).state.prob
      = ((scenario_layer ℝ).PassUp Real.exp (fun s => (0, s)) (scenario_bottom ℝ)
        (scenario_top_alt ℝ)).state.prob := by
  have hw : (scenario_layer ℝ).weights_view_.WF := by decide
  have hb : (scenario_bottom ℝ).WF := by decide
  have h1 : (scenario_top ℝ).Sound := ⟨by decide, by decide, by decide, by decide, by decide⟩
  have h2 : (scenario_top_alt ℝ).Sound := ⟨by decide, by decide, by decide, by decide, by decide⟩
  have hN : (scenario_top ℝ).prob.e0 = (scenario_layer ℝ).neuron_num := rfl
  have he : (scenario_top ℝ).prob.SameExtent (scenario_top_alt ℝ).prob := by decide
  have hrange : ConvolveLayer.PassUp.ReadsInRange (scenario_layer ℝ) (scenario_bottom ℝ) 2 3 3 := by
    intro n x y _ hx hy d u v hd hu hv
    simp only [scenario_layer] at hd hu hv
    simp only [Volume.inExtent, scenario_bottom]
    omega
  exact ⟨hw, hb, h1, h2, hN, he, hrange,
    (PassUp_is_deterministic Real.exp (scenario_next_single ℝ) (fun s => (0, s))
      (scenario_layer ℝ) (scenario_bottom ℝ) (scenario_top ℝ) (scenario_top_alt ℝ)
      hw hb h1 h2 hN he hrange).1⟩

end PassUpDeterminism

/-! ## `ConvolveLayer::RandomizeParams` -/

section RandomizeClaims

variable {F : Type}

theorem drawEach_length {G : Type} (distribution : G → F × G) (ws : List F) (g : G) :
    (drawEach distribution ws g).length = ws.length := by
  induction ws generalizing g with
  | nil => rfl
  | cons w ws ih => simp only [drawEach, List.length_cons, ih]

theorem drawEach_getElem? {G : Type} (distribution : G → F × G) (ws : List F) (g : G) (i : Nat)
    (hi : i < ws.length) :
    (drawEach distribution ws g)[i]? = some (nthDraw distribution i g) := by
  induction ws generalizing g i with
  | nil => exact absurd hi (Nat.not_lt_zero i)
  | cons w ws ih =>
    cases i with
    | zero => simp only [drawEach, List.getElem?_cons_zero, nthDraw]
    | succ i =>
      simp only [drawEach, List.getElem?_cons_succ, nthDraw]
      exact ih _ i (Nat.lt_of_succ_lt_succ hi)

theorem drawEach_eq_of_length {G : Type} (distribution : G → F × G) (ws ws' : List F) (g : G)
    (h : ws.length = ws'.length) : drawEach distribution ws g = drawEach distribution ws' g := by
  apply List.ext_getElem?
  intro i
  by_cases hi : i < ws.length
  · rw [drawEach_getElem? distribution ws g i hi, drawEach_getElem? distribution ws' g i (h ▸ hi)]
  · rw [List.getElem?_eq_none (by rw [drawEach_length]; omega),
      List.getElem?_eq_none (by rw [drawEach_length]; omega)]

/-- C12: `ConvolveLayer.RandomizeParams(seed)` leaves a weight tensor that depends
only on `seed` and on the shape of the layer: two layers of the same shape,
whatever their prior weights, end with identical weights; the extent is kept,
and every weight element is overwritten, element `i` by the `i`-th draw of the
generator seeded with `seed`. -/
theorem RandomizeParams_depends_on_seed_and_shape {G : Type} (engine : Nat → G)
    (distribution : G → F × G) (l1 l2 : ConvolveLayer F) (seed : Nat)
    (hw1 : l1.weights_view_.WF) (hw2 : l2.weights_view_.WF)
    (h0 : l1.weights_view_.e0 = l2.weights_view_.e0)
    (h1 : l1.weights_view_.e1 = l2.weights_view_.e1)
    (h2 : l1.weights_view_.e2 = l2.weights_view_.e2)
    (h3 : l1.weights_view_.e3 = l2.weights_view_.e3) :
    l1.RandomizeParams engine distribution seed = l2.RandomizeParams engine distribution seed ∧
    (l1.RandomizeParams engine distribution seed).weights_view_.WF ∧
    (l1.RandomizeParams engine distribution seed).weights_view_.e0 = l1.weights_view_.e0 ∧
    (l1.RandomizeParams engine distribution seed).weights_view_.e1 = l1.weights_view_.e1 ∧
    (l1.RandomizeParams engine distribution seed).weights_view_.e2 = l1.weights_view_.e2 ∧
    (l1.RandomizeParams engine distribution seed).weights_view_.e3 = l1.weights_view_.e3 ∧
    ∀ i, i < l1.weights_view_.data.length →
      (l1.RandomizeParams engine distribution seed).weights_view_.data[i]?
        = some (nthDraw distribution i (engine seed)) := by
  obtain ⟨⟨a0, a1, a2, a3, ad⟩⟩ := l1
  obtain ⟨⟨b0, b1, b2, b3, bd⟩⟩ := l2
  simp only at h0 h1 h2 h3
  subst h0 h1 h2 h3
  simp only [Tensor4.WF] at hw1 hw2
  refine ⟨?_, ?_, rfl, rfl, rfl, rfl, ?_⟩
  · simp only [ConvolveLayer.RandomizeParams]
    rw [drawEach_eq_of_length distribution ad bd (engine seed) (hw1.trans hw2.symm)]
  · simp only [ConvolveLayer.RandomizeParams, Tensor4.WF, drawEach_length]
    exact hw1
  · intro i hi
    exact drawEach_getElem? distribution ad (engine seed) i hi

/-- Two layers of the shape of the scenario with different prior weights. -/
theorem RandomizeParams_depends_on_seed_and_shape_witness :
    (scenario_layer ℝ).weights_view_.WF ∧ (scenario_layer_alt ℝ).weights_view_.WF ∧
    (scenario_layer ℝ).weights_view_.e0 = (scenario_layer_alt ℝ).weights_view_.e0 ∧
    (scenario_layer ℝ).weights_view_.e1 = (scenario_layer_alt ℝ).weights_view_.e1 ∧
    (scenario_layer ℝ).weights_view_.e2 = (scenario_layer_alt ℝ).weights_view_.e2 ∧
    (scenario_layer ℝ).weights_view_.e3 = (scenario_layer_alt ℝ).weights_view_.e3 ∧
    (scenario_layer ℝ).RandomizeParams id (scenario_distribution ℝ) 42
      = (scenario_layer_alt ℝ).RandomizeParams id (scenario_distribution ℝ) 42 :=
  ⟨by decide, by decide, rfl, rfl, rfl, rfl,
    (RandomizeParams_depends_on_seed_and_shape id (scenario_distribution ℝ) (scenario_layer ℝ)
      (scenario_layer_alt ℝ) 42 (by decide) (by decide) rfl rfl rfl rfl).1⟩

end RandomizeClaims

/-! ## The extent invariant of `DataLayer` -/

section DataLayerInvariant

variable {F S : Type}

/-- The members built from valid extents have those extents. -/
theorem allocate_hasExtent [Zero F] (kMemorySize : Nat) (rs : Nat → S) (junk : Nat → F)
    (depth width height : Nat) :
    DataLayer.HasExtent kMemorySize depth width height
      (DataLayer.allocate kMemorySize rs junk depth width height : DataLayer F S) := by
  refine ⟨?_, ⟨rfl, rfl, rfl⟩, ⟨rfl, rfl, rfl, ?_⟩, ⟨rfl, rfl, rfl, ?_⟩, ?_, ?_⟩
  · simp [DataLayer.allocate]
  · simp [DataLayer.allocate, Volume.WF]
  · simp [DataLayer.allocate, Volume.WF]
  · simp [DataLayer.allocate]
  · intro m hm
    simp only [DataLayer.allocate] at hm
    rw [List.eq_of_mem_replicate hm]
    refine ⟨rfl, rfl, rfl, ?_⟩
    simp [Volume.WF]

/-- The constructor builds a layer exactly on three positive extents whose
product is an `int`. -/
theorem ctor_ok_iff [Zero F] (kMemorySize : Nat) (rs : Nat → S) (junk : Nat → F)
    (depth width height : Int) :
    (∃ l : DataLayer F S, DataLayer.ctor kMemorySize rs junk depth width height = .ok l) ↔
      0 < depth ∧ 0 < width ∧ 0 < height ∧ depth * width * height ≤ 2147483647 := by
  unfold DataLayer.ctor
  constructor
  · rintro ⟨l, hl⟩
    split at hl
    · rename_i hfit
      split at hl
      · rename_i hpos
        exact ⟨hpos.1, hpos.2.1, hpos.2.2, hfit.2.2⟩
      · exact absurd hl (by simp)
    · exact absurd hl (by simp)
  · rintro ⟨hd, hw, hh, hp⟩
    have hdw : 0 < depth * width := Int.mul_pos hd hw
    have hle : depth * width ≤ depth * width * height := by
      calc depth * width = depth * width * 1 := (Int.mul_one _).symm
        _ ≤ depth * width * height := Int.mul_le_mul_of_nonneg_left (by omega) (by omega)
    have hfit : fitsInt (depth * width) ∧ fitsInt (depth * width * height) :=
      ⟨⟨by omega, by omega⟩, ⟨by omega, hp⟩⟩
    rw [if_pos hfit, if_pos ⟨hd, hw, hh⟩]
    exact ⟨_, rfl⟩

/-- Calls of the constructor that build no layer: `46341 * 46341` is not an
`int`; an extent `0` and a negative extent make the constructor throw. -/
theorem ctor_builds_no_layer :
    (DataLayer.ctor 2 id (fun _ => (0 : ℚ)) 46341 46341 1 : Except Err (DataLayer ℚ Nat))
      = .error .undefinedBehaviour ∧
    (DataLayer.ctor 2 id (fun _ => (0 : ℚ)) 0 4 4 : Except Err (DataLayer ℚ Nat))
      = .error .exception ∧
    (DataLayer.ctor 2 id (fun _ => (0 : ℚ)) (-1) (-1) 1 : Except Err (DataLayer ℚ Nat))
      = .error .exception :=
  ⟨rfl, rfl, rfl⟩

/-- C13: every `DataLayer` satisfies the extent invariant.
* `DataLayer(depth, width, height)` builds a layer exactly when the three
  extents are positive and their product is an `int`; the layer built has the
  extent `depth × width × height` (`DataLayer.HasExtent`: `data_` of
  `depth * width * height` elements, and the view, the generated buffer, the
  random field and each of the `kMemorySize` memory entries of that extent).
* On a layer of extent `d × w × h`, a successful `SetData` stores the values and
  leaves a layer of extent `d × w × h`; a failed one leaves the layer as it was;
  the layer move-constructed from it has the extent `d × w × h`.
* A layer of some extent satisfies `DataLayer.ExtentInv`: its buffers share the
  extent of its view. -/
theorem DataLayer_extent_invariant [Zero F] (kMemorySize : Nat) (rs : Nat → S) (junk : Nat → F)
    (depth width height : Int) (d w h : Nat) (l : DataLayer F S) (values : List F) :
    ((0 < depth ∧ 0 < width ∧ 0 < height ∧ depth * width * height ≤ 2147483647) →
      ∃ l0 : DataLayer F S, DataLayer.ctor kMemorySize rs junk depth width height = .ok l0 ∧
        DataLayer.HasExtent kMemorySize depth.toNat width.toNat height.toNat l0) ∧
    (¬ (0 < depth ∧ 0 < width ∧ 0 < height ∧ depth * width * height ≤ 2147483647) →
      ∀ l0 : DataLayer F S, DataLayer.ctor kMemorySize rs junk depth width height ≠ .ok l0) ∧
    (DataLayer.HasExtent kMemorySize d w h l →
      ((l.SetData values).err = none → (l.SetData values).state.data_ = values) ∧
      ((l.SetData values).err ≠ none → (l.SetData values).state = l) ∧
      DataLayer.HasExtent kMemorySize d w h (l.SetData values).state ∧
      DataLayer.HasExtent kMemorySize d w h (DataLayer.move l) ∧
      DataLayer.ExtentInv kMemorySize l) := by
  refine ⟨fun hvalid => ?_, fun hinvalid l0 hl0 => ?_, fun hinv => ?_⟩
  · obtain ⟨l0, hl0⟩ := (ctor_ok_iff kMemorySize rs junk depth width height).mpr hvalid
    refine ⟨l0, hl0, ?_⟩
    have hfit : fitsInt (depth * width) ∧ fitsInt (depth * width * height) := by
      by_contra hfit
      unfold DataLayer.ctor at hl0
      rw [if_neg hfit] at hl0
      exact absurd hl0 (by simp)
    unfold DataLayer.ctor at hl0
    rw [if_pos hfit, if_pos ⟨hvalid.1, hvalid.2.1, hvalid.2.2.1⟩] at hl0
    rw [← Except.ok.inj hl0]
    exact allocate_hasExtent kMemorySize rs junk _ _ _
  · exact hinvalid ((ctor_ok_iff kMemorySize rs junk depth width height).mp ⟨l0, hl0⟩)
  · have hset : DataLayer.HasExtent kMemorySize d w h (l.SetData values).state := by
      unfold DataLayer.SetData
      by_cases hsize : values.length = l.data_.length
      · rw [if_pos hsize]
        exact ⟨hsize.trans hinv.data_size, hinv.view_extent, hinv.generated_extent,
          hinv.rand_extent, hinv.memory_size, hinv.memory_extent⟩
      · rw [if_neg hsize]
        exact hinv
    refine ⟨fun hok => ?_, fun hfail => ?_, hset, ?_, ?_⟩
    · unfold DataLayer.SetData at hok ⊢
      by_cases hsize : values.length = l.data_.length
      · rw [if_pos hsize]
      · rw [if_neg hsize] at hok
        exact absurd hok (by simp)
    · unfold DataLayer.SetData at hfail ⊢
      by_cases hsize : values.length = l.data_.length
      · rw [if_pos hsize] at hfail
        exact absurd rfl hfail
      · rw [if_neg hsize]
    · exact ⟨hinv.data_size, hinv.view_extent, hinv.generated_extent, hinv.rand_extent,
        hinv.memory_size, hinv.memory_extent⟩
    · obtain ⟨v0, v1, v2⟩ := hinv.view_extent
      refine ⟨?_, ?_, ?_, hinv.memory_size, fun m hm => ?_⟩
      · rw [hinv.data_size]
        exact congrArg₂ (· * ·) (congrArg₂ (· * ·) v0.symm v1.symm) v2.symm
      · exact ⟨hinv.generated_extent.1.trans v0.symm, hinv.generated_extent.2.1.trans v1.symm,
          hinv.generated_extent.2.2.1.trans v2.symm⟩
      · exact ⟨hinv.rand_extent.1.trans v0.symm, hinv.rand_extent.2.1.trans v1.symm,
          hinv.rand_extent.2.2.1.trans v2.symm⟩
      · obtain ⟨m0, m1, m2, _⟩ := hinv.memory_extent m hm
        exact ⟨m0.trans v0.symm, m1.trans v1.symm, m2.trans v2.symm⟩

/-- The call `DataLayer(1, 4, 4)` with two memory entries builds a layer of extent
`1×4×4`, which receives sixteen values and is moved. -/
theorem DataLayer_extent_invariant_witness :
    (0 < (1 : Int) ∧ 0 < (4 : Int) ∧ 0 < (4 : Int) ∧ (1 : Int) * 4 * 4 ≤ 2147483647) ∧
    (∃ l0 : DataLayer ℚ Nat, DataLayer.ctor 2 id (fun _ => (0 : ℚ)) 1 4 4 = .ok l0 ∧
      DataLayer.HasExtent 2 1 4 4 l0) ∧
    DataLayer.HasExtent 2 1 4 4
      (DataLayer.allocate 2 id (fun _ => (0 : ℚ)) 1 4 4 : DataLayer ℚ Nat) ∧
    ((DataLayer.allocate 2 id (fun _ => (0 : ℚ)) 1 4 4 : DataLayer ℚ Nat).SetData
      (scenario_bottom ℚ).data).err = none ∧
    ((DataLayer.allocate 2 id (fun _ => (0 : ℚ)) 1 4 4 : DataLayer ℚ Nat).SetData
      (scenario_bottom ℚ).data).state.data_ = (scenario_bottom ℚ).data ∧
    DataLayer.HasExtent 2 1 4 4 ((DataLayer.allocate 2 id (fun _ => (0 : ℚ)) 1 4 4 :
      DataLayer ℚ Nat).SetData (scenario_bottom ℚ).data).state ∧
    DataLayer.HasExtent 2 1 4 4 (DataLayer.move
      (DataLayer.allocate 2 id (fun _ => (0 : ℚ)) 1 4 4 : DataLayer ℚ Nat)) ∧
    DataLayer.ExtentInv 2 (DataLayer.allocate 2 id (fun _ => (0 : ℚ)) 1 4 4 : DataLayer ℚ Nat) := by
  have hvalid : 0 < (1 : Int) ∧ 0 < (4 : Int) ∧ 0 < (4 : Int) ∧
      (1 : Int) * 4 * 4 ≤ 2147483647 := by decide
  have hinv : DataLayer.HasExtent 2 1 4 4
      (DataLayer.allocate 2 id (fun _ => (0 : ℚ)) 1 4 4 : DataLayer ℚ Nat) :=
    ⟨by decide, by decide, by decide, by decide, by decide, by decide⟩
  have h := DataLayer_extent_invariant 2 id (fun _ => (0 : ℚ)) 1 4 4 1 4 4
    (DataLayer.allocate 2 id (fun _ => (0 : ℚ)) 1 4 4 : DataLayer ℚ Nat) (scenario_bottom ℚ).data
  exact ⟨hvalid, h.1 hvalid, hinv, rfl, (h.2.2 hinv).1 rfl, (h.2.2 hinv).2.2.1,
    (h.2.2 hinv).2.2.2.1, (h.2.2 hinv).2.2.2.2⟩

end DataLayerInvariant

/-! ## What the passes and `Train` leave alone -/

section Frames

variable {F S : Type}

theorem parallel_for_each_id {ι σ : Type} (l : List ι) (s : σ) :
    parallel_for_each (fun (_ : ι) (c : σ) => (.ok c : Except Err σ)) l s = ⟨s, none⟩ := by
  induction l with
  | nil => rfl
  | cons i is ih => simp only [parallel_for_each, ih]

/-- `DeepModel.PassDown`, failing or not, keeps in every data layer whatever
does not depend on the generated buffer. -/
theorem DeepModel_PassDown_frame_of {β : Type} (f : DataLayer F S → β)
    (hf : ∀ l g, f { l with data_generated_ := g } = f l)
    (passDown2 : ConvolveLayer F → Volume F → Volume F → Res (Volume F))
    (self : DeepModel F S) :
    (self.PassDown passDown2).state.data_layers_.map f = self.data_layers_.map f := by
  obtain ⟨ls, convs⟩ := self
  cases hlast : ls.getLast? with
  | none =>
    have hrun : (DeepModel.mk ls convs).PassDown passDown2
        = ⟨⟨ls, convs⟩, some .undefinedBehaviour⟩ := by
      simp only [DeepModel.PassDown, hlast]
    rw [hrun]
  | some roof =>
    have hroof : ls[ls.length - 1]? = some roof := by
      rw [← List.getLast?_eq_getElem?]
      exact hlast
    have hrun : (DeepModel.mk ls convs).PassDown passDown2
        = forRes (DeepModel.PassDown.step passDown2) (List.range convs.length).reverse
            ⟨ls.set (ls.length - 1)
              { roof with
                data_generated_ := { roof.data_generated_ with data := roof.data_ } }, convs⟩ := by
      simp only [DeepModel.PassDown, hlast]
    rw [hrun]
    refine forRes_frame (DeepModel.PassDown.step passDown2)
      (fun m => m.data_layers_.map f = ls.map f) ?_ _ _
      (map_set_same _ _ _ _ _ hroof (hf _ _))
    intro k m h
    refine Eq.trans ?_ h
    unfold DeepModel.PassDown.step
    split
    · rename_i conv bl tl hc hb ht
      exact map_set_same _ _ _ _ _ hb (hf _ _)
    · rfl

/-- A dispatch keeps a property of the state that every successful kernel run
keeps. -/
theorem parallel_for_each_frame {ι σ : Type} (body : ι → σ → Except Err σ) (Q : σ → Prop)
    (hstep : ∀ i s s', Q s → body i s = .ok s' → Q s') (l : List ι) (s : σ) (h : Q s) :
    Q (parallel_for_each body l s).state := by
  induction l generalizing s with
  | nil => exact h
  | cons i is ih =>
    cases hb : body i s with
    | ok s' =>
      simp only [parallel_for_each, hb]
      exact ih s' (hstep i s s' h hb)
    | error e =>
      simp only [parallel_for_each, hb]
      exact h

/-- An assignment through a view changes no other buffer. -/
theorem View3.store_frame (v : View3) (m m' : Storage F) (i j k : Nat) (a : F)
    (h : v.store m i j k a = .ok m') (b : Nat) (hb : b ≠ v.buf) : m' b = m b := by
  unfold View3.store at h
  cases hw : (v.load m).write i j k a with
  | ok w =>
    rw [hw] at h
    rw [← Except.ok.inj h]
    exact Function.update_noteq hb _ _
  | error e =>
    rw [hw] at h
    exact absurd h (by simp)

/-- A write keeps the extent. -/
theorem Volume.write_extent {α : Type} (v w : Volume α) (i j k : Nat) (a : α)
    (h : v.write i j k a = .ok w) : w.e0 = v.e0 ∧ w.e1 = v.e1 ∧ w.e2 = v.e2 := by
  unfold Volume.write at h
  split at h
  · rw [← Except.ok.inj h]
    exact ⟨rfl, rfl, rfl⟩
  · exact absurd h (by simp)

/-- An assignment through a view succeeds as the write to what the view shows,
and the view then shows the written volume. -/
theorem View3.store_ok (v : View3) (m : Storage F) (i j k : Nat) (a : F) (w : Volume F)
    (h : (v.load m).write i j k a = .ok w) :
    v.store m i j k a = .ok (Function.update m v.buf w.data) ∧
    v.load (Function.update m v.buf w.data) = w := by
  obtain ⟨h0, h1, h2⟩ := Volume.write_extent _ _ _ _ _ _ h
  refine ⟨by simp only [View3.store, h], ?_⟩
  obtain ⟨w0, w1, w2, wd⟩ := w
  simp only [View3.load, Function.update_same]
  simp only [View3.load] at h0 h1 h2
  rw [h0, h1, h2]

/-- An assignment through a view fails as the write to what the view shows. -/
theorem View3.store_error (v : View3) (m : Storage F) (i j k : Nat) (a : F) (e : Err)
    (h : (v.load m).write i j k a = .error e) : v.store m i j k a = .error e := by
  simp only [View3.store, h]

/-- A view over another buffer shows what it showed. -/
theorem View3.load_update_ne (u : View3) (m : Storage F) (b : Nat) (x : List F)
    (h : u.buf ≠ b) : u.load (Function.update m b x) = u.load m := by
  simp only [View3.load, Function.update_noteq h]

/-- A dispatch on storage and a dispatch on what views show of it end alike when
each kernel run on storage does what the kernel run on the shown volumes
does. -/
theorem parallel_for_each_map {ι σ τ : Type} (f : ι → σ → Except Err σ)
    (g : ι → τ → Except Err τ) (shown : σ → τ) (Q : σ → Prop)
    (hstep : ∀ i s, Q s → (f i s).map shown = g i (shown s) ∧ ∀ s', f i s = .ok s' → Q s')
    (l : List ι) (s : σ) (h : Q s) :
    shown (parallel_for_each f l s).state = (parallel_for_each g l (shown s)).state ∧
    (parallel_for_each f l s).err = (parallel_for_each g l (shown s)).err := by
  induction l generalizing s with
  | nil => exact ⟨rfl, rfl⟩
  | cons i is ih =>
    obtain ⟨hmap, hQ⟩ := hstep i s h
    cases hf : f i s with
    | ok s' =>
      rw [hf] at hmap
      simp only [parallel_for_each, hf, ← hmap, Except.map]
      exact ih s' (hQ s' hf)
    | error e =>
      rw [hf] at hmap
      simp only [parallel_for_each, hf, ← hmap, Except.map]
      exact ⟨trivial, trivial⟩

end Frames

section SharedActivate

variable {F S : Type} [Zero F] [One F] [Add F] [Neg F] [Div F] [LE F]
  [DecidableRel (fun a b : F => a ≤ b)]

/-- The three last statements of a kernel body change no buffer other than those
of the two views they assign through. -/
theorem activateShared_frame (expf : F → F) (next_single : S → F × S) (prob sample : View3)
    (idx : Nat × Nat × Nat) (result : F) (σ σ' : Shared F S)
    (h : activateShared expf next_single prob sample idx result σ = .ok σ')
    (b : Nat) (hp : b ≠ prob.buf) (hs : b ≠ sample.buf) : σ'.mem b = σ.mem b := by
  cases h1 : prob.store σ.mem idx.1 idx.2.1 idx.2.2 (logistic expf result) with
  | error e => simp [activateShared, h1, bind, Except.bind] at h
  | ok m1 =>
    cases h2 : σ.rand_collection.read idx.1 idx.2.1 idx.2.2 with
    | error e => simp [activateShared, h1, h2, bind, Except.bind] at h
    | ok s =>
      cases h3 : σ.rand_collection.write idx.1 idx.2.1 idx.2.2 (next_single s).2 with
      | error e => simp [activateShared, h1, h2, h3, bind, Except.bind] at h
      | ok rc =>
        cases h4 : sample.store m1 idx.1 idx.2.1 idx.2.2
            (if (next_single s).1 ≤ logistic expf result then 1 else 0) with
        | error e => simp [activateShared, h1, h2, h3, h4, bind, Except.bind] at h
        | ok m2 =>
          simp only [activateShared, h1, h2, h3, h4, bind, Except.bind, pure, Except.pure] at h
          rw [← Except.ok.inj h]
          exact (View3.store_frame sample m1 m2 _ _ _ _ h4 b hs).trans
            (View3.store_frame prob σ.mem m1 _ _ _ _ h1 b hp)

/-- With the two output views over different buffers, the three last statements
of a kernel body do on storage what they do on the volumes the views show. -/
theorem activateShared_shown (expf : F → F) (next_single : S → F × S) (prob sample : View3)
    (hps : prob.buf ≠ sample.buf) (idx : Nat × Nat × Nat) (result : F) (σ : Shared F S) :
    (activateShared expf next_single prob sample idx result σ).map (Shared.outputs prob sample)
      = activate expf next_single idx result (Shared.outputs prob sample σ) := by
  cases h1 : (prob.load σ.mem).write idx.1 idx.2.1 idx.2.2 (logistic expf result) with
  | error e =>
    simp [activateShared, activate, Shared.outputs, View3.store_error _ _ _ _ _ _ _ h1, h1,
      bind, Except.bind, Except.map]
  | ok w =>
    obtain ⟨hst1, hld1⟩ := View3.store_ok _ _ _ _ _ _ _ h1
    cases h2 : σ.rand_collection.read idx.1 idx.2.1 idx.2.2 with
    | error e =>
      simp [activateShared, activate, Shared.outputs, hst1, h1, h2, bind, Except.bind, Except.map]
    | ok s =>
      cases h3 : σ.rand_collection.write idx.1 idx.2.1 idx.2.2 (next_single s).2 with
      | error e =>
        simp [activateShared, activate, Shared.outputs, hst1, h1, h2, h3, bind, Except.bind,
          Except.map]
      | ok rc =>
        have hs1 : sample.load (Function.update σ.mem prob.buf w.data) = sample.load σ.mem :=
          View3.load_update_ne sample σ.mem prob.buf w.data (Ne.symm hps)
        cases h4 : (sample.load σ.mem).write idx.1 idx.2.1 idx.2.2
            (if (next_single s).1 ≤ logistic expf result then 1 else 0) with
        | error e =>
          have hst2 := View3.store_error sample (Function.update σ.mem prob.buf w.data)
            idx.1 idx.2.1 idx.2.2 (if (next_single s).1 ≤ logistic expf result then 1 else 0) e
            (by rw [hs1]; exact h4)
          simp [activateShared, activate, Shared.outputs, hst1, hst2, h1, h2, h3, h4, bind,
            Except.bind, Except.map]
        | ok smp =>
          obtain ⟨hst2, hld2⟩ := View3.store_ok sample (Function.update σ.mem prob.buf w.data)
            idx.1 idx.2.1 idx.2.2 (if (next_single s).1 ≤ logistic expf result then 1 else 0) smp
            (by rw [hs1]; exact h4)
          have hp2 : prob.load (Function.update (Function.update σ.mem prob.buf w.data)
              sample.buf smp.data) = w := by
            rw [View3.load_update_ne prob _ sample.buf smp.data hps]
            exact hld1
          simp only [activateShared, activate, Shared.outputs, hst1, hst2, h1, h2, h3, h4, bind,
            Except.bind, Except.map, pure, Except.pure, hp2, hld2]

end SharedActivate

section SharedFrames

variable {F S : Type} [Zero F] [One F] [Add F] [Mul F] [Neg F] [Div F] [LE F]
  [DecidableRel (fun a b : F => a ≤ b)]

/-- `PassUp` on storage, failing or not, changes no buffer other than those of
its two output views. -/
theorem PassUpShared_frame (expf : F → F) (next_single : S → F × S) (weights_view_ : View4)
    (bottom_layer top_layer_prob top_layer_sample : View3) (σ : Shared F S)
    (b : Nat) (hp : b ≠ top_layer_prob.buf) (hs : b ≠ top_layer_sample.buf) :
    (ConvolveLayer.PassUpShared expf next_single weights_view_ bottom_layer top_layer_prob
      top_layer_sample σ).state.mem b = σ.mem b := by
  unfold ConvolveLayer.PassUpShared
  split
  · refine parallel_for_each_frame _ (fun s : Shared F S => s.mem b = σ.mem b) ?_ _ σ rfl
    intro idx s s' hQ hrun
    refine Eq.trans ?_ hQ
    unfold ConvolveLayer.PassUp.kernelShared at hrun
    cases hsum : ConvolveLayer.PassUp.sum (weights_view_.load s.mem) (bottom_layer.load s.mem)
        idx with
    | error e => simp [hsum, bind, Except.bind] at hrun
    | ok result =>
      simp only [hsum, bind, Except.bind] at hrun
      exact activateShared_frame expf next_single _ _ idx result s s' hrun b hp hs
  · rfl

/-- `PassDown` on storage, failing or not, changes no buffer other than those of
its two output views. -/
theorem PassDownShared_frame (expf : F → F) (next_single : S → F × S) (weights_view_ : View4)
    (top_layer bottom_layer_prob bottom_layer_sample : View3) (σ : Shared F S)
    (b : Nat) (hp : b ≠ bottom_layer_prob.buf) (hs : b ≠ bottom_layer_sample.buf) :
    (ConvolveLayer.PassDownShared expf next_single weights_view_ top_layer bottom_layer_prob
      bottom_layer_sample σ).state.mem b = σ.mem b := by
  unfold ConvolveLayer.PassDownShared
  split
  · refine parallel_for_each_frame _ (fun s : Shared F S => s.mem b = σ.mem b) ?_ _ σ rfl
    intro idx s s' hQ hrun
    refine Eq.trans ?_ hQ
    unfold ConvolveLayer.PassDown.kernelShared at hrun
    cases hsum : ConvolveLayer.PassDown.sum (weights_view_.load s.mem) (top_layer.load s.mem)
        idx with
    | error e => simp [hsum, bind, Except.bind] at hrun
    | ok result =>
      simp only [hsum, bind, Except.bind] at hrun
      exact activateShared_frame expf next_single _ _ idx result s s' hrun b hp hs
  · rfl

/-- With the output views over two buffers that neither the weights nor the
input are in, `PassUp` on storage is `PassUp` on the volumes the views show: the
same failure, if any, and the same three buffers left behind. -/
theorem PassUpShared_shown (expf : F → F) (next_single : S → F × S) (weights_view_ : View4)
    (bottom_layer top_layer_prob top_layer_sample : View3) (σ : Shared F S)
    (hps : top_layer_prob.buf ≠ top_layer_sample.buf)
    (hwp : weights_view_.buf ≠ top_layer_prob.buf) (hws : weights_view_.buf ≠ top_layer_sample.buf)
    (hbp : bottom_layer.buf ≠ top_layer_prob.buf) (hbs : bottom_layer.buf ≠ top_layer_sample.buf) :
    Shared.outputs top_layer_prob top_layer_sample
        (ConvolveLayer.PassUpShared expf next_single weights_view_ bottom_layer top_layer_prob
          top_layer_sample σ).state
      = (ConvolveLayer.PassUp expf next_single ⟨weights_view_.load σ.mem⟩
          (bottom_layer.load σ.mem) (Shared.outputs top_layer_prob top_layer_sample σ)).state ∧
    (ConvolveLayer.PassUpShared expf next_single weights_view_ bottom_layer top_layer_prob
        top_layer_sample σ).err
      = (ConvolveLayer.PassUp expf next_single ⟨weights_view_.load σ.mem⟩
          (bottom_layer.load σ.mem) (Shared.outputs top_layer_prob top_layer_sample σ)).err := by
  unfold ConvolveLayer.PassUpShared ConvolveLayer.PassUp
  by_cases hN : top_layer_prob.e0 = (ConvolveLayer.mk (weights_view_.load σ.mem)).neuron_num
  · have hN' : (Shared.outputs top_layer_prob top_layer_sample σ).prob.e0
        = (ConvolveLayer.mk (weights_view_.load σ.mem)).neuron_num := hN
    rw [if_pos hN, if_pos hN']
    refine parallel_for_each_map _ _ (Shared.outputs top_layer_prob top_layer_sample)
      (fun s : Shared F S => s.mem weights_view_.buf = σ.mem weights_view_.buf ∧
        s.mem bottom_layer.buf = σ.mem bottom_layer.buf) ?_ _ σ ⟨rfl, rfl⟩
    intro idx s ⟨hw, hb⟩
    have hwl : weights_view_.load s.mem = weights_view_.load σ.mem := by
      simp only [View4.load, hw]
    have hbl : bottom_layer.load s.mem = bottom_layer.load σ.mem := by
      simp only [View3.load, hb]
    constructor
    · unfold ConvolveLayer.PassUp.kernelShared ConvolveLayer.PassUp.kernel
      rw [hwl, hbl]
      cases hsum : ConvolveLayer.PassUp.sum (weights_view_.load σ.mem) (bottom_layer.load σ.mem)
          idx with
      | error e => simp [bind, Except.bind, Except.map]
      | ok result =>
        simp only [bind, Except.bind]
        exact activateShared_shown expf next_single _ _ hps idx result s
    · intro s' hrun
      unfold ConvolveLayer.PassUp.kernelShared at hrun
      cases hsum : ConvolveLayer.PassUp.sum (weights_view_.load s.mem) (bottom_layer.load s.mem)
          idx with
      | error e => simp [hsum, bind, Except.bind] at hrun
      | ok result =>
        simp only [hsum, bind, Except.bind] at hrun
        exact ⟨(activateShared_frame expf next_single _ _ idx result s s' hrun _ hwp hws).trans hw,
          (activateShared_frame expf next_single _ _ idx result s s' hrun _ hbp hbs).trans hb⟩
  · have hN' : ¬ (Shared.outputs top_layer_prob top_layer_sample σ).prob.e0
        = (ConvolveLayer.mk (weights_view_.load σ.mem)).neuron_num := hN
    rw [if_neg hN, if_neg hN']
    exact ⟨rfl, rfl⟩

/-- The counterpart of `PassUpShared_shown` for `PassDown`. -/
theorem PassDownShared_shown (expf : F → F) (next_single : S → F × S) (weights_view_ : View4)
    (top_layer bottom_layer_prob bottom_layer_sample : View3) (σ : Shared F S)
    (hps : bottom_layer_prob.buf ≠ bottom_layer_sample.buf)
    (hwp : weights_view_.buf ≠ bottom_layer_prob.buf)
    (hws : weights_view_.buf ≠ bottom_layer_sample.buf)
    (htp : top_layer.buf ≠ bottom_layer_prob.buf) (hts : top_layer.buf ≠ bottom_layer_sample.buf) :
    Shared.outputs bottom_layer_prob bottom_layer_sample
        (ConvolveLayer.PassDownShared expf next_single weights_view_ top_layer bottom_layer_prob
          bottom_layer_sample σ).state
      = (ConvolveLayer.PassDown expf next_single ⟨weights_view_.load σ.mem⟩
          (top_layer.load σ.mem) (Shared.outputs bottom_layer_prob bottom_layer_sample σ)).state ∧
    (ConvolveLayer.PassDownShared expf next_single weights_view_ top_layer bottom_layer_prob
        bottom_layer_sample σ).err
      = (ConvolveLayer.PassDown expf next_single ⟨weights_view_.load σ.mem⟩
          (top_layer.load σ.mem) (Shared.outputs bottom_layer_prob bottom_layer_sample σ)).err := by
  unfold ConvolveLayer.PassDownShared ConvolveLayer.PassDown
  by_cases hN : top_layer.e0 = (ConvolveLayer.mk (weights_view_.load σ.mem)).neuron_num
  · have hN' : (top_layer.load σ.mem).e0
        = (ConvolveLayer.mk (weights_view_.load σ.mem)).neuron_num := hN
    rw [if_pos hN, if_pos hN']
    refine parallel_for_each_map _ _ (Shared.outputs bottom_layer_prob bottom_layer_sample)
      (fun s : Shared F S => s.mem weights_view_.buf = σ.mem weights_view_.buf ∧
        s.mem top_layer.buf = σ.mem top_layer.buf) ?_ _ σ ⟨rfl, rfl⟩
    intro idx s ⟨hw, hb⟩
    have hwl : weights_view_.load s.mem = weights_view_.load σ.mem := by
      simp only [View4.load, hw]
    have hbl : top_layer.load s.mem = top_layer.load σ.mem := by
      simp only [View3.load, hb]
    constructor
    · unfold ConvolveLayer.PassDown.kernelShared ConvolveLayer.PassDown.kernel
      rw [hwl, hbl]
      cases hsum : ConvolveLayer.PassDown.sum (weights_view_.load σ.mem) (top_layer.load σ.mem)
          idx with
      | error e => simp [bind, Except.bind, Except.map]
      | ok result =>
        simp only [bind, Except.bind]
        exact activateShared_shown expf next_single _ _ hps idx result s
    · intro s' hrun
      unfold ConvolveLayer.PassDown.kernelShared at hrun
      cases hsum : ConvolveLayer.PassDown.sum (weights_view_.load s.mem) (top_layer.load s.mem)
          idx with
      | error e => simp [hsum, bind, Except.bind] at hrun
      | ok result =>
        simp only [hsum, bind, Except.bind] at hrun
        exact ⟨(activateShared_frame expf next_single _ _ idx result s s' hrun _ hwp hws).trans hw,
          (activateShared_frame expf next_single _ _ idx result s s' hrun _ htp hts).trans hb⟩
  · have hN' : ¬ (top_layer.load σ.mem).e0
        = (ConvolveLayer.mk (weights_view_.load σ.mem)).neuron_num := hN
    rw [if_neg hN, if_neg hN']
    exact ⟨rfl, rfl⟩

end SharedFrames

section FrameClaims

variable {F S : Type} [Zero F] [One F] [Add F] [Mul F] [Neg F] [Div F] [LE F]
  [DecidableRel (fun a b : F => a ≤ b)]

/-- C14 (as stated, refuted): the input view of a pass is read-only, the storage
under it is not.  With `bottom_layer` and `top_layer_prob` two views over the
same buffer (here buffer `1`, holding `5` under a weight `1`), `PassUp` ends
without failure and the input volume no longer holds what it held; likewise
`PassDown` with `top_layer` and `bottom_layer_prob` over the same buffer. -/
theorem passes_overwrite_shared_input :
    (ConvolveLayer.PassUpShared Real.exp (scenario_next_single ℝ) unit_weights_view
      (unit_view 1) (unit_view 1) (unit_view 2) (unit_shared ℝ)).err = none ∧
    (unit_view 1).load (ConvolveLayer.PassUpShared Real.exp (scenario_next_single ℝ)
      unit_weights_view (unit_view 1) (unit_view 1) (unit_view 2) (unit_shared ℝ)).state.mem
      ≠ (unit_view 1).load (unit_shared ℝ).mem ∧
    (ConvolveLayer.PassDownShared Real.exp (scenario_next_single ℝ) unit_weights_view
      (unit_view 1) (unit_view 1) (unit_view 2) (unit_shared ℝ)).err = none ∧
    (unit_view 1).load (ConvolveLayer.PassDownShared Real.exp (scenario_next_single ℝ)
      unit_weights_view (unit_view 1) (unit_view 1) (unit_view 2) (unit_shared ℝ)).state.mem
      ≠ (unit_view 1).load (unit_shared ℝ).mem := by
  have hup : ((unit_view 1).load (ConvolveLayer.PassUpShared Real.exp (scenario_next_single ℝ)
      unit_weights_view (unit_view 1) (unit_view 1) (unit_view 2) (unit_shared ℝ)).state.mem).data
      = [logistic Real.exp (0 + 5 * 1)] := rfl
  have hdown : ((unit_view 1).load (ConvolveLayer.PassDownShared Real.exp
      (scenario_next_single ℝ) unit_weights_view (unit_view 1) (unit_view 1) (unit_view 2)
      (unit_shared ℝ)).state.mem).data = [logistic Real.exp (0 + 1 * 5)] := rfl
  have hbefore : ((unit_view 1).load (unit_shared ℝ).mem).data = [5] := rfl
  have hlt : ∀ r : ℝ, logistic Real.exp r ≠ 5 := fun r h => by
    have := (logistic_bounds Real.exp Real.exp_pos r).2
    rw [h] at this
    norm_num at this
  refine ⟨rfl, fun h => ?_, rfl, fun h => ?_⟩
  · have h' := congrArg Volume.data h
    rw [hup, hbefore] at h'
    exact hlt _ (List.head_eq_of_cons_eq h')
  · have h' := congrArg Volume.data h
    rw [hdown, hbefore] at h'
    exact hlt _ (List.head_eq_of_cons_eq h')

/-- C14 (amended): `ConvolveLayer.PassUp` and `ConvolveLayer.PassDown`, on every
storage and whether they fail or not, assign only through their two output views
(`prob` and `sample`) and to the random field: every buffer that neither output
view is over holds what it held.  So the weights are unchanged (values and
extent) when no output view is over their buffer, and the input volume (`bottom`
for `PassUp`, `top` for `PassDown`) is unchanged when no output view is over its
buffer. -/
theorem passes_leave_weights_and_input (expf : F → F) (next_single : S → F × S)
    (weights_view_ : View4) (input prob sample : View3) (σ : Shared F S)
    (hweights : weights_view_.buf ≠ prob.buf ∧ weights_view_.buf ≠ sample.buf)
    (hinput : input.buf ≠ prob.buf ∧ input.buf ≠ sample.buf) :
    (∀ b, b ≠ prob.buf → b ≠ sample.buf →
      (ConvolveLayer.PassUpShared expf next_single weights_view_ input prob sample σ).state.mem b
        = σ.mem b ∧
      (ConvolveLayer.PassDownShared expf next_single weights_view_ input prob sample σ).state.mem b
        = σ.mem b) ∧
    weights_view_.load
        (ConvolveLayer.PassUpShared expf next_single weights_view_ input prob sample σ).state.mem
      = weights_view_.load σ.mem ∧
    input.load
        (ConvolveLayer.PassUpShared expf next_single weights_view_ input prob sample σ).state.mem
      = input.load σ.mem ∧
    weights_view_.load
        (ConvolveLayer.PassDownShared expf next_single weights_view_ input prob sample σ).state.mem
      = weights_view_.load σ.mem ∧
    input.load
        (ConvolveLayer.PassDownShared expf next_single weights_view_ input prob sample σ).state.mem
      = input.load σ.mem := by
  have hup := PassUpShared_frame expf next_single weights_view_ input prob sample σ
  have hdown := PassDownShared_frame expf next_single weights_view_ input prob sample σ
  refine ⟨fun b hp hs => ⟨hup b hp hs, hdown b hp hs⟩, ?_, ?_, ?_, ?_⟩
  · simp only [View4.load, hup _ hweights.1 hweights.2]
  · simp only [View3.load, hup _ hinput.1 hinput.2]
  · simp only [View4.load, hdown _ hweights.1 hweights.2]
  · simp only [View3.load, hdown _ hinput.1 hinput.2]

/-- Four buffers of one element: the weight in buffer `0`, the input in buffer
`1`, the output views over buffers `2` and `3`. -/
theorem passes_leave_weights_and_input_witness :
    (unit_weights_view.buf ≠ (unit_view 2).buf ∧ unit_weights_view.buf ≠ (unit_view 3).buf) ∧
    ((unit_view 1).buf ≠ (unit_view 2).buf ∧ (unit_view 1).buf ≠ (unit_view 3).buf) ∧
    (ConvolveLayer.PassUpShared Real.exp (scenario_next_single ℝ) unit_weights_view
      (unit_view 1) (unit_view 2) (unit_view 3) (unit_shared_apart ℝ)).err = none ∧
    unit_weights_view.load (ConvolveLayer.PassUpShared Real.exp (scenario_next_single ℝ)
      unit_weights_view (unit_view 1) (unit_view 2) (unit_view 3) (unit_shared_apart ℝ)).state.mem
      = unit_weights_view.load (unit_shared_apart ℝ).mem ∧
    (unit_view 1).load (ConvolveLayer.PassUpShared Real.exp (scenario_next_single ℝ)
      unit_weights_view (unit_view 1) (unit_view 2) (unit_view 3) (unit_shared_apart ℝ)).state.mem
      = (unit_view 1).load (unit_shared_apart ℝ).mem ∧
    (ConvolveLayer.PassDownShared Real.exp (scenario_next_single ℝ) unit_weights_view
      (unit_view 1) (unit_view 2) (unit_view 3) (unit_shared_apart ℝ)).err = none ∧
    unit_weights_view.load (ConvolveLayer.PassDownShared Real.exp (scenario_next_single ℝ)
      unit_weights_view (unit_view 1) (unit_view 2) (unit_view 3) (unit_shared_apart ℝ)).state.mem
      = unit_weights_view.load (unit_shared_apart ℝ).mem ∧
    (unit_view 1).load (ConvolveLayer.PassDownShared Real.exp (scenario_next_single ℝ)
      unit_weights_view (unit_view 1) (unit_view 2) (unit_view 3) (unit_shared_apart ℝ)).state.mem
      = (unit_view 1).load (unit_shared_apart ℝ).mem := by
  have hw : unit_weights_view.buf ≠ (unit_view 2).buf ∧
      unit_weights_view.buf ≠ (unit_view 3).buf := by decide
  have hi : (unit_view 1).buf ≠ (unit_view 2).buf ∧ (unit_view 1).buf ≠ (unit_view 3).buf := by
    decide
  have h := passes_leave_weights_and_input Real.exp (scenario_next_single ℝ) unit_weights_view
    (unit_view 1) (unit_view 2) (unit_view 3) (unit_shared_apart ℝ) hw hi
  exact ⟨hw, hi, rfl, h.2.1, h.2.2.1, rfl, h.2.2.2.1, h.2.2.2.2⟩

end FrameClaims


section TrainAndPassDownFrames

variable {F S : Type}

/-- C16 (the code on every input): `ConvolveLayer.Train` runs a kernel with an
empty body over the extent of the weights, so the layer after `Train` is the
layer before, whatever the layer states and the learning rate. -/
theorem Train_leaves_weights_unchanged (self : ConvolveLayer F)
    (bottom_layer top_layer : DataLayer F S) (learning_rate : F) :
    self.Train bottom_layer top_layer learning_rate = self := by
  unfold ConvolveLayer.Train
  rw [parallel_for_each_id]

/-- C18: `DeepModel.PassDown()`, failing or not, leaves in every layer of the
model the activations (`data_` and the extent of its view) as they were, as well
as the random field and the memory; the number of layers and every convolve
layer are unchanged.  Only generated buffers are written. -/
theorem DeepModel_PassDown_writes_only_generated
    (passDown2 : ConvolveLayer F → Volume F → Volume F → Res (Volume F))
    (self : DeepModel F S) :
    (self.PassDown passDown2).state.convolve_layers_ = self.convolve_layers_ ∧
    (self.PassDown passDown2).state.data_layers_.length = self.data_layers_.length ∧
    ∀ i : Nat, ((self.PassDown passDown2).state.data_layers_[i]?).map
        (fun l : DataLayer F S => (l.data_view_, l.rand_collection_, l.memory_))
      = (self.data_layers_[i]?).map
        (fun l : DataLayer F S => (l.data_view_, l.rand_collection_, l.memory_)) := by
  refine ⟨(DeepModel_PassDown_frame passDown2 self).1, (DeepModel_PassDown_frame passDown2 self).2.1,
    fun i => ?_⟩
  have h := DeepModel_PassDown_frame_of
    (fun l : DataLayer F S => (l.data_view_, l.rand_collection_, l.memory_))
    (fun _ _ => rfl) passDown2 self
  have h' := congrArg (fun l => l[i]?) h
  simp only [List.getElem?_map] at h'
  exact h'

end TrainAndPassDownFrames

/-! ## Order of evaluation in `ConvolveLayer::PassUp` -/

section OrderIndependence

variable {F S : Type} [LinearOrderedField F]

/-- A kernel run of `PassUp` that succeeds on sound buffers changes, in the three
buffers, only the cells of its own unit. -/
theorem PassUp_kernel_writes_own_cells (expf : F → F) (next_single : S → F × S)
    (w : Tensor4 F) (bottom_layer : Volume F) (idx : Nat × Nat × Nat) (st st' : Outputs F S)
    (hst : st.Sound)
    (hk : ConvolveLayer.PassUp.kernel expf next_single w bottom_layer idx st = .ok st')
    (j : Nat × Nat × Nat) (hj : idx ≠ j) :
    st'.prob.read j.1 j.2.1 j.2.2 = st.prob.read j.1 j.2.1 j.2.2 ∧
    st'.sample.read j.1 j.2.1 j.2.2 = st.sample.read j.1 j.2.1 j.2.2 ∧
    st'.rand_collection.read j.1 j.2.1 j.2.2 = st.rand_collection.read j.1 j.2.1 j.2.2 := by
  have hk' : (ConvolveLayer.PassUp.sum w bottom_layer idx >>=
      fun r => activate expf next_single idx r st) = .ok st' := hk
  cases hs : ConvolveLayer.PassUp.sum w bottom_layer idx with
  | error e =>
    rw [hs] at hk'
    exact absurd hk' (by intro h; cases h)
  | ok r =>
    rw [hs] at hk'
    have hact : activate expf next_single idx r st = .ok st' := hk'
    by_cases hin : st.prob.inExtent idx.1 idx.2.1 idx.2.2
    · obtain ⟨s0, s1, s2⟩ := hst.sample_extent
      obtain ⟨r0, r1, r2⟩ := hst.rand_extent
      have his : st.sample.inExtent idx.1 idx.2.1 idx.2.2 :=
        ⟨s0 ▸ hin.1, s1 ▸ hin.2.1, s2 ▸ hin.2.2⟩
      have hir : st.rand_collection.inExtent idx.1 idx.2.1 idx.2.2 :=
        ⟨r0 ▸ hin.1, r1 ▸ hin.2.1, r2 ▸ hin.2.2⟩
      obtain ⟨s, hrs⟩ := Volume.read_ok_exists _ hst.rand_WF hir
      rw [activate_ok expf next_single idx r st hst.prob_WF hst.sample_WF hst.rand_WF hin his hir
        s hrs] at hact
      have hst' : st' = activated expf next_single idx r s st := (Except.ok.inj hact).symm
      obtain ⟨a1, a2, a3⟩ := activated_read expf next_single idx r s st hst.prob_WF
        hst.sample_WF hst.rand_WF hin his hir j
      rw [if_neg hj] at a1 a2 a3
      rw [hst']
      exact ⟨a1, a2, a3⟩
    · have hw : st.prob.write idx.1 idx.2.1 idx.2.2 (logistic expf r) = .error .outOfRange :=
        Volume.write_error _ hin _
      simp only [activate, hw] at hact
      exact absurd hact (by intro h; cases h)

/-- C15: the result of `ConvolveLayer.PassUp` does not depend on the order in
which the output units are evaluated: when every read is in range, running the
kernel body sequentially over any permutation of the unit coordinates of the top
extent gives the same outcome as the call, that is the same `top_prob`, the same
`top_sample` and the same final random field, without failure. -/
theorem PassUp_order_independent (expf : F → F) (next_single : S → F × S)
    (self : ConvolveLayer F) (bottom_layer : Volume F) (st : Outputs F S)
    (hw : self.weights_view_.WF) (hb : bottom_layer.WF) (hst : st.Sound)
    (hN : st.prob.e0 = self.neuron_num)
    (hrange : ConvolveLayer.PassUp.ReadsInRange self bottom_layer st.prob.e0 st.prob.e1 st.prob.e2)
    (order : List (Nat × Nat × Nat))
    (hperm : order.Perm (extentIdx st.prob.e0 st.prob.e1 st.prob.e2)) :
    parallel_for_each (ConvolveLayer.PassUp.kernel expf next_single self.weights_view_ bottom_layer)
        order st
      = self.PassUp expf next_single bottom_layer st ∧
    (self.PassUp expf next_single bottom_layer st).err = none := by
  obtain ⟨t, hrun, hd⟩ := PassUp_dispatched expf next_single self bottom_layer st hw hb hst hN
    hrange
  have hnd : order.Nodup := hperm.nodup_iff.mpr (nodup_extentIdx _ _ _)
  obtain ⟨s0, s1, s2⟩ := hst.sample_extent
  obtain ⟨r0, r1, r2⟩ := hst.rand_extent
  obtain ⟨t', hrun', hd'⟩ := dispatch_spec expf next_single
    (ConvolveLayer.PassUp.sum self.weights_view_ bottom_layer)
    (upSum self.weights_view_ bottom_layer) order hnd
    (fun idx hidx => by
      obtain ⟨h0, h1, h2⟩ := mem_extentIdx.mp (hperm.mem_iff.mp hidx)
      exact PassUp_sum_eq _ _ hw hb idx (by rw [hN] at h0; exact h0)
        (hrange idx.1 idx.2.1 idx.2.2 h0 h1 h2))
    st hst.prob_WF hst.sample_WF hst.rand_WF
    (fun idx hidx => by
      obtain ⟨h0, h1, h2⟩ := mem_extentIdx.mp (hperm.mem_iff.mp hidx)
      exact ⟨⟨h0, h1, h2⟩, ⟨s0 ▸ h0, s1 ▸ h1, s2 ▸ h2⟩, ⟨r0 ▸ h0, r1 ▸ h1, r2 ▸ h2⟩⟩)
  have hk : parallel_for_each
      (ConvolveLayer.PassUp.kernel expf next_single self.weights_view_ bottom_layer) order st
      = ⟨t', none⟩ := hrun'
  rw [hk, hrun]
  have hm : ∀ idx, idx ∈ order ↔ idx ∈ extentIdx st.prob.e0 st.prob.e1 st.prob.e2 :=
    fun idx => hperm.mem_iff
  have hp := Dispatched.prob_eq hd' hd hm ⟨rfl, rfl, rfl⟩ (fun _ _ _ _ _ => rfl)
  obtain ⟨hs, hr⟩ := Dispatched.sample_rand_eq hd' hd hm ⟨rfl, rfl, rfl⟩ ⟨rfl, rfl, rfl⟩
    (fun _ _ => rfl) (fun _ _ _ _ _ => rfl) (fun _ _ _ _ _ => rfl)
  obtain ⟨tp, ts, tr⟩ := t
  obtain ⟨tp', ts', tr'⟩ := t'
  simp only at hp hs hr
  subst hp hs hr
  exact ⟨rfl, rfl⟩

/-- The scenario of the specification over the real numbers, with the output
units taken in the reverse of the row-major order. -/
theorem PassUp_order_independent_witness :
    (scenario_layer ℝ).weights_view_.WF ∧ (scenario_bottom ℝ).WF ∧ (scenario_top ℝ).Sound ∧
    (scenario_top ℝ).prob.e0 = (scenario_layer ℝ).neuron_num ∧
    ConvolveLayer.PassUp.ReadsInRange (scenario_layer ℝ) (scenario_bottom ℝ) 2 3 3 ∧
    (extentIdx 2 3 3).reverse.Perm (extentIdx 2 3 3) ∧
    parallel_for_each
        (ConvolveLayer.PassUp.kernel Real.exp (scenario_next_single ℝ)
          (scenario_layer ℝ).weights_view_ (scenario_bottom ℝ))
        (extentIdx 2 3 3).reverse (scenario_top ℝ)
      = (scenario_layer ℝ).PassUp Real.exp (scenario_next_single ℝ) (scenario_bottom ℝ)
          (scenario_top ℝ) := by
  have hw : (scenario_layer ℝ).weights_view_.WF := by decide
  have hb : (scenario_bottom ℝ).WF := by decide
  have hst : (scenario_top ℝ).Sound := ⟨by decide, by decide, by decide, by decide, by decide⟩
  have hN : (scenario_top ℝ).prob.e0 = (scenario_layer ℝ).neuron_num := rfl
  have hrange : ConvolveLayer.PassUp.ReadsInRange (scenario_layer ℝ) (scenario_bottom ℝ) 2 3 3 := by
    intro n x y _ hx hy d u v hd hu hv
    simp only [scenario_layer] at hd hu hv
    simp only [Volume.inExtent, scenario_bottom]
    omega
  exact ⟨hw, hb, hst, hN, hrange, List.reverse_perm _,
    (PassUp_order_independent Real.exp (scenario_next_single ℝ) (scenario_layer ℝ)
      (scenario_bottom ℝ) (scenario_top ℝ) hw hb hst hN hrange (extentIdx 2 3 3).reverse
      (List.reverse_perm _)).1⟩

end OrderIndependence

/-! ## The terms of the `PassDown` sum -/

theorem mem_PassDown_terms {F : Type} (w : Tensor4 F) (idx : Nat × Nat × Nat) (n u v : Nat) :
    (n, u, v) ∈ ConvolveLayer.PassDown.terms w idx ↔
      (n < w.e0 ∧ u < w.e2 ∧ v < w.e3) ∧
      ((idx.2.1 : Int) - u ≥ 0 ∧ (idx.2.2 : Int) - v ≥ 0) := by
  simp only [ConvolveLayer.PassDown.terms, List.mem_flatMap, List.mem_map, List.mem_filter,
    List.mem_range, decide_eq_true_eq, Prod.mk.injEq]
  constructor
  · rintro ⟨a, ha, b, hb, c, ⟨hc, hg⟩, rfl, rfl, rfl⟩
    exact ⟨⟨ha, hb, hc⟩, hg⟩
  · rintro ⟨⟨ha, hb, hc⟩, hg⟩
    exact ⟨n, ha, u, hb, v, ⟨hc, hg⟩, rfl, rfl, rfl⟩


section PassDownTerms

variable {F : Type} [LinearOrderedField F]

theorem foldlM_flatMap_except {α β γ : Type} (f : β → γ → Except Err β) (g : α → List γ)
    (l : List α) (init : β) :
    (l.flatMap g).foldlM f init = l.foldlM (fun acc a => (g a).foldlM f acc) init := by
  induction l generalizing init with
  | nil => rfl
  | cons a l ih =>
    rw [List.flatMap_cons, List.foldlM_append, List.foldlM_cons]
    congr 1
    funext acc
    exact ih acc

theorem foldlM_filter_map_except {α β γ : Type} (f : β → γ → Except Err β) (p : α → Bool)
    (h : α → γ) (l : List α) (init : β) :
    ((l.filter p).map h).foldlM f init
      = l.foldlM (fun acc a => if p a = true then f acc (h a) else pure acc) init := by
  induction l generalizing init with
  | nil => rfl
  | cons a l ih =>
    by_cases hp : p a = true
    · rw [List.filter_cons_of_pos hp, List.map_cons, List.foldlM_cons, List.foldlM_cons,
        if_pos hp]
      congr 1
      funext acc
      exact ih acc
    · rw [List.filter_cons_of_neg hp, List.foldlM_cons, if_neg hp, ih]
      rfl

theorem foldlM_congr_except {α β : Type} (f f' : β → α → Except Err β) (l : List α)
    (h : ∀ a ∈ l, ∀ acc, f acc a = f' acc a) (init : β) :
    l.foldlM f init = l.foldlM f' init := by
  induction l generalizing init with
  | nil => rfl
  | cons a l ih =>
    rw [List.foldlM_cons, List.foldlM_cons, h a (List.mem_cons_self _ _) init]
    congr 1
    funext acc
    exact ih (fun b hb => h b (List.mem_cons_of_mem _ hb)) acc

/-- The sum of the `PassDown` kernel is the fold of `addTerm` over `terms`. -/
theorem PassDown_sum_eq_fold_terms (w : Tensor4 F) (top_layer : Volume F)
    (idx : Nat × Nat × Nat) :
    ConvolveLayer.PassDown.sum w top_layer idx
      = (ConvolveLayer.PassDown.terms w idx).foldlM
          (ConvolveLayer.PassDown.addTerm w top_layer idx) 0 := by
  unfold ConvolveLayer.PassDown.sum ConvolveLayer.PassDown.terms forLoop
  rw [foldlM_flatMap_except]
  apply foldlM_congr_except
  intro n hn acc
  have hn' : n < w.e0 := List.mem_range.mp hn
  rw [foldlM_flatMap_except]
  simp only [Tensor4.project_ok w hn']
  show List.foldlM _ acc (List.range w.e2) = _
  apply foldlM_congr_except
  intro u _ acc
  rw [foldlM_filter_map_except]
  apply foldlM_congr_except
  intro v _ acc
  simp only [decide_eq_true_eq, ConvolveLayer.PassDown.addTerm, Tensor4.project_ok w hn',
    forLoop]
  rfl

/-- C17: in `ConvolveLayer.PassDown`, for every bottom unit `(d, x, y)`, the sum
of the kernel is the fold of the term statement over the list of terms of the
loops, and that list contains the term of neuron `n` and kernel offset `(u, v)`
(within the loop bounds) if and only if `x - u ≥ 0` and `y - v ≥ 0`; the top
index `(n, x - u, y - v)` of every term is non-negative and is the index read,
without wraparound. -/
theorem PassDown_term_iff_guard (w : Tensor4 F) (top_layer : Volume F)
    (idx : Nat × Nat × Nat) :
    ConvolveLayer.PassDown.sum w top_layer idx
      = (ConvolveLayer.PassDown.terms w idx).foldlM
          (ConvolveLayer.PassDown.addTerm w top_layer idx) 0 ∧
    (∀ n u v, n < w.e0 → u < w.e2 → v < w.e3 →
      ((n, u, v) ∈ ConvolveLayer.PassDown.terms w idx ↔
        ((idx.2.1 : Int) - u ≥ 0 ∧ (idx.2.2 : Int) - v ≥ 0))) ∧
    (∀ t ∈ ConvolveLayer.PassDown.terms w idx,
      (t.1 < w.e0 ∧ t.2.1 < w.e2 ∧ t.2.2 < w.e3) ∧
      (0 : Int) ≤ (idx.2.1 : Int) - t.2.1 ∧ (0 : Int) ≤ (idx.2.2 : Int) - t.2.2 ∧
      top_layer.readI t.1 ((idx.2.1 : Int) - t.2.1) ((idx.2.2 : Int) - t.2.2)
        = top_layer.read t.1 (idx.2.1 - t.2.1) (idx.2.2 - t.2.2)) := by
  refine ⟨PassDown_sum_eq_fold_terms w top_layer idx, ?_, ?_⟩
  · intro n u v hn hu hv
    rw [mem_PassDown_terms]
    exact ⟨fun h => h.2, fun h => ⟨⟨hn, hu, hv⟩, h⟩⟩
  · rintro ⟨n, u, v⟩ ht
    obtain ⟨hb, hg1, hg2⟩ := (mem_PassDown_terms w idx n u v).mp ht
    refine ⟨hb, hg1, hg2, ?_⟩
    exact Volume.readI_cast top_layer n idx.2.1 idx.2.2 u v (by omega) (by omega)

end PassDownTerms

/-! ## The reads of `ConvolveLayer::PassUp` -/

section PassUpReads

variable {F S : Type} [LinearOrderedField F]

theorem forLoop_ok_inv {β : Type} (n : Nat) (body : Nat → β → Except Err β) (init r : β)
    (h : forLoop n body init = .ok r) : ∀ i, i < n → ∃ acc acc', body i acc = .ok acc' := by
  induction n generalizing r with
  | zero => intro i hi; exact absurd hi (Nat.not_lt_zero i)
  | succ n ih =>
    rw [forLoop_succ] at h
    cases hpre : forLoop n body init with
    | error e =>
      rw [hpre] at h
      exact absurd h (by intro hx; cases hx)
    | ok acc =>
      rw [hpre] at h
      intro i hi
      rcases Nat.lt_succ_iff_lt_or_eq.mp hi with hlt | rfl
      · exact ih acc hpre i hlt
      · exact ⟨acc, r, h⟩

theorem forLoop_error_kind {β : Type} (n : Nat) (body : Nat → β → Except Err β) (init : β)
    (hbody : ∀ i acc e, body i acc = .error e → e = .outOfRange) (e : Err)
    (h : forLoop n body init = .error e) : e = .outOfRange := by
  induction n generalizing e with
  | zero => exact absurd h (by intro hx; cases hx)
  | succ n ih =>
    rw [forLoop_succ] at h
    cases hpre : forLoop n body init with
    | error e' =>
      rw [hpre] at h
      have : e' = e := by cases h; rfl
      exact this ▸ ih e' hpre
    | ok acc =>
      rw [hpre] at h
      exact hbody n acc e h

theorem Volume.read_error_kind {α : Type} (v : Volume α) (i j k : Nat) (e : Err)
    (h : v.read i j k = .error e) : e = .outOfRange := by
  unfold Volume.read at h
  split at h
  · split at h
    · cases h
    · cases h; rfl
  · cases h; rfl

theorem PassUp_sum_unfold (w : Tensor4 F) (bottom_layer : Volume F) (idx : Nat × Nat × Nat)
    (hn : idx.1 < w.e0) :
    ConvolveLayer.PassUp.sum w bottom_layer idx
      = forLoop w.e1 (fun depth_idx result =>
          forLoop w.e2 (fun width_idx result =>
            forLoop w.e3 (fun height_idx result => do
              let b ← bottom_layer.read (0 + depth_idx) (idx.2.1 + width_idx)
                (idx.2.2 + height_idx)
              let c ← (⟨w.e1, w.e2, w.e3,
                (w.data.drop (idx.1 * (w.e1 * w.e2 * w.e3))).take (w.e1 * w.e2 * w.e3)⟩ :
                Volume F).read depth_idx width_idx height_idx
              pure (result + b * c)) result) result) 0 := by
  unfold ConvolveLayer.PassUp.sum
  rw [Tensor4.project_ok w hn]
  rfl

/-- A kernel sum of `PassUp` that succeeds has read `bottom_layer` within its
extent only. -/
theorem PassUp_sum_ok_reads (w : Tensor4 F) (bottom_layer : Volume F) (idx : Nat × Nat × Nat)
    (r : F) (h : ConvolveLayer.PassUp.sum w bottom_layer idx = .ok r) :
    ∀ d u v, d < w.e1 → u < w.e2 → v < w.e3 →
      bottom_layer.inExtent d (idx.2.1 + u) (idx.2.2 + v) := by
  by_cases hn : idx.1 < w.e0
  · rw [PassUp_sum_unfold w bottom_layer idx hn] at h
    intro d u v hd hu hv
    obtain ⟨a1, a1', h1⟩ := forLoop_ok_inv _ _ _ _ h d hd
    obtain ⟨a2, a2', h2⟩ := forLoop_ok_inv _ _ _ _ h1 u hu
    obtain ⟨a3, a3', h3⟩ := forLoop_ok_inv _ _ _ _ h2 v hv
    by_contra hin
    rw [Nat.zero_add, Volume.read_error _ hin] at h3
    exact absurd h3 (by intro hx; cases hx)
  · simp only [ConvolveLayer.PassUp.sum, Tensor4.project, hn, if_false] at h
    exact absurd h (by intro hx; cases hx)

/-- A kernel sum of `PassUp` that fails has failed on an out-of-range access. -/
theorem PassUp_sum_error_kind (w : Tensor4 F) (bottom_layer : Volume F) (idx : Nat × Nat × Nat)
    (e : Err) (h : ConvolveLayer.PassUp.sum w bottom_layer idx = .error e) :
    e = .outOfRange := by
  by_cases hn : idx.1 < w.e0
  · rw [PassUp_sum_unfold w bottom_layer idx hn] at h
    refine forLoop_error_kind _ _ _ ?_ e h
    intro d a1 e1 h1
    refine forLoop_error_kind _ _ _ ?_ e1 h1
    intro u a2 e2 h2
    refine forLoop_error_kind _ _ _ ?_ e2 h2
    intro v a3 e3 h3
    cases hb : bottom_layer.read (0 + d) (idx.2.1 + u) (idx.2.2 + v) with
    | error eb =>
      rw [hb] at h3
      have : eb = e3 := by cases h3; rfl
      exact this ▸ Volume.read_error_kind _ _ _ _ _ hb
    | ok b =>
      rw [hb] at h3
      cases hc : (⟨w.e1, w.e2, w.e3,
          (w.data.drop (idx.1 * (w.e1 * w.e2 * w.e3))).take (w.e1 * w.e2 * w.e3)⟩ :
          Volume F).read d u v with
      | error ec =>
        rw [hc] at h3
        have : ec = e3 := by cases h3; rfl
        exact this ▸ Volume.read_error_kind _ _ _ _ _ hc
      | ok c =>
        rw [hc] at h3
        cases h3
  · simp only [ConvolveLayer.PassUp.sum, Tensor4.project, hn, if_false] at h
    cases h
    rfl

theorem parallel_for_each_fails {ι σ : Type} (body : ι → σ → Except Err σ) (idxs : List ι)
    (idx : ι) (hmem : idx ∈ idxs) (hfail : ∀ s, ∃ e, body idx s = .error e) (s : σ) :
    (parallel_for_each body idxs s).err ≠ none := by
  induction idxs generalizing s with
  | nil => exact absurd hmem (List.not_mem_nil _)
  | cons i is ih =>
    cases hb : body i s with
    | error e => simp [parallel_for_each, hb]
    | ok s' =>
      simp only [parallel_for_each, hb]
      rcases List.mem_cons.mp hmem with rfl | htail
      · obtain ⟨e, he⟩ := hfail s
        rw [he] at hb
        cases hb
      · exact ih htail s'

/-- C19: with the bottom depth equal to the neuron depth and the top depth equal
to the neuron count: if `top width + kernel width - 1 ≤ bottom width` and
`top height + kernel height - 1 ≤ bottom height`, then at every output unit
every read of `bottom` is within its extent, every kernel sum succeeds (no read
of `bottom` or of the weights fails) and the call succeeds; conversely, if the
top extent and the kernel are non-empty and one of the two inequalities fails,
then some output unit reads `bottom` outside its extent: its kernel sum fails
with an out-of-range access, and so does the call. -/
theorem PassUp_reads_in_range_iff_fits (expf : F → F) (next_single : S → F × S)
    (self : ConvolveLayer F) (bottom_layer : Volume F) (st : Outputs F S)
    (hw : self.weights_view_.WF) (hb : bottom_layer.WF) (hst : st.Sound)
    (hN : st.prob.e0 = self.neuron_num) (hdepth : bottom_layer.e0 = self.weights_view_.e1) :
    (st.prob.e1 + self.weights_view_.e2 - 1 ≤ bottom_layer.e1 →
      st.prob.e2 + self.weights_view_.e3 - 1 ≤ bottom_layer.e2 →
      ConvolveLayer.PassUp.ReadsInRange self bottom_layer st.prob.e0 st.prob.e1 st.prob.e2 ∧
      (∀ idx ∈ extentIdx st.prob.e0 st.prob.e1 st.prob.e2,
        ConvolveLayer.PassUp.sum self.weights_view_ bottom_layer idx
          = .ok (upSum self.weights_view_ bottom_layer idx)) ∧
      (self.PassUp expf next_single bottom_layer st).err = none) ∧
    (0 < st.prob.e0 → 0 < st.prob.e1 → 0 < st.prob.e2 →
      0 < self.weights_view_.e1 → 0 < self.weights_view_.e2 → 0 < self.weights_view_.e3 →
      (¬ (st.prob.e1 + self.weights_view_.e2 - 1 ≤ bottom_layer.e1) ∨
        ¬ (st.prob.e2 + self.weights_view_.e3 - 1 ≤ bottom_layer.e2)) →
      (∃ idx ∈ extentIdx st.prob.e0 st.prob.e1 st.prob.e2,
        (∃ d u v, d < self.weights_view_.e1 ∧ u < self.weights_view_.e2 ∧
          v < self.weights_view_.e3 ∧ ¬ bottom_layer.inExtent d (idx.2.1 + u) (idx.2.2 + v)) ∧
        ConvolveLayer.PassUp.sum self.weights_view_ bottom_layer idx = .error .outOfRange) ∧
      (self.PassUp expf next_single bottom_layer st).err ≠ none) := by
  constructor
  · intro hwidth hheight
    have hrange : ConvolveLayer.PassUp.ReadsInRange self bottom_layer
        st.prob.e0 st.prob.e1 st.prob.e2 := by
      intro n x y _ hx hy d u v hd hu hv
      refine ⟨?_, ?_, ?_⟩ <;> omega
    refine ⟨hrange, ?_, ?_⟩
    · intro idx hidx
      obtain ⟨h0, h1, h2⟩ := mem_extentIdx.mp hidx
      exact PassUp_sum_eq _ _ hw hb idx (by rw [hN] at h0; exact h0)
        (hrange idx.1 idx.2.1 idx.2.2 h0 h1 h2)
    · obtain ⟨st', hrun, _⟩ := PassUp_dispatched expf next_single self bottom_layer st hw hb hst
        hN hrange
      rw [hrun]
  · intro t0 t1 t2 k1 k2 k3 hfail
    have hmem : (0, st.prob.e1 - 1, st.prob.e2 - 1) ∈ extentIdx st.prob.e0 st.prob.e1 st.prob.e2 :=
      mem_extentIdx.mpr ⟨t0, by simp only; omega, by simp only; omega⟩
    have hbad : ∃ d u v, d < self.weights_view_.e1 ∧ u < self.weights_view_.e2 ∧
        v < self.weights_view_.e3 ∧
        ¬ bottom_layer.inExtent d (st.prob.e1 - 1 + u) (st.prob.e2 - 1 + v) := by
      rcases hfail with hf | hf
      · refine ⟨0, self.weights_view_.e2 - 1, 0, k1, by omega, k3, ?_⟩
        intro hin
        have := hin.2.1
        omega
      · refine ⟨0, 0, self.weights_view_.e3 - 1, k1, k2, by omega, ?_⟩
        intro hin
        have := hin.2.2
        omega
    have hsum : ConvolveLayer.PassUp.sum self.weights_view_ bottom_layer
        (0, st.prob.e1 - 1, st.prob.e2 - 1) = .error .outOfRange := by
      cases hs : ConvolveLayer.PassUp.sum self.weights_view_ bottom_layer
          (0, st.prob.e1 - 1, st.prob.e2 - 1) with
      | ok r =>
        obtain ⟨d, u, v, hd, hu, hv, hnot⟩ := hbad
        exact absurd (PassUp_sum_ok_reads _ _ _ r hs d u v hd hu hv) hnot
      | error e => rw [PassUp_sum_error_kind _ _ _ e hs]
    refine ⟨⟨_, hmem, hbad, hsum⟩, ?_⟩
    unfold ConvolveLayer.PassUp
    rw [if_pos hN]
    refine parallel_for_each_fails _ _ _ hmem ?_ st
    intro s
    refine ⟨.outOfRange, ?_⟩
    show (ConvolveLayer.PassUp.sum self.weights_view_ bottom_layer
      (0, st.prob.e1 - 1, st.prob.e2 - 1) >>= fun r => activate expf next_single _ r s) = _
    rw [hsum]
    rfl

/-- The scenario of the specification over the real numbers: top `2×3×3`, kernel
`2×2`, bottom `4×4`, so that `3 + 2 - 1 ≤ 4` in width and in height. -/
theorem PassUp_reads_in_range_iff_fits_witness :
    (scenario_layer ℝ).weights_view_.WF ∧ (scenario_bottom ℝ).WF ∧ (scenario_top ℝ).Sound ∧
    (scenario_top ℝ).prob.e0 = (scenario_layer ℝ).neuron_num ∧
    (scenario_bottom ℝ).e0 = (scenario_layer ℝ).weights_view_.e1 ∧
    ConvolveLayer.PassUp.ReadsInRange (scenario_layer ℝ) (scenario_bottom ℝ) 2 3 3 ∧
    ((scenario_layer ℝ).PassUp Real.exp (scenario_next_single ℝ) (scenario_bottom ℝ)
      (scenario_top ℝ)).err = none := by
  have hw : (scenario_layer ℝ).weights_view_.WF := by decide
  have hb : (scenario_bottom ℝ).WF := by decide
  have hst : (scenario_top ℝ).Sound := ⟨by decide, by decide, by decide, by decide, by decide⟩
  have h := (PassUp_reads_in_range_iff_fits Real.exp (scenario_next_single ℝ) (scenario_layer ℝ)
    (scenario_bottom ℝ) (scenario_top ℝ) hw hb hst rfl rfl).1 (by decide) (by decide)
  exact ⟨hw, hb, hst, rfl, rfl, h.1, h.2.2⟩

end PassUpReads

end deep_learning_lib
